import Mathlib

/-!
# Archerfish: the per-tick simulation core of `main.go`

A shallow embedding of the simulation code of `main.go` and the properties of
its specification.

Modelling conventions.

* `float64` values are read as elements of an arbitrary linearly ordered field
  `K` (exact arithmetic, no rounding).  Every definition is computable and can
  be evaluated at `K = ℚ`; every theorem holds at `K = ℝ` as well.
* The functions of package `math` (`Sqrt`, `Atan2`, `Cos`, `Sin`, `Pi`), the
  height of the fish sprite and the construction of a seeded generator are
  supplied by an environment `Env K`.  `realEnv` is the environment of the real
  numbers.  `math.Pow(x, 2)` is written `x ^ 2`.
* The tick counters (`uint64`) and the score (`int`) are unbounded numbers.
* `*rand.Rand` is a stream of draws together with the number of draws consumed.
* Telemetry, audio and drawing calls have no effect on the simulation state and
  are left out; the player and play identifiers are only used by telemetry.
-/

namespace Archerfish

set_option linter.unusedSectionVars false

variable {K : Type} [LinearOrderedField K]

/-! ## Constants -/

/-- Constant `screenWidth`. -/
def screenWidth : K := 640
/-- Constant `screenHeight`. -/
def screenHeight : K := 480
/-- Constant `cameraF`. -/
def cameraF : K := 50
/-- Constant `fishPosXInCamera`. -/
def fishPosXInCamera : K := 0
/-- Constant `fishPosYInCamera`. -/
def fishPosYInCamera : K := 0
/-- Constant `fishPosZInCamera = cameraF`. -/
def fishPosZInCamera : K := cameraF
/-- Constant `touchableR`. -/
def touchableR : K := 50
/-- Constant `cameraHeight`. -/
def cameraHeight : K := 120
/-- Constant `gravity = 0.5`. -/
def gravity : K := 1 / 2
/-- Constant `bulletR`. -/
def bulletR : K := 10
/-- Constant `normalEnemyR`. -/
def normalEnemyR : K := 40
/-- Constant `dizzyEnemyR`. -/
def dizzyEnemyR : K := 35
/-- Constant `shyEnemyR`. -/
def shyEnemyR : K := 30
/-- Constant `normalEnemyYInScreen = screenHeight/2 - 50.0`. -/
def normalEnemyYInScreen : K := screenHeight / 2 - 50
/-- Constant `dizzyEnemyYInScreen = normalEnemyYInScreen - 70`. -/
def dizzyEnemyYInScreen : K := normalEnemyYInScreen - 70
/-- Constant `shyEnemyYInScreen = dizzyEnemyYInScreen - 70`. -/
def shyEnemyYInScreen : K := dizzyEnemyYInScreen - 70
/-- Constant `enemyZ = 200.0`. -/
def enemyZ : K := 200
/-- Constant `finishTimeInTicks = 60 * 60`. -/
def finishTimeInTicks : Nat := 60 * 60

/-! ## Projection -/

/-- Function `toScreenPosition`: camera space to screen space. -/
def toScreenPosition (xInCamera yInCamera zInCamera : K) : K × K :=
  let x := xInCamera * cameraF / zInCamera
  let y := (yInCamera + cameraHeight) * cameraF / zInCamera
  (x + screenWidth / 2, y + screenHeight / 2)

/-- Function `toCameraPosition`: screen space and a depth to camera space. -/
def toCameraPosition (xInScreen yInScreen zInCamera : K) : K × K :=
  let x := (xInScreen - screenWidth / 2) * zInCamera / cameraF
  let y := (yInScreen - screenHeight / 2) * zInCamera / cameraF - cameraHeight
  (x, y)

/-! ## Environment and random generator -/

/-- The round generator `*rand.Rand`: what `Int`, `Float64` and `NormFloat64`
return when called at stream position `pos` (for `NormFloat64` also the number
of positions it consumes), and the current position. -/
structure Rand (K : Type) where
  intAt : Nat → Nat
  floatAt : Nat → K
  normAt : Nat → K × Nat
  pos : Nat

/-- Method `Rand.Int`: the drawn integer and the advanced generator. -/
def Rand.Int (r : Rand K) : Nat × Rand K :=
  (r.intAt r.pos, { r with pos := r.pos + 1 })

/-- Method `Rand.Float64`: the drawn number and the advanced generator. -/
def Rand.Float64 (r : Rand K) : K × Rand K :=
  (r.floatAt r.pos, { r with pos := r.pos + 1 })

/-- Method `Rand.NormFloat64`: the drawn number and the advanced generator. -/
def Rand.NormFloat64 (r : Rand K) : K × Rand K :=
  ((r.normAt r.pos).1, { r with pos := r.pos + (r.normAt r.pos).2 })

/-- What the simulation takes from outside `main.go`: package `math`, the pixel
height of `fishImages[0]`, `rand.New(rand.NewSource(seed))`, and the bound on
the number of iterations of one leaf lane of the scene layout. -/
structure Env (K : Type) where
  sqrt : K → K
  atan2 : K → K → K
  cos : K → K
  sin : K → K
  pi : K
  fishImageHeight : Int
  newRand : Int → Rand K
  leafFuel : Nat

/-! ## Entities -/

/-- Type `Fish` (the back pointer to the game is not kept). -/
structure Fish (K : Type) where
  ticks : Nat
  x : K
  y : K
  z : K

/-- Method `Fish.Update`. -/
def Fish.Update (f : Fish K) : Fish K :=
  { f with ticks := f.ticks + 1 }

/-- Type `Bullet`. -/
structure Bullet (K : Type) where
  ticks : Nat
  x : K
  y : K
  z : K
  vx : K
  vy : K
  vz : K
  r : K

/-- Method `Bullet.Update`. -/
def Bullet.Update (b : Bullet K) : Bullet K :=
  let ticks := b.ticks + 1
  let vy := b.vy + gravity
  let x := b.x + b.vx
  let y := b.y + vy
  let z := b.z + b.vz
  { b with ticks := ticks, vy := vy, x := x, y := y, z := z }

/-- Type `SplashEffect`. -/
structure SplashEffect (K : Type) where
  ticks : Nat
  x : K
  y : K
  z : K
  vx : K
  vy : K

/-- Method `SplashEffect.Update`. -/
def SplashEffect.Update (e : SplashEffect K) : SplashEffect K :=
  let ticks := e.ticks + 1
  let vy := e.vy + gravity
  let x := e.x + e.vx
  let y := e.y + vy
  { e with ticks := ticks, vy := vy, x := x, y := y }

/-- Type `EnemyKind`. -/
inductive EnemyKind where
  | Normal
  | Dizzy
  | Shy
  deriving DecidableEq, Repr

/-- Type `Enemy` (the back pointer to the game is not kept; the generator it
reaches through that pointer is passed to `Enemy.Update`). -/
structure Enemy (K : Type) where
  ticks : Nat
  kind : EnemyKind
  hit : Bool
  x : K
  y : K
  z : K
  vx : K
  vy : K
  vx0 : K
  r : K

/-- The kind-specific part of `Enemy.Update` (the `switch e.kind`), run on an
enemy that is not hit, after the tick counter was incremented. -/
def Enemy.behave (e : Enemy K) (rng : Rand K) : Enemy K × Rand K :=
  match e.kind with
  | EnemyKind.Normal => (e, rng)
  | EnemyKind.Dizzy =>
    if e.ticks % 60 = 0 then
      let d := rng.Int
      if d.1 % 2 = 0 then
        if e.vx = 0 then ({ e with vx := e.vx0 }, d.2) else ({ e with vx := 0 }, d.2)
      else (e, d.2)
    else (e, rng)
  | EnemyKind.Shy =>
    if e.ticks = 120 then ({ e with vx := 0 }, rng)
    else if e.ticks = 240 then ({ e with vx := e.vx0 * -1 }, rng)
    else (e, rng)

/-- Method `Enemy.Update`, with the round generator threaded through. -/
def Enemy.Update (e : Enemy K) (rng : Rand K) : Enemy K × Rand K :=
  let e1 := if e.ticks = 0 then { e with vx0 := e.vx } else e
  let e2 := { e1 with ticks := e1.ticks + 1 }
  if e2.hit then
    let vy := e2.vy + gravity
    ({ e2 with vy := vy, y := e2.y + vy }, rng)
  else
    let p := Enemy.behave e2 rng
    ({ p.1 with x := p.1.x + p.1.vx }, p.2)

/-- Type `GainEffect`. -/
structure GainEffect (K : Type) where
  ticks : Nat
  x : K
  y : K
  y0 : K
  score : Int

/-- Method `GainEffect.Update`. -/
def GainEffect.Update (env : Env K) (e : GainEffect K) : GainEffect K :=
  let e1 := if e.ticks = 0 then { e with y0 := e.y } else e
  let ticks := e1.ticks + 1
  { e1 with ticks := ticks, y := e1.y0 - 30 * env.sin ((ticks : K) / 60 * env.pi) }

/-- Type `Leaf`. -/
structure Leaf (K : Type) where
  xInScreen : K
  yInScreen : K
  scaleX : K
  scaleY : K
  rotate : K

/-- Type `GameMode`. -/
inductive GameMode where
  | Title
  | Playing
  | GameOver
  | Ranking
  deriving DecidableEq, Repr

/-- Type `TouchRecord`. -/
structure TouchRecord where
  Ticks : Nat
  JustTouched : Bool
  JustReleased : Bool
  X : Int
  Y : Int

/-- An entry of the ranking list (`logging.GameScore`). -/
structure GameScore where
  playerID : String
  score : Int

/-- What one tick reads from outside the game: the touch context after its
`Update` (`IsJustTouched`, `IsJustReleased`, `IsBeingTouched`,
`GetTouchPosition`), what a non-blocking receive on the ranking channel would
deliver at this tick (`none`: nothing ready), and the wall clock
`time.Now().Unix()`. -/
structure Input where
  justTouched : Bool
  justReleased : Bool
  beingTouched : Bool
  X : Int
  Y : Int
  rankingRecv : Option (List GameScore)
  now : Int

/-- Type `Game`.  Field `rankingChan` records whether the channel is non-nil. -/
structure Game (K : Type) where
  fixedRandomSeed : Int
  touchBuffer : List TouchRecord
  random : Rand K
  mode : GameMode
  ticksFromModeStart : Nat
  hold : Bool
  score : Int
  rankingChan : Bool
  ranking : List GameScore
  fish : Fish K
  bullets : List (Bullet K)
  splashEffects : List (SplashEffect K)
  enemies : List (Enemy K)
  gainEffects : List (GainEffect K)
  leaves : List (Leaf K)
  timeInTicks : Nat

/-! ## Helpers of `Game.Update` -/

/-- Method `Game.setNextMode`. -/
def Game.setNextMode (g : Game K) (mode : GameMode) : Game K :=
  { g with mode := mode, ticksFromModeStart := 0 }

/-- The loop body `for i := 0; i < 5; i++ { g.splashEffects = append(...) }`
that occurs three times in `Game.Update`: `n` splash effects at `(x, y, z)` with
`vx = ax * cos(pi * Float64())` and `vy = -ay * sin(pi * Float64())`. -/
def splashBurst (env : Env K) (x y z ax ay : K) :
    Nat → Rand K → List (SplashEffect K) × Rand K
  | 0, rng => ([], rng)
  | n + 1, rng =>
    let f1 := rng.Float64
    let f2 := f1.2.Float64
    let s : SplashEffect K :=
      { ticks := 0, x := x, y := y, z := z
        vx := ax * env.cos (env.pi * f1.1)
        vy := -ay * env.sin (env.pi * f2.1) }
    let rest := splashBurst env x y z ax ay n f2.2
    (s :: rest.1, rest.2)

/-- The inner loop `for x < screenWidth` of `initialize` for one lane `baseY`,
bounded by `fuel` iterations: the leaves laid out and the advanced generator. -/
def layoutLane (baseY : K) :
    Nat → K → Rand K → List (Leaf K) → List (Leaf K) × Rand K
  | 0, _, rng, acc => (acc, rng)
  | fuel + 1, x, rng, acc =>
    if x < screenWidth then
      let n1 := rng.NormFloat64
      let x1 := x + (100 + n1.1 * 20)
      if baseY = shyEnemyYInScreen ∧ x1 > 90 ∧ x1 < screenWidth - 90 then
        layoutLane baseY fuel x1 n1.2 acc
      else
        let n2 := n1.2.NormFloat64
        let n3 := n2.2.NormFloat64
        let i := n3.2.Int
        let n4 := i.2.NormFloat64
        let leaf : Leaf K :=
          { xInScreen := x1
            yInScreen := baseY + 13 + n2.1 * 1
            scaleX := (1 + n3.1 * (1 / 10)) * (((((i.1 % 2 * 2 : Nat) : Int) - 1 : Int)) : K)
            scaleY := 1 + n4.1 * (1 / 10)
            rotate := 0 }
        layoutLane baseY fuel x1 n4.2 (acc ++ [leaf])
    else (acc, rng)

/-- Method `Game.initialize` (named `initRound` here), given the wall clock
`now`.  Each leaf lane is laid out within `env.leafFuel` iterations. -/
def Game.initRound (env : Env K) (now : Int) (g : Game K) : Game K :=
  let seed := if g.fixedRandomSeed ≠ 0 then g.fixedRandomSeed else now
  let rng := env.newRand seed
  let l1 := layoutLane normalEnemyYInScreen env.leafFuel (-50) rng []
  let l2 := layoutLane dizzyEnemyYInScreen env.leafFuel (-50) l1.2 l1.1
  let l3 := layoutLane shyEnemyYInScreen env.leafFuel (-50) l2.2 l2.1
  Game.setNextMode
    { g with
      random := l3.2
      hold := false
      score := 0
      rankingChan := false
      ranking := []
      fish := { ticks := 0, x := fishPosXInCamera, y := fishPosYInCamera, z := fishPosZInCamera }
      bullets := []
      splashEffects := []
      enemies := []
      gainEffects := []
      leaves := l3.1
      timeInTicks := 0 }
    GameMode.Title

/-- The block `// Logging touches` of `Game.Update`, run after the mode tick
counter was incremented. -/
def logTouches (inp : Input) (g : Game K) : Game K :=
  let buf :=
    if inp.beingTouched || inp.justReleased then
      g.touchBuffer ++
        [{ Ticks := g.ticksFromModeStart, JustTouched := inp.justTouched
           JustReleased := inp.justReleased, X := inp.X, Y := inp.Y }]
    else g.touchBuffer
  match buf.getLast? with
  | none => { g with touchBuffer := buf }
  | some last =>
    if buf.length ≥ 60 ∨ last.Ticks > g.ticksFromModeStart ∨
        g.ticksFromModeStart - last.Ticks > 60 then
      { g with touchBuffer := [] }
    else { g with touchBuffer := buf }

/-- The four clamping statements of `getHoldPosition`, on the pointer position
already converted to `float64`. -/
def clampHoldPosition (x y : K) : K × K :=
  let fishY := (toScreenPosition (fishPosXInCamera : K) fishPosYInCamera fishPosZInCamera).2
  let x := if x < 0 then 0 else x
  let x := if x > screenWidth then screenWidth else x
  let y := if y < fishY then fishY else y
  let y := if y > screenHeight then screenHeight else y
  (x, y)

/-- Method `Game.getHoldPosition`: the touch position of the current tick,
converted to `float64` and clamped. -/
def getHoldPosition (inp : Input) : K × K :=
  clampHoldPosition (inp.X : K) (inp.Y : K)

/-- Method `Game.newBulletByTouchPosition`. -/
def newBulletByTouchPosition (env : Env K) (touchX touchY : K) : Bullet K :=
  let fish := toScreenPosition (fishPosXInCamera : K) fishPosYInCamera fishPosZInCamera
  let atan2 := env.atan2 (fish.2 - touchY) (fish.1 - touchX)
  let d := env.sqrt ((fish.1 - touchX) ^ 2 + (fish.2 - touchY) ^ 2)
  let r := 40 * d / (screenHeight - fish.2)
  { ticks := 0
    x := fishPosXInCamera
    y := fishPosYInCamera
    z := fishPosZInCamera
    vx := r * env.cos atan2
    vy := r * env.sin atan2
    vz := 3
    r := bulletR }

/-! ## The phases of a `GameModePlaying` tick -/

/-- The round timer: `if g.ticksFromModeStart > 3*60 { ...; g.timeInTicks++ }`. -/
def stepTimer (g : Game K) : Game K :=
  if g.ticksFromModeStart > 3 * 60 then { g with timeInTicks := g.timeInTicks + 1 } else g

/-- Aim start: `if g.timeInTicks > 0 && IsJustTouched() { ... g.hold = true }`. -/
def aimStart (inp : Input) (g : Game K) : Game K :=
  if g.timeInTicks > 0 ∧ inp.justTouched = true then
    let touchX : K := (inp.X : K)
    let touchY : K := (inp.Y : K)
    let fish := toScreenPosition (fishPosXInCamera : K) fishPosYInCamera fishPosZInCamera
    if (touchX - fish.1) ^ 2 + (touchY - fish.2) ^ 2 < touchableR ^ 2 then
      { g with hold := true }
    else g
  else g

/-- Release: `if g.hold && IsJustReleased() { ... }` fires a bullet and spawns
five splash effects at the fish. -/
def release (env : Env K) (inp : Input) (g : Game K) : Game K :=
  if g.hold = true ∧ inp.justReleased = true then
    let p : K × K := getHoldPosition inp
    let bullet := newBulletByTouchPosition env p.1 p.2
    let s := splashBurst env g.fish.x (g.fish.y - (env.fishImageHeight : K) / 2) g.fish.z
      5 10 5 g.random
    { g with
      hold := false
      bullets := g.bullets ++ [bullet]
      splashEffects := g.splashEffects ++ s.1
      random := s.2 }
  else g

/-- One iteration of the loop over the three spawn parameters of the block
`// Enemy enter`. -/
def enterOne (kind : EnemyKind) (appearanceProbability paramVx : K) (g : Game K) : Game K :=
  let f := g.random.Float64
  if f.1 < appearanceProbability then
    let i := f.2.Int
    let xInScreen : K := if i.1 % 2 = 0 then -50 else screenWidth + 50
    let vx : K := if xInScreen > 0 then paramVx * -1 else paramVx
    let lane : K × K :=
      match kind with
      | EnemyKind.Normal => (normalEnemyYInScreen, normalEnemyR)
      | EnemyKind.Dizzy => (dizzyEnemyYInScreen, dizzyEnemyR)
      | EnemyKind.Shy => (shyEnemyYInScreen, shyEnemyR)
    let p := toCameraPosition xInScreen lane.1 enemyZ
    { g with
      random := i.2
      enemies := g.enemies ++
        [{ ticks := 0, kind := kind, hit := false, x := p.1, y := p.2, z := enemyZ
           vx := vx, vy := 0, vx0 := 0, r := lane.2 }] }
  else { g with random := f.2 }

/-- The block `// Enemy enter`. -/
def enemyEnter (g : Game K) : Game K :=
  if g.ticksFromModeStart % 60 = 0 then
    enterOne EnemyKind.Shy (1 / 10) 4
      (enterOne EnemyKind.Dizzy (1 / 5) 4
        (enterOne EnemyKind.Normal (1 / 4) 2 g))
  else g

/-- The loop of the block `// Bullets`: the bullets kept, the splash effects
appended and the generator. -/
def updateBulletsLoop (env : Env K) :
    List (Bullet K) → List (Bullet K) × List (SplashEffect K) × Rand K →
    List (Bullet K) × List (SplashEffect K) × Rand K
  | [], acc => acc
  | b :: bs, (newBullets, splash, rng) =>
    let b1 := b.Update
    if b1.y > 0 then
      let s := splashBurst env b1.x 0 b1.z 10 10 5 rng
      updateBulletsLoop env bs (newBullets, splash ++ s.1, s.2)
    else updateBulletsLoop env bs (newBullets ++ [b1], splash, rng)

/-- The block `// Bullets`. -/
def updateBullets (env : Env K) (g : Game K) : Game K :=
  let r := updateBulletsLoop env g.bullets ([], g.splashEffects, g.random)
  { g with bullets := r.1, splashEffects := r.2.1, random := r.2.2 }

/-- The block `// SplashEffects`. -/
def updateSplashEffects (g : Game K) : Game K :=
  { g with
    splashEffects :=
      (g.splashEffects.map SplashEffect.Update).filter (fun e => decide (e.y ≤ 100)) }

/-- The loop of the block `// Enemies`: the enemies kept, the splash effects
appended and the generator. -/
def updateEnemiesLoop (env : Env K) :
    List (Enemy K) → List (Enemy K) × List (SplashEffect K) × Rand K →
    List (Enemy K) × List (SplashEffect K) × Rand K
  | [], acc => acc
  | e :: es, (newEnemies, splash, rng) =>
    let u := e.Update rng
    if u.1.y > 0 then
      let s := splashBurst env u.1.x 0 u.1.z 15 15 5 u.2
      updateEnemiesLoop env es (newEnemies, splash ++ s.1, s.2)
    else
      let x := (toScreenPosition u.1.x u.1.y u.1.z).1
      if x > -50 ∨ x < screenWidth + 50 then
        updateEnemiesLoop env es (newEnemies ++ [u.1], splash, u.2)
      else updateEnemiesLoop env es (newEnemies, splash, u.2)

/-- The block `// Enemies`. -/
def updateEnemies (env : Env K) (g : Game K) : Game K :=
  let r := updateEnemiesLoop env g.enemies ([], g.splashEffects, g.random)
  { g with enemies := r.1, splashEffects := r.2.1, random := r.2.2 }

/-- The block `// Gain effects`. -/
def updateGainEffects (env : Env K) (g : Game K) : Game K :=
  { g with
    gainEffects :=
      (g.gainEffects.map (GainEffect.Update env)).filter (fun e => decide (e.ticks < 60)) }

/-! ## Bullet and enemy collision -/

/-- The intersection test of the collision pass, without the `!e.hit` guard. -/
def intersects (e : Enemy K) (b : Bullet K) : Prop :=
  (e.x - b.x) ^ 2 + (e.y - b.y) ^ 2 + (e.z - b.z) ^ 2 < (e.r + b.r) ^ 2

instance (e : Enemy K) (b : Bullet K) : Decidable (intersects e b) := by
  unfold intersects; infer_instance

/-- The `switch e.kind` that assigns the score of a hit. -/
def kindScore : EnemyKind → Int
  | EnemyKind.Normal => 1
  | EnemyKind.Dizzy => 3
  | EnemyKind.Shy => 5

/-- The inner loop `for j := range g.enemies` for one bullet: the enemy list
after the loop and the enemy matched (as it was before it was marked), if any.
The loop stops at the first match. -/
def collideBullet (b : Bullet K) : List (Enemy K) → List (Enemy K) × Option (Enemy K)
  | [] => ([], none)
  | e :: es =>
    if e.hit = false ∧ intersects e b then ({ e with hit := true } :: es, some e)
    else
      let r := collideBullet b es
      (e :: r.1, r.2)

/-- The gain effect appended for a matched enemy. -/
def gainEffectOf (e : Enemy K) : GainEffect K :=
  let p := toScreenPosition e.x e.y e.z
  { ticks := 0, x := p.1, y := p.2, y0 := 0, score := kindScore e.kind }

/-- The state threaded through the outer loop of the collision pass. -/
structure CollisionState (K : Type) where
  enemies : List (Enemy K)
  gainEffects : List (GainEffect K)
  score : Int
  newBullets : List (Bullet K)

/-- The body of the outer loop `for i := range g.bullets` for one bullet. -/
def collideStep (st : CollisionState K) (b : Bullet K) : CollisionState K :=
  let r := collideBullet b st.enemies
  match r.2 with
  | some e =>
    { st with
      enemies := r.1
      gainEffects := st.gainEffects ++ [gainEffectOf e]
      score := st.score + kindScore e.kind }
  | none => { st with enemies := r.1, newBullets := st.newBullets ++ [b] }

/-- The outer loop of the collision pass. -/
def collideLoop (bs : List (Bullet K)) (st : CollisionState K) : CollisionState K :=
  bs.foldl collideStep st

/-- The block `// Bullet and enemy collision`. -/
def collision (g : Game K) : Game K :=
  let st := collideLoop g.bullets
    { enemies := g.enemies, gainEffects := g.gainEffects, score := g.score, newBullets := [] }
  { g with
    bullets := st.newBullets
    enemies := st.enemies
    gainEffects := st.gainEffects
    score := st.score }

/-- The block `if g.timeInTicks >= finishTimeInTicks { ... }`: the change to
`GameModeGameOver`; the ranking channel is created. -/
def finishRound (g : Game K) : Game K :=
  if g.timeInTicks ≥ finishTimeInTicks then
    { Game.setNextMode g GameMode.GameOver with rankingChan := true }
  else g

/-- The `case GameModePlaying` of `Game.Update` up to the collision pass: the
state on entry to the block `// Bullet and enemy collision`. -/
def beforeCollision (env : Env K) (inp : Input) (g : Game K) : Game K :=
  let g := stepTimer g
  let g := aimStart inp g
  let g := release env inp g
  let g := enemyEnter g
  let g := { g with fish := g.fish.Update }
  let g := updateBullets env g
  let g := updateSplashEffects g
  let g := updateEnemies env g
  updateGainEffects env g

/-- The `case GameModePlaying` of `Game.Update`. -/
def playingTick (env : Env K) (inp : Input) (g : Game K) : Game K :=
  let g := beforeCollision env inp g
  let g := collision g
  finishRound g

/-- The non-blocking receive `select { case ranking := <-g.rankingChan: ...
default: }`: a nil channel or a channel with nothing ready takes the default
branch. -/
def pollRanking (inp : Input) (g : Game K) : Game K :=
  match (if g.rankingChan then inp.rankingRecv else none) with
  | some ranking => { g with ranking := ranking }
  | none => g

/-- The `case GameModeGameOver` of `Game.Update`. -/
def gameOverTick (env : Env K) (inp : Input) (g : Game K) : Game K :=
  if g.ticksFromModeStart > 60 ∧ inp.justTouched = true then
    let g := pollRanking inp g
    if g.ranking.length > 0 then Game.setNextMode g GameMode.Ranking
    else Game.initRound env inp.now g
  else g

/-- The `case GameModeRanking` of `Game.Update`. -/
def rankingTick (env : Env K) (inp : Input) (g : Game K) : Game K :=
  if g.ranking.length = 0 ∨ (g.ticksFromModeStart > 60 ∧ inp.justTouched = true) then
    Game.initRound env inp.now g
  else g

/-- Method `Game.Update`: one tick. -/
def Game.Update (env : Env K) (inp : Input) (g : Game K) : Game K :=
  let g := { g with ticksFromModeStart := g.ticksFromModeStart + 1 }
  let g := logTouches inp g
  match g.mode with
  | GameMode.Title => if inp.justTouched = true then Game.setNextMode g GameMode.Playing else g
  | GameMode.Playing => playingTick env inp g
  | GameMode.GameOver => gameOverTick env inp g
  | GameMode.Ranking => rankingTick env inp g

/-- The state after a sequence of ticks, one input per tick. -/
def Game.run (env : Env K) : List Input → Game K → Game K
  | [], g => g
  | inp :: inps, g => Game.run env inps (Game.Update env inp g)

/-- The enemy and the generator after `n` successive calls of `Enemy.Update`. -/
def Enemy.updateN : Nat → Enemy K → Rand K → Enemy K × Rand K
  | 0, e, rng => (e, rng)
  | n + 1, e, rng =>
    let p := Enemy.updateN n e rng
    p.1.Update p.2

/-- The environment of the real numbers: package `math` read as the real
functions (`atan2 y x` is the argument of `x + y i`, which is `0` at the
origin as in Go). -/
noncomputable def realEnv (fishImageHeight : Int) (newRand : Int → Rand ℝ) (leafFuel : Nat) :
    Env ℝ :=
  { sqrt := Real.sqrt
    atan2 := fun y x => Complex.arg ⟨x, y⟩
    cos := Real.cos
    sin := Real.sin
    pi := Real.pi
    fishImageHeight := fishImageHeight
    newRand := newRand
    leafFuel := leafFuel }

/-- A generator over `ℚ` for evaluating examples: every draw is `0`. -/
def zeroRand : Rand ℚ :=
  { intAt := fun _ => 0, floatAt := fun _ => 0, normAt := fun _ => (0, 1), pos := 0 }

/-- An environment over `ℚ` for evaluating examples.  Its `math` functions are
placeholders: the statements evaluated with it hold for every environment. -/
def sampleEnv : Env ℚ :=
  { sqrt := fun x => x
    atan2 := fun _ _ => 0
    cos := fun _ => 1
    sin := fun _ => 0
    pi := 3
    fishImageHeight := 50
    newRand := fun _ => zeroRand
    leafFuel := 64 }

/-- A Shy enemy entering from the left with velocity `4`, as the spawner creates it. -/
def sampleShy : Enemy ℚ :=
  { ticks := 0, kind := EnemyKind.Shy, hit := false, x := -1480, y := -880, z := 200
    vx := 4, vy := 0, vx0 := 0, r := 30 }

/-- The relation between an enemy before and after a stretch of the collision
pass: unchanged, or not hit before and marked hit with nothing else changed. -/
def Marked (e e1 : Enemy K) : Prop :=
  e1 = e ∨ (e.hit = false ∧ e1 = { e with hit := true })

/-- The sum of `kindScore` over the positions of an enemy list that are not hit
in the first list and hit in the second (the enemies newly marked hit). -/
def newHitScore : List (Enemy K) → List (Enemy K) → Int
  | e :: es, e1 :: es1 =>
    (if e.hit = false ∧ e1.hit = true then kindScore e.kind else 0) + newHitScore es es1
  | _, _ => 0

/-- The number of positions of an enemy list that are not hit in the first list
and hit in the second (the enemies newly marked hit). -/
def newHitCount : List (Enemy K) → List (Enemy K) → Nat
  | e :: es, e1 :: es1 =>
    (if e.hit = false ∧ e1.hit = true then 1 else 0) + newHitCount es es1
  | _, _ => 0

/-- The second list is the first with some enemies that are hit left out. -/
inductive DropHit : List (Enemy K) → List (Enemy K) → Prop where
  | nil : DropHit [] []
  | keep (e : Enemy K) {es fs : List (Enemy K)} : DropHit es fs → DropHit (e :: es) (e :: fs)
  | drop (e : Enemy K) {es fs : List (Enemy K)} :
    e.hit = true → DropHit es fs → DropHit (e :: es) fs

/-- What relates the state of the collision pass before (`st`) and after
(`res`) a stretch that processed `n` bullets: enemies are only marked; the score
grows by the scores of the enemies newly marked; one gain effect is appended
per enemy newly marked, each recording an enemy of `st` that was not hit; and
as many bullets are dropped as enemies are newly marked. -/
def Stretch (st res : CollisionState K) (n : Nat) : Prop :=
  List.Forall₂ Marked st.enemies res.enemies ∧
  res.score = st.score + newHitScore st.enemies res.enemies ∧
  (∃ suffix : List (GainEffect K),
    res.gainEffects = st.gainEffects ++ suffix ∧
    suffix.length = newHitCount st.enemies res.enemies ∧
    ∀ ge ∈ suffix, ∃ e ∈ st.enemies, e.hit = false ∧ ge = gainEffectOf e) ∧
  res.newBullets.length + newHitCount st.enemies res.enemies = st.newBullets.length + n

/-- The tick `Game.Update env inp g` does not re-initialize the round: the mode
before the tick is Title or Playing (whose branches never call `initialize`), or
the tick does not end in the Title mode (from GameOver and Ranking the Title
mode is entered only through `initialize`). -/
def keepsRound (env : Env K) (inp : Input) (g : Game K) : Prop :=
  g.mode = GameMode.Title ∨ g.mode = GameMode.Playing ∨
    (Game.Update env inp g).mode ≠ GameMode.Title

/-- No tick of the sequence re-initializes the round. -/
def withinRound (env : Env K) : List Input → Game K → Prop
  | [], _ => True
  | inp :: inps, g => keepsRound env inp g ∧ withinRound env inps (Game.Update env inp g)

/-- A game over `ℚ` in the Playing mode with one bullet and two overlapping
enemies in its way, for evaluating examples. -/
def sampleGame : Game ℚ :=
  { fixedRandomSeed := 7
    touchBuffer := []
    random := zeroRand
    mode := GameMode.Playing
    ticksFromModeStart := 200
    hold := false
    score := 4
    rankingChan := false
    ranking := []
    fish := { ticks := 200, x := 0, y := 0, z := 50 }
    bullets := [{ ticks := 49, x := 0, y := -900, z := 197, vx := 0, vy := -10, vz := 3, r := 10 }]
    splashEffects := []
    enemies :=
      [{ ticks := 10, kind := EnemyKind.Dizzy, hit := false, x := 20, y := -910, z := 200
         vx := 0, vy := 0, vx0 := 4, r := 35 },
       { ticks := 10, kind := EnemyKind.Shy, hit := false, x := 0, y := -910, z := 200
         vx := 0, vy := 0, vx0 := 4, r := 30 }]
    gainEffects := []
    leaves := []
    timeInTicks := 20 }

/-- An input with no touch and nothing on the ranking channel. -/
def idleInput : Input :=
  { justTouched := false, justReleased := false, beingTouched := false, X := 0, Y := 0
    rankingRecv := none, now := 0 }

/-- The state on entry to the collision pass of the tick `Game.Update env inp g`
when `g` is in the Playing mode. -/
def collisionEntry (env : Env K) (inp : Input) (g : Game K) : Game K :=
  beforeCollision env inp
    (logTouches inp { g with ticksFromModeStart := g.ticksFromModeStart + 1 })

/-- The sample game with its first enemy only. -/
def sampleDuel : Game ℚ :=
  { sampleGame with
    enemies :=
      [{ ticks := 10, kind := EnemyKind.Dizzy, hit := false, x := 20, y := -910, z := 200
         vx := 0, vy := 0, vx0 := 4, r := 35 }] }

/-- The sample game with its first enemy already hit. -/
def sampleHitGame : Game ℚ :=
  { sampleGame with
    enemies :=
      [{ ticks := 10, kind := EnemyKind.Dizzy, hit := true, x := 20, y := -910, z := 200
         vx := 0, vy := 0, vx0 := 4, r := 35 },
       { ticks := 10, kind := EnemyKind.Shy, hit := false, x := 0, y := -910, z := 200
         vx := 0, vy := 0, vx0 := 4, r := 30 }] }

/-- The bullet of the sample game. -/
def sampleBullet : Bullet ℚ :=
  { ticks := 49, x := 0, y := -900, z := 197, vx := 0, vy := -10, vz := 3, r := 10 }

/-- The local variable `seed` of `initialize`: the fixed seed when it is not
`0`, the wall clock otherwise. -/
def roundSeed (now : Int) (g : Game K) : Int :=
  if g.fixedRandomSeed ≠ 0 then g.fixedRandomSeed else now

/-- The leaf layout of `initialize` (the three lanes in order) run from the
generator `rng`: the leaves and the advanced generator. -/
def layoutLeaves (env : Env K) (rng : Rand K) : List (Leaf K) × Rand K :=
  let l1 := layoutLane normalEnemyYInScreen env.leafFuel (-50) rng []
  let l2 := layoutLane dizzyEnemyYInScreen env.leafFuel (-50) l1.2 l1.1
  layoutLane shyEnemyYInScreen env.leafFuel (-50) l2.2 l2.1

/-- Method `Game.drawSight` up to its call of `toScreenPosition`: the camera
point `(xt, yt, zt)` at which the sight is drawn for the touch position of the
current tick. -/
def sightPoint (env : Env K) (inp : Input) : K × K × K :=
  let p : K × K := getHoldPosition inp
  let bullet := newBulletByTouchPosition env p.1 p.2
  let t := (enemyZ - bullet.z) / bullet.vz
  let xt := bullet.x + bullet.vx * t
  let yt := bullet.y + bullet.vy * t + gravity / 2 * t * t
  let zt := enemyZ
  if yt > 0 then
    let t := (-bullet.vy + env.sqrt (bullet.vy ^ 2 - 4 * gravity / 2 * bullet.y)) / gravity
    (bullet.x + bullet.vx * t, 0, bullet.z + bullet.vz * t)
  else (xt, yt, zt)

/-- The state of a game in the Playing mode `a` ticks after the mode was
entered with the round timer at `0`. -/
def PlayingAt (g : Game K) (a : Nat) : Prop :=
  g.mode = GameMode.Playing ∧ g.ticksFromModeStart = a ∧ g.timeInTicks = a - 180

/-- A game in the Playing mode right after the change from the Title mode, for
evaluating examples. -/
def sampleStart : Game ℚ :=
  { sampleGame with
    ticksFromModeStart := 0, timeInTicks := 0, score := 0, bullets := [], enemies := [] }

/-- A freshly initialized round waiting in the Title mode. -/
def TitleFresh (g : Game K) : Prop :=
  g.mode = GameMode.Title ∧ g.timeInTicks = 0 ∧ g.hold = false ∧ g.bullets = [] ∧ g.score = 0

/-- The state just after the change from the Title mode to the Playing mode of
a fresh round. -/
def RoundStart (g : Game K) : Prop :=
  PlayingAt g 0 ∧ g.hold = false ∧ g.bullets = [] ∧ g.score = 0

/-- A game in the GameOver mode with nothing stored in its ranking list, 100
ticks after the mode was entered, for evaluating examples. -/
def sampleOver : Game ℚ :=
  { sampleGame with
    mode := GameMode.GameOver, ticksFromModeStart := 100, rankingChan := true, ranking := [] }

/-- A press that just started at the anchor, with nothing on the ranking
channel. -/
def pressInput : Input :=
  { justTouched := true, justReleased := false, beingTouched := true, X := 320, Y := 360
    rankingRecv := none, now := 0 }

/-- The ranking list the GameOver branch tests: the list the non-blocking
receive delivers when the channel is non-nil and has something ready, the
stored list otherwise. -/
def availableRanking (inp : Input) (g : Game K) : List GameScore :=
  match (if g.rankingChan then inp.rankingRecv else none) with
  | some ranking => ranking
  | none => g.ranking

/-- The invariant of the ranking list: outside the Ranking mode nothing is
stored. -/
def RankingClear (g : Game K) : Prop :=
  g.mode ≠ GameMode.Ranking → g.ranking = []

/-- No bullet exists, the score is `0` and the fish is not aiming. -/
def Quiet (g : Game K) : Prop :=
  g.hold = false ∧ g.bullets = [] ∧ g.score = 0

/-- An environment over `ℚ` whose generator records its seed in the integers
it draws, for telling seeds apart in examples. -/
def seedEnv : Env ℚ :=
  { sampleEnv with
    newRand := fun seed =>
      { intAt := fun _ => seed.toNat, floatAt := fun _ => 0, normAt := fun _ => (0, 1),
        pos := 0 } }

/-- The sample game configured with the fixed seed `0`. -/
def zeroSeedGame : Game ℚ :=
  { sampleGame with fixedRandomSeed := 0 }

/-- A Playing state, 1800 ticks in, with one Normal enemy that entered on the
left 1740 ticks ago (camera `x = -1480 + 2 * 1740`) and is not hit. -/
def offscreenGame : Game ℚ :=
  { sampleGame with
    ticksFromModeStart := 1800
    timeInTicks := 1620
    bullets := []
    enemies :=
      [{ ticks := 1740, kind := EnemyKind.Normal, hit := false, x := 2000, y := -320, z := 200
         vx := 2, vy := 0, vx0 := 2, r := 40 }] }

/-- The enemy of `offscreenGame` after one more `Enemy.Update`. -/
def offscreenEnemyAfter : Enemy ℚ :=
  { ticks := 1741, kind := EnemyKind.Normal, hit := false, x := 2002, y := -320, z := 200
    vx := 2, vy := 0, vx0 := 2, r := 40 }

/-- A drag to the screen point `(320, 400)`, below the anchor. -/
def dragInput : Input :=
  { justTouched := false, justReleased := false, beingTouched := true, X := 320, Y := 400
    rankingRecv := none, now := 0 }

/-- A generator over `ℝ` for examples: every draw is `0`. -/
def zeroRandReal : Rand ℝ :=
  { intAt := fun _ => 0, floatAt := fun _ => 0, normAt := fun _ => (0, 1), pos := 0 }

/-- Every depth to which `toScreenPosition` is applied on the entities of a game
is at least `cameraF = 50`: the fish is at depth `50`, every bullet has depth
velocity `3` and depth at least `50`, every enemy is at depth `200`, and every
splash effect has depth at least `50`. -/
def DepthOk (g : Game K) : Prop :=
  g.fish.z = 50 ∧ (∀ b ∈ g.bullets, b.vz = 3 ∧ 50 ≤ b.z) ∧ (∀ e ∈ g.enemies, e.z = 200) ∧
    (∀ s ∈ g.splashEffects, 50 ≤ s.z)

/-- The analytic vertical trajectory of `drawSight`:
`yt := bullet.y + bullet.vy*t + gravity/2*t*t`. -/
def analyticY (b : Bullet K) (t : K) : K :=
  b.y + b.vy * t + gravity / 2 * t * t

/-- Two Dizzy enemies that are not hit, each with its generator, agree in what
the toggle depends on: tick count, velocity, home velocity, the position of the
generator and its stream of integers. -/
def DizzyAlike (p q : Enemy K × Rand K) : Prop :=
  p.1.kind = EnemyKind.Dizzy ∧ q.1.kind = EnemyKind.Dizzy ∧
  p.1.hit = false ∧ q.1.hit = false ∧
  p.1.ticks = q.1.ticks ∧ p.1.vx = q.1.vx ∧ p.1.vx0 = q.1.vx0 ∧
  p.2.pos = q.2.pos ∧ p.2.intAt = q.2.intAt

/-- A Dizzy enemy entering from the right with velocity `-4`, as the spawner
creates it. -/
def sampleDizzy : Enemy ℚ :=
  { ticks := 0, kind := EnemyKind.Dizzy, hit := false, x := 1480, y := -600, z := 200
    vx := -4, vy := 0, vx0 := 0, r := 35 }

/-- The radius the specification gives each kind of enemy. -/
def laneRadius : EnemyKind → K
  | EnemyKind.Normal => 40
  | EnemyKind.Dizzy => 35
  | EnemyKind.Shy => 30

/-- The screen y of the lane the specification gives each kind of enemy. -/
def laneScreenY : EnemyKind → K
  | EnemyKind.Normal => 190
  | EnemyKind.Dizzy => 120
  | EnemyKind.Shy => 50

/-- The horizontal speed the specification gives each kind of enemy. -/
def laneSpeed : EnemyKind → K
  | EnemyKind.Normal => 2
  | EnemyKind.Dizzy => 4
  | EnemyKind.Shy => 4

/-- What the specification says of an enemy the spawner has just created. -/
def Spawned (e : Enemy K) : Prop :=
  e.hit = false ∧ e.ticks = 0 ∧ e.z = 200 ∧ e.r = laneRadius e.kind ∧
  (toScreenPosition e.x e.y e.z).2 = laneScreenY e.kind ∧
  (((toScreenPosition e.x e.y e.z).1 = -50 ∧ e.vx = laneSpeed e.kind) ∨
    ((toScreenPosition e.x e.y e.z).1 = 690 ∧ e.vx = -laneSpeed e.kind))

/-- The sample game on a tick count that is a multiple of 60. -/
def spawnGame : Game ℚ :=
  { sampleGame with ticksFromModeStart := 240 }

/-- The sample game after the lead-in (round timer running), for examples. -/
def aimGame : Game ℚ :=
  { sampleGame with ticksFromModeStart := 300, timeInTicks := 120 }

/-- The number of enemies of a list that are not hit. -/
def unhitCount (es : List (Enemy K)) : Nat :=
  (es.filter (fun e => !e.hit)).length

/-- The state of the tick `Game.Update env inp g` on entry to the block
`// Enemy enter` when `g` is in the Playing mode. -/
def spawnEntry (env : Env K) (inp : Input) (g : Game K) : Game K :=
  release env inp (aimStart inp (stepTimer
    (logTouches inp { g with ticksFromModeStart := g.ticksFromModeStart + 1 })))

/-- The enemies the block `// Enemy enter` appends to the enemy list in the
tick `Game.Update env inp g` when `g` is in the Playing mode. -/
def spawnedNow (env : Env K) (inp : Input) (g : Game K) : List (Enemy K) :=
  (enemyEnter (spawnEntry env inp g)).enemies.drop g.enemies.length

/-- The number of scoring events of the tick `Game.Update env inp g`: the
enemies its collision pass newly marks hit (each adds its score once and appends
one gain effect); no collision pass runs outside the Playing mode. -/
def tickEvents (env : Env K) (inp : Input) (g : Game K) : Nat :=
  if g.mode = GameMode.Playing then
    newHitCount (collisionEntry env inp g).enemies
      (collision (collisionEntry env inp g)).enemies
  else 0

/-- The number of enemies created in the tick `Game.Update env inp g`. -/
def tickSpawned (env : Env K) (inp : Input) (g : Game K) : Nat :=
  if g.mode = GameMode.Playing then (spawnedNow env inp g).length else 0

/-- The number of scoring events of a sequence of ticks. -/
def runEvents (env : Env K) : List Input → Game K → Nat
  | [], _ => 0
  | inp :: inps, g => tickEvents env inp g + runEvents env inps (Game.Update env inp g)

/-- The number of enemies created in a sequence of ticks. -/
def runSpawned (env : Env K) : List Input → Game K → Nat
  | [], _ => 0
  | inp :: inps, g => tickSpawned env inp g + runSpawned env inps (Game.Update env inp g)

/-! ## Projection round trip -/

/-- C1: for every camera point `(x, y, z)` with `z > 0`, `toCameraPosition`
applied to `toScreenPosition x y z` and the depth `z` returns exactly `(x, y)`. -/
theorem toCameraPosition_toScreenPosition (x y z : K) (hz : 0 < z) :
    toCameraPosition (toScreenPosition x y z).1 (toScreenPosition x y z).2 z = (x, y) := by
  have hz0 : z ≠ 0 := ne_of_gt hz
  simp only [toCameraPosition, toScreenPosition, cameraF, cameraHeight, screenWidth,
    screenHeight, Prod.mk.injEq]
  constructor
  · field_simp
    ring
  · field_simp
    ring

/-- Witness of C1 at the camera point `(-740, -320, 200)` over `ℚ`. -/
theorem toCameraPosition_toScreenPosition_witness :
    (0 : ℚ) < 200 ∧
      toCameraPosition (toScreenPosition (-740 : ℚ) (-320) 200).1
        (toScreenPosition (-740 : ℚ) (-320) 200).2 200 = (-740, -320) :=
  ⟨by norm_num, toCameraPosition_toScreenPosition (-740) (-320) 200 (by norm_num)⟩

/-! ## Hold position -/

/-- The anchor (the fish) is drawn at the screen point `(320, 360)`. -/
theorem fish_screen_position :
    toScreenPosition (fishPosXInCamera : K) fishPosYInCamera fishPosZInCamera = (320, 360) := by
  simp only [toScreenPosition, fishPosXInCamera, fishPosYInCamera, fishPosZInCamera, cameraF,
    cameraHeight, screenWidth, screenHeight, Prod.mk.injEq]
  constructor <;> norm_num

/-- The clamp of `getHoldPosition` written with `min` and `max`. -/
theorem clampHoldPosition_eq (x y : K) :
    clampHoldPosition x y = (min (max x 0) 640, min (max y 360) 480) := by
  have hf : (toScreenPosition (fishPosXInCamera : K) fishPosYInCamera fishPosZInCamera).2 = 360 := by
    rw [fish_screen_position]
  simp only [clampHoldPosition, hf, screenWidth, screenHeight, Prod.mk.injEq]
  constructor
  · by_cases h1 : x < 0
    · have h2 : ¬ ((0 : K) > 640) := by norm_num
      rw [if_pos h1, if_neg h2, max_eq_right (le_of_lt h1), min_eq_left (by norm_num)]
    · rw [if_neg h1, max_eq_left (not_lt.mp h1)]
      by_cases h3 : x > 640
      · rw [if_pos h3, min_eq_right (le_of_lt h3)]
      · rw [if_neg h3, min_eq_left (not_lt.mp h3)]
  · by_cases h1 : y < 360
    · have h2 : ¬ ((360 : K) > 480) := by norm_num
      rw [if_pos h1, if_neg h2, max_eq_right (le_of_lt h1), min_eq_left (by norm_num)]
    · rw [if_neg h1, max_eq_left (not_lt.mp h1)]
      by_cases h3 : y > 480
      · rw [if_pos h3, min_eq_right (le_of_lt h3)]
      · rw [if_neg h3, min_eq_left (not_lt.mp h3)]

/-- The clamped position lies in `[0, 640] x [360, 480]`. -/
theorem clampHoldPosition_range (x y : K) :
    0 ≤ (clampHoldPosition x y).1 ∧ (clampHoldPosition x y).1 ≤ 640 ∧
      360 ≤ (clampHoldPosition x y).2 ∧ (clampHoldPosition x y).2 ≤ 480 := by
  rw [clampHoldPosition_eq]
  refine ⟨?_, ?_, ?_, ?_⟩
  · exact le_min (le_max_right _ _) (by norm_num)
  · exact min_le_right _ _
  · exact le_min (le_max_right _ _) (by norm_num)
  · exact min_le_right _ _

/-- C10: for every pointer position, `getHoldPosition` returns
`(min(max(x, 0), 640), min(max(y, 360), 480))`, where `360` is the anchor's
screen y; the result lies in `[0, 640] x [360, 480]`; the function is total (no
input is rejected); and clamping a clamped position changes nothing. -/
theorem getHoldPosition_clamp (inp : Input) :
    (toScreenPosition (fishPosXInCamera : K) fishPosYInCamera fishPosZInCamera).2 = 360 ∧
    (getHoldPosition inp : K × K)
      = (min (max (inp.X : K) 0) 640, min (max (inp.Y : K) 360) 480) ∧
    (0 ≤ (getHoldPosition inp : K × K).1 ∧ (getHoldPosition inp : K × K).1 ≤ 640 ∧
      360 ≤ (getHoldPosition inp : K × K).2 ∧ (getHoldPosition inp : K × K).2 ≤ 480) ∧
    clampHoldPosition (getHoldPosition inp : K × K).1 (getHoldPosition inp : K × K).2
      = getHoldPosition inp ∧
    (∀ x y : K, clampHoldPosition (clampHoldPosition x y).1 (clampHoldPosition x y).2
      = clampHoldPosition x y) := by
  have idem : ∀ x y : K, clampHoldPosition (clampHoldPosition x y).1 (clampHoldPosition x y).2
      = clampHoldPosition x y := by
    intro x y
    obtain ⟨h1, h2, h3, h4⟩ := clampHoldPosition_range x y
    rw [clampHoldPosition_eq (clampHoldPosition x y).1 (clampHoldPosition x y).2,
      max_eq_left h1, min_eq_left h2, max_eq_left h3, min_eq_left h4]
  refine ⟨?_, ?_, ?_, ?_, idem⟩
  · rw [fish_screen_position]
  · exact clampHoldPosition_eq _ _
  · exact clampHoldPosition_range _ _
  · exact idem _ _

/-! ## Shy enemies -/

/-- One call of `Enemy.Update` on a Shy enemy that is not hit. -/
theorem shy_update_step (s : Enemy K) (r : Rand K)
    (h1 : s.kind = EnemyKind.Shy) (h2 : s.hit = false) :
    (s.Update r).2 = r ∧ (s.Update r).1.kind = EnemyKind.Shy ∧ (s.Update r).1.hit = false ∧
    (s.Update r).1.ticks = s.ticks + 1 ∧
    (s.Update r).1.vx0 = (if s.ticks = 0 then s.vx else s.vx0) ∧
    (s.Update r).1.vx
      = (if s.ticks + 1 = 120 then 0
         else if s.ticks + 1 = 240 then (if s.ticks = 0 then s.vx else s.vx0) * -1
         else s.vx) := by
  by_cases c0 : s.ticks = 0
  · simp [Enemy.Update, Enemy.behave, c0, h1, h2]
  · by_cases c1 : s.ticks + 1 = 120
    · simp [Enemy.Update, Enemy.behave, c0, c1, h1, h2]
    · by_cases c2 : s.ticks + 1 = 240
      · simp [Enemy.Update, Enemy.behave, c0, c2, h1, h2]
      · simp [Enemy.Update, Enemy.behave, c0, c1, c2, h1, h2]

/-- The state of a Shy enemy that is not hit after `n` calls of `Enemy.Update`. -/
theorem shy_updateN_state (e : Enemy K) (rng : Rand K)
    (hk : e.kind = EnemyKind.Shy) (ht : e.ticks = 0) (hh : e.hit = false) (n : Nat) :
    (Enemy.updateN n e rng).1.kind = EnemyKind.Shy ∧
    (Enemy.updateN n e rng).1.hit = false ∧
    (Enemy.updateN n e rng).1.ticks = n ∧
    (1 ≤ n → (Enemy.updateN n e rng).1.vx0 = e.vx) ∧
    (Enemy.updateN n e rng).1.vx
      = (if n < 120 then e.vx else if n < 240 then 0 else -e.vx) ∧
    (Enemy.updateN n e rng).2 = rng := by
  induction n with
  | zero => simp [Enemy.updateN, hk, ht, hh]
  | succ n ih =>
    obtain ⟨h1, h2, h3, h4, h5, h6⟩ := ih
    obtain ⟨g1, g2, g3, g4, g5, g6⟩ :=
      shy_update_step (Enemy.updateN n e rng).1 (Enemy.updateN n e rng).2 h1 h2
    have hv0 : (if (Enemy.updateN n e rng).1.ticks = 0 then (Enemy.updateN n e rng).1.vx
        else (Enemy.updateN n e rng).1.vx0) = e.vx := by
      by_cases hn : n = 0
      · subst hn
        simp [h3, h5]
      · have hne : (Enemy.updateN n e rng).1.ticks ≠ 0 := by omega
        rw [if_neg hne]
        exact h4 (by omega)
    rw [hv0] at g5 g6
    rw [h3] at g4 g6
    show (Enemy.Update _ _).1.kind = _ ∧ (Enemy.Update _ _).1.hit = _ ∧
      (Enemy.Update _ _).1.ticks = _ ∧ (_ → (Enemy.Update _ _).1.vx0 = _) ∧
      (Enemy.Update _ _).1.vx = _ ∧ (Enemy.Update _ _).2 = _
    refine ⟨g2, g3, g4, fun _ => g5, ?_, g1.trans h6⟩
    rw [g6, h5]
    by_cases c1 : n + 1 = 120
    · have hn : n = 119 := by omega
      subst hn
      simp
    · by_cases c2 : n + 1 = 240
      · have hn : n = 239 := by omega
        subst hn
        simp
      · rw [if_neg c1, if_neg c2]
        by_cases d1 : n < 120
        · have d2 : n + 1 < 120 := by omega
          simp [d1, d2]
        · by_cases d3 : n < 240
          · have d4 : n + 1 < 240 := by omega
            have d5 : ¬ (n + 1 < 120) := by omega
            simp [d1, d3, d4, d5]
          · have d4 : ¬ (n + 1 < 240) := by omega
            have d5 : ¬ (n + 1 < 120) := by omega
            simp [d1, d3, d4, d5]

/-- C7: a Shy enemy created with `ticks = 0` and horizontal velocity `v` that is
never hit has, after its `n`-th `Enemy.Update`, velocity `v` for
`1 ≤ n ≤ 119`, `0` for `120 ≤ n ≤ 239` and `-v` for every `n ≥ 240`. -/
theorem shy_velocity_schedule (e : Enemy K) (rng : Rand K) (v : K)
    (hk : e.kind = EnemyKind.Shy) (ht : e.ticks = 0) (hh : e.hit = false) (hv : e.vx = v)
    (n : Nat) :
    (1 ≤ n ∧ n ≤ 119 → (Enemy.updateN n e rng).1.vx = v) ∧
    (120 ≤ n ∧ n ≤ 239 → (Enemy.updateN n e rng).1.vx = 0) ∧
    (240 ≤ n → (Enemy.updateN n e rng).1.vx = -v) ∧
    (Enemy.updateN n e rng).1.hit = false := by
  obtain ⟨_, h2, _, _, h5, _⟩ := shy_updateN_state e rng hk ht hh n
  subst hv
  refine ⟨?_, ?_, ?_, h2⟩
  · rintro ⟨_, hn⟩
    rw [h5, if_pos (by omega)]
  · rintro ⟨hn1, hn2⟩
    rw [h5, if_neg (by omega), if_pos (by omega)]
  · intro hn
    rw [h5, if_neg (by omega), if_neg (by omega)]

/-- Witness of C7: the sample Shy enemy has velocity `-4` after 240 updates. -/
theorem shy_velocity_schedule_witness :
    sampleShy.kind = EnemyKind.Shy ∧ sampleShy.ticks = 0 ∧ sampleShy.hit = false ∧
      sampleShy.vx = 4 ∧ (Enemy.updateN 240 sampleShy zeroRand).1.vx = -4 :=
  ⟨rfl, rfl, rfl, rfl,
    (shy_velocity_schedule sampleShy zeroRand 4 rfl rfl rfl rfl 240).2.2.1 (le_refl _)⟩

/-! ## Bullets move forward in depth -/

/-- Depth and depth velocity of a bullet after `n` updates. -/
theorem bullet_iterate_depth (b : Bullet K) (n : Nat) :
    (Bullet.Update^[n] b).vz = b.vz ∧ (Bullet.Update^[n] b).z = b.z + n * b.vz := by
  induction n with
  | zero => simp
  | succ n ih =>
    rw [Function.iterate_succ_apply']
    obtain ⟨h1, h2⟩ := ih
    constructor
    · simpa [Bullet.Update] using h1
    · simp only [Bullet.Update, h1, h2]
      push_cast
      ring

/-- The bullets kept by the loop of the block `// Bullets` are updated bullets. -/
theorem updateBulletsLoop_mem (env : Env K) (bs : List (Bullet K))
    (acc : List (Bullet K) × List (SplashEffect K) × Rand K) (c : Bullet K)
    (hc : c ∈ (updateBulletsLoop env bs acc).1) :
    c ∈ acc.1 ∨ ∃ b ∈ bs, c = b.Update := by
  induction bs generalizing acc with
  | nil => exact Or.inl hc
  | cons b bs ih =>
    obtain ⟨nb, sp, rng⟩ := acc
    simp only [updateBulletsLoop] at hc
    split_ifs at hc with h
    · rcases ih _ hc with h1 | ⟨b1, hb1, rfl⟩
      · exact Or.inl h1
      · exact Or.inr ⟨b1, List.mem_cons_of_mem _ hb1, rfl⟩
    · rcases ih _ hc with h1 | ⟨b1, hb1, rfl⟩
      · simp only [List.mem_append, List.mem_singleton] at h1
        rcases h1 with h1 | rfl
        · exact Or.inl h1
        · exact Or.inr ⟨b, List.mem_cons_self _ _, rfl⟩
      · exact Or.inr ⟨b1, List.mem_cons_of_mem _ hb1, rfl⟩

/-- The bullets kept by the collision pass are bullets that entered it. -/
theorem collideLoop_newBullets_mem (bs : List (Bullet K)) (st : CollisionState K)
    (c : Bullet K) (hc : c ∈ (collideLoop bs st).newBullets) :
    c ∈ st.newBullets ∨ c ∈ bs := by
  induction bs generalizing st with
  | nil => exact Or.inl hc
  | cons b bs ih =>
    simp only [collideLoop, List.foldl_cons] at hc
    rcases ih (collideStep st b) hc with h1 | h1
    · simp only [collideStep] at h1
      split at h1
      · exact Or.inl h1
      · simp only [List.mem_append, List.mem_singleton] at h1
        rcases h1 with h1 | rfl
        · exact Or.inl h1
        · exact Or.inr (List.mem_cons_self _ _)
    · exact Or.inr (List.mem_cons_of_mem _ h1)

/-! ## Frame lemmas of the tick phases -/

/-- The touch log changes nothing but the touch buffer. -/
theorem logTouches_eq (inp : Input) (g : Game K) :
    ∃ buf, logTouches inp g = { g with touchBuffer := buf } := by
  unfold logTouches
  dsimp only
  generalize (if (inp.beingTouched || inp.justReleased) = true then _ else g.touchBuffer) = buf
  cases buf.getLast? with
  | none => exact ⟨_, rfl⟩
  | some last =>
    dsimp only
    split_ifs
    · exact ⟨_, rfl⟩
    · exact ⟨_, rfl⟩

theorem logTouches_frame (inp : Input) (g : Game K) :
    (logTouches inp g).score = g.score ∧ (logTouches inp g).mode = g.mode ∧
    (logTouches inp g).bullets = g.bullets ∧ (logTouches inp g).enemies = g.enemies ∧
    (logTouches inp g).gainEffects = g.gainEffects ∧
    (logTouches inp g).ticksFromModeStart = g.ticksFromModeStart ∧
    (logTouches inp g).ranking = g.ranking ∧ (logTouches inp g).rankingChan = g.rankingChan := by
  obtain ⟨buf, h⟩ := logTouches_eq inp g
  rw [h]
  simp

theorem stepTimer_frame (g : Game K) :
    (stepTimer g).score = g.score ∧ (stepTimer g).bullets = g.bullets ∧
    (stepTimer g).enemies = g.enemies ∧ (stepTimer g).gainEffects = g.gainEffects := by
  unfold stepTimer
  split_ifs <;> simp

theorem aimStart_frame (inp : Input) (g : Game K) :
    (aimStart inp g).score = g.score ∧ (aimStart inp g).bullets = g.bullets ∧
    (aimStart inp g).enemies = g.enemies ∧ (aimStart inp g).gainEffects = g.gainEffects := by
  simp only [aimStart]
  split_ifs <;> simp

theorem release_frame (env : Env K) (inp : Input) (g : Game K) :
    (release env inp g).score = g.score ∧
    (release env inp g).enemies = g.enemies ∧
    (release env inp g).gainEffects = g.gainEffects ∧
    ((release env inp g).bullets = g.bullets ∨
      (release env inp g).bullets = g.bullets ++
        [newBulletByTouchPosition env (getHoldPosition inp : K × K).1
          (getHoldPosition inp : K × K).2]) := by
  simp only [release]
  split_ifs <;> simp

theorem enterOne_frame (kind : EnemyKind) (p v : K) (g : Game K) :
    (enterOne kind p v g).score = g.score ∧ (enterOne kind p v g).bullets = g.bullets ∧
    (enterOne kind p v g).gainEffects = g.gainEffects := by
  simp only [enterOne]
  split_ifs <;> simp

theorem enemyEnter_frame (g : Game K) :
    (enemyEnter g).score = g.score ∧ (enemyEnter g).bullets = g.bullets ∧
    (enemyEnter g).gainEffects = g.gainEffects := by
  unfold enemyEnter
  split_ifs
  · simp [enterOne_frame]
  · simp

theorem finishRound_frame (g : Game K) :
    (finishRound g).score = g.score ∧ (finishRound g).bullets = g.bullets ∧
    (finishRound g).enemies = g.enemies ∧ (finishRound g).gainEffects = g.gainEffects := by
  unfold finishRound
  split_ifs <;> simp [Game.setNextMode]

/-- The phases before the collision pass leave the score unchanged. -/
theorem beforeCollision_score (env : Env K) (inp : Input) (g : Game K) :
    (beforeCollision env inp g).score = g.score := by
  simp only [beforeCollision, updateGainEffects, updateEnemies, updateSplashEffects,
    updateBullets, (enemyEnter_frame _).1, (release_frame _ _ _).1, (aimStart_frame _ _).1,
    (stepTimer_frame _).1]

/-- The score after a Playing tick is the score after its collision pass. -/
theorem playingTick_score (env : Env K) (inp : Input) (g : Game K) :
    (playingTick env inp g).score = (collision (beforeCollision env inp g)).score := by
  simp only [playingTick, (finishRound_frame _).1]

/-! ## The collision pass -/

theorem marked_refl (es : List (Enemy K)) : List.Forall₂ Marked es es := by
  induction es with
  | nil => exact List.Forall₂.nil
  | cons e es ih => exact List.Forall₂.cons (Or.inl rfl) ih

theorem marked_trans {es es1 es2 : List (Enemy K)}
    (h1 : List.Forall₂ Marked es es1) (h2 : List.Forall₂ Marked es1 es2) :
    List.Forall₂ Marked es es2 := by
  induction h1 generalizing es2 with
  | nil => cases h2; exact List.Forall₂.nil
  | cons hm _ ih =>
    cases h2 with
    | cons hm2 h2t =>
      refine List.Forall₂.cons ?_ (ih h2t)
      rcases hm with rfl | ⟨ha, rfl⟩
      · exact hm2
      · rcases hm2 with rfl | ⟨hb, _⟩
        · exact Or.inr ⟨ha, rfl⟩
        · simp at hb

theorem newHitScore_self (es : List (Enemy K)) : newHitScore es es = 0 := by
  induction es with
  | nil => rfl
  | cons e es ih =>
    simp only [newHitScore, ih, add_zero]
    cases h : e.hit <;> simp

theorem newHitCount_self (es : List (Enemy K)) : newHitCount es es = 0 := by
  induction es with
  | nil => rfl
  | cons e es ih =>
    simp only [newHitCount, ih, add_zero]
    cases h : e.hit <;> simp

/-- Marking keeps the kind and never clears the hit flag. -/
theorem marked_facts {e e1 : Enemy K} (h : Marked e e1) :
    e1.kind = e.kind ∧ (e.hit = true → e1.hit = true) := by
  rcases h with h | ⟨_, h⟩
  · rw [h]; exact ⟨rfl, id⟩
  · rw [h]; exact ⟨rfl, fun _ => rfl⟩

/-- New hits add up along two successive stretches of the pass. -/
theorem newHit_add {es es1 es2 : List (Enemy K)}
    (h1 : List.Forall₂ Marked es es1) (h2 : List.Forall₂ Marked es1 es2) :
    newHitScore es es2 = newHitScore es es1 + newHitScore es1 es2 ∧
    newHitCount es es2 = newHitCount es es1 + newHitCount es1 es2 := by
  induction h1 generalizing es2 with
  | nil => cases h2; simp [newHitScore, newHitCount]
  | @cons e e1 l l1 hm _ ih =>
    cases h2 with
    | @cons _ e2 _ l2 hm2 h2t =>
      obtain ⟨i1, i2⟩ := ih h2t
      obtain ⟨k1, m1⟩ := marked_facts hm
      obtain ⟨_, m2⟩ := marked_facts hm2
      simp only [newHitScore, newHitCount, i1, i2, k1]
      cases ha : e.hit <;> cases hb : e1.hit <;> cases hc : e2.hit <;>
        simp [ha, hb, hc] at m1 m2 ⊢ <;> constructor <;> ring

/-- The inner loop for one bullet: either no enemy that is not hit intersects
the bullet and the list is unchanged, or the list splits at the first such
enemy, which is the one marked. -/
theorem collideBullet_spec (b : Bullet K) (es : List (Enemy K)) :
    ((collideBullet b es).2 = none ∧ (collideBullet b es).1 = es ∧
      ∀ x ∈ es, ¬ (x.hit = false ∧ intersects x b)) ∨
    ∃ (pre post : List (Enemy K)) (e : Enemy K),
      es = pre ++ e :: post ∧ (collideBullet b es).2 = some e ∧
      (collideBullet b es).1 = pre ++ { e with hit := true } :: post ∧
      e.hit = false ∧ intersects e b ∧
      ∀ x ∈ pre, ¬ (x.hit = false ∧ intersects x b) := by
  induction es with
  | nil => exact Or.inl ⟨rfl, rfl, by simp⟩
  | cons e es ih =>
    by_cases h : e.hit = false ∧ intersects e b
    · refine Or.inr ⟨[], es, e, rfl, ?_, ?_, h.1, h.2, by simp⟩
      · simp only [collideBullet, if_pos h]
      · simp only [collideBullet, if_pos h, List.nil_append]
    · rcases ih with ⟨h1, h2, h3⟩ | ⟨pre, post, e1, h1, h2, h3, h4, h5, h6⟩
      · refine Or.inl ⟨?_, ?_, ?_⟩
        · simp only [collideBullet, if_neg h, h1]
        · simp only [collideBullet, if_neg h, h2]
        · intro x hx
          rcases List.mem_cons.mp hx with rfl | hx
          · exact h
          · exact h3 x hx
      · refine Or.inr ⟨e :: pre, post, e1, ?_, ?_, ?_, h4, h5, ?_⟩
        · rw [h1]; rfl
        · simp only [collideBullet, if_neg h, h2]
        · simp only [collideBullet, if_neg h, h3, List.cons_append]
        · intro x hx
          rcases List.mem_cons.mp hx with rfl | hx
          · exact h
          · exact h6 x hx

/-- Marking one enemy that is not hit, in the middle of a list. -/
theorem mark_middle (pre post : List (Enemy K)) (e : Enemy K) (he : e.hit = false) :
    List.Forall₂ Marked (pre ++ e :: post) (pre ++ { e with hit := true } :: post) ∧
    newHitScore (pre ++ e :: post) (pre ++ { e with hit := true } :: post) = kindScore e.kind ∧
    newHitCount (pre ++ e :: post) (pre ++ { e with hit := true } :: post) = 1 := by
  induction pre with
  | nil =>
    refine ⟨List.Forall₂.cons (Or.inr ⟨he, rfl⟩) (marked_refl post), ?_, ?_⟩
    · simp [newHitScore, he, newHitScore_self]
    · simp [newHitCount, he, newHitCount_self]
  | cons x pre ih =>
    obtain ⟨h1, h2, h3⟩ := ih
    refine ⟨List.Forall₂.cons (Or.inl rfl) h1, ?_, ?_⟩
    · simp only [List.cons_append, newHitScore]
      cases hx : x.hit <;> simp [h2]
    · simp only [List.cons_append, newHitCount]
      cases hx : x.hit <;> simp [h3]

/-- An enemy that is not hit after a stretch of the pass was the same before. -/
theorem marked_mem_unhit {es es1 : List (Enemy K)} (h : List.Forall₂ Marked es es1)
    {e : Enemy K} (he : e ∈ es1) (hh : e.hit = false) : e ∈ es := by
  induction h with
  | nil => exact he
  | @cons a a1 l l1 hm _ ih =>
    rcases List.mem_cons.mp he with rfl | he1
    · rcases hm with h1 | ⟨_, h1⟩
      · rw [h1]; exact List.mem_cons_self _ _
      · rw [h1] at hh; simp at hh
    · exact List.mem_cons_of_mem _ (ih he1)

theorem stretch_refl (st : CollisionState K) : Stretch st st 0 := by
  refine ⟨marked_refl _, ?_, ⟨[], ?_, ?_, ?_⟩, ?_⟩
  · rw [newHitScore_self, add_zero]
  · rw [List.append_nil]
  · rw [newHitCount_self]; rfl
  · intro ge hge; cases hge
  · rw [newHitCount_self]

theorem stretch_trans {a b c : CollisionState K} {n m : Nat}
    (h1 : Stretch a b n) (h2 : Stretch b c m) : Stretch a c (n + m) := by
  obtain ⟨m1, s1, ⟨suf1, g1, l1, p1⟩, c1⟩ := h1
  obtain ⟨m2, s2, ⟨suf2, g2, l2, p2⟩, c2⟩ := h2
  obtain ⟨as, ac⟩ := newHit_add m1 m2
  refine ⟨marked_trans m1 m2, ?_, ⟨suf1 ++ suf2, ?_, ?_, ?_⟩, ?_⟩
  · rw [s2, s1, as, add_assoc]
  · rw [g2, g1, List.append_assoc]
  · rw [List.length_append, l1, l2, ac]
  · intro ge hge
    rcases List.mem_append.mp hge with h | h
    · exact p1 ge h
    · obtain ⟨e, he, hh, hg⟩ := p2 ge h
      exact ⟨e, marked_mem_unhit m1 he hh, hh, hg⟩
  · rw [ac]; omega

/-- The body of the outer loop for one bullet is a stretch of one bullet. -/
theorem stretch_step (st : CollisionState K) (b : Bullet K) :
    Stretch st (collideStep st b) 1 := by
  rcases collideBullet_spec b st.enemies with ⟨h1, h2, _⟩ | ⟨pre, post, e, h1, h2, h3, h4, _, _⟩
  · have hs : collideStep st b = { st with newBullets := st.newBullets ++ [b] } := by
      simp only [collideStep, h1, h2]
    rw [hs]
    refine ⟨marked_refl _, ?_, ⟨[], ?_, ?_, ?_⟩, ?_⟩
    · simp [newHitScore_self]
    · simp
    · simp [newHitCount_self]
    · intro ge hge; cases hge
    · simp [newHitCount_self]
  · have hs : collideStep st b =
        { st with
          enemies := pre ++ { e with hit := true } :: post
          gainEffects := st.gainEffects ++ [gainEffectOf e]
          score := st.score + kindScore e.kind } := by
      simp only [collideStep, h2, h3]
    obtain ⟨k1, k2, k3⟩ := mark_middle pre post e h4
    rw [hs]
    refine ⟨?_, ?_, ⟨[gainEffectOf e], rfl, ?_, ?_⟩, ?_⟩
    · simpa only [h1] using k1
    · simp only [h1, k2]
    · simp only [h1, k3, List.length_singleton]
    · intro ge hge
      rw [List.mem_singleton] at hge
      exact ⟨e, by rw [h1]; simp, h4, hge⟩
    · simp only [h1, k3]

/-- The whole collision pass is a stretch of all its bullets. -/
theorem collideLoop_stretch (bs : List (Bullet K)) (st : CollisionState K) :
    Stretch st (collideLoop bs st) bs.length := by
  induction bs generalizing st with
  | nil => exact stretch_refl st
  | cons b bs ih =>
    have h := stretch_trans (stretch_step st b) (ih (collideStep st b))
    rw [Nat.add_comm] at h
    exact h

/-! ## Score monotonicity -/

theorem kindScore_pos (k : EnemyKind) : 0 < kindScore k := by
  cases k <;> decide

theorem newHitScore_nonneg (es es1 : List (Enemy K)) : 0 ≤ newHitScore es es1 := by
  induction es generalizing es1 with
  | nil => simp [newHitScore]
  | cons e es ih =>
    cases es1 with
    | nil => simp [newHitScore]
    | cons e1 es1 =>
      simp only [newHitScore]
      have h := ih es1
      have hk := kindScore_pos e.kind
      split_ifs <;> omega

/-- The collision pass adds to the score the scores of the enemies it marks. -/
theorem collision_score (g : Game K) :
    (collision g).score = g.score + newHitScore g.enemies (collision g).enemies := by
  have h := (collideLoop_stretch g.bullets
    { enemies := g.enemies, gainEffects := g.gainEffects, score := g.score,
      newBullets := [] }).2.1
  exact h

/-- The score after a tick that starts in the Playing mode. -/
theorem update_playing_score (env : Env K) (inp : Input) (g : Game K)
    (hm : g.mode = GameMode.Playing) :
    (Game.Update env inp g).score
      = (collision (beforeCollision env inp
          (logTouches inp { g with ticksFromModeStart := g.ticksFromModeStart + 1 }))).score := by
  have h : (logTouches inp { g with ticksFromModeStart := g.ticksFromModeStart + 1 }).mode
      = GameMode.Playing := by
    rw [(logTouches_frame _ _).2.1]; exact hm
  simp only [Game.Update, h, playingTick_score]

theorem pollRanking_score (inp : Input) (g : Game K) :
    (pollRanking inp g).score = g.score := by
  unfold pollRanking
  split <;> rfl

theorem initRound_mode (env : Env K) (now : Int) (g : Game K) :
    (Game.initRound env now g).mode = GameMode.Title := rfl

/-- One tick that does not re-initialize the round does not lower the score. -/
theorem update_score_le (env : Env K) (inp : Input) (g : Game K)
    (h : keepsRound env inp g) : g.score ≤ (Game.Update env inp g).score := by
  have hl := logTouches_frame inp { g with ticksFromModeStart := g.ticksFromModeStart + 1 }
  obtain ⟨hs, hmode, -⟩ := hl
  cases hm : g.mode with
  | Title =>
    have h1 : (logTouches inp { g with ticksFromModeStart := g.ticksFromModeStart + 1 }).mode
        = GameMode.Title := by rw [hmode]; exact hm
    simp only [Game.Update, h1]
    split_ifs
    · simp only [Game.setNextMode, hs]; exact le_refl _
    · rw [hs]
  | Playing =>
    rw [update_playing_score env inp g hm, collision_score, beforeCollision_score, hs]
    have := newHitScore_nonneg
      (beforeCollision env inp
        (logTouches inp { g with ticksFromModeStart := g.ticksFromModeStart + 1 })).enemies
      (collision (beforeCollision env inp
        (logTouches inp { g with ticksFromModeStart := g.ticksFromModeStart + 1 }))).enemies
    simp only at this ⊢
    omega
  | GameOver =>
    have h1 : (logTouches inp { g with ticksFromModeStart := g.ticksFromModeStart + 1 }).mode
        = GameMode.GameOver := by rw [hmode]; exact hm
    have hk : (Game.Update env inp g).mode ≠ GameMode.Title := by
      rcases h with h | h | h
      · rw [hm] at h; cases h
      · rw [hm] at h; cases h
      · exact h
    revert hk
    simp only [Game.Update, h1, gameOverTick]
    split_ifs with c1 c2
    · intro _
      simp only [Game.setNextMode, pollRanking_score, hs]
      exact le_refl _
    · intro hk
      exact absurd rfl hk
    · intro _
      rw [hs]
  | Ranking =>
    have h1 : (logTouches inp { g with ticksFromModeStart := g.ticksFromModeStart + 1 }).mode
        = GameMode.Ranking := by rw [hmode]; exact hm
    have hk : (Game.Update env inp g).mode ≠ GameMode.Title := by
      rcases h with h | h | h
      · rw [hm] at h; cases h
      · rw [hm] at h; cases h
      · exact h
    revert hk
    simp only [Game.Update, h1, rankingTick]
    split_ifs with c1
    · intro hk
      exact absurd rfl hk
    · intro _
      rw [hs]

/-- C2: one `Update` that does not re-initialize the round (any Title or Playing
tick, and any GameOver or Ranking tick that does not restart) leaves the score
greater than or equal to its value before the tick; hence the score is
non-decreasing along every tick sequence within one round. -/
theorem score_nondecreasing (env : Env K) (g : Game K) :
    (∀ inp : Input, keepsRound env inp g → g.score ≤ (Game.Update env inp g).score) ∧
    (∀ inps : List Input, withinRound env inps g → g.score ≤ (Game.run env inps g).score) := by
  refine ⟨fun inp h => update_score_le env inp g h, ?_⟩
  intro inps
  induction inps generalizing g with
  | nil => intro _; exact le_refl _
  | cons inp inps ih =>
    intro h
    exact le_trans (update_score_le env inp g h.1) (ih (Game.Update env inp g) h.2)

/-- Witness of C2: two Playing ticks of the sample game. -/
theorem score_nondecreasing_witness :
    sampleGame.score ≤ (Game.run sampleEnv [idleInput, idleInput] sampleGame).score :=
  (score_nondecreasing sampleEnv sampleGame).2 [idleInput, idleInput]
    ⟨Or.inr (Or.inl rfl), Or.inr (Or.inr (by decide)), trivial⟩

/-! ## Hit exclusivity -/

/-- Enemies that are hit do not influence the inner loop of a bullet. -/
theorem collideBullet_dropHit {es fs : List (Enemy K)} (h : DropHit es fs) (b : Bullet K) :
    (collideBullet b es).2 = (collideBullet b fs).2 ∧
    DropHit (collideBullet b es).1 (collideBullet b fs).1 := by
  induction h with
  | nil => exact ⟨rfl, DropHit.nil⟩
  | @keep e es fs h ih =>
    by_cases c : e.hit = false ∧ intersects e b
    · have e1 : collideBullet b (e :: es) = ({ e with hit := true } :: es, some e) := by
        simp only [collideBullet, if_pos c]
      have e2 : collideBullet b (e :: fs) = ({ e with hit := true } :: fs, some e) := by
        simp only [collideBullet, if_pos c]
      rw [e1, e2]
      exact ⟨rfl, DropHit.keep _ h⟩
    · have e1 : collideBullet b (e :: es)
          = (e :: (collideBullet b es).1, (collideBullet b es).2) := by
        simp only [collideBullet, if_neg c]
      have e2 : collideBullet b (e :: fs)
          = (e :: (collideBullet b fs).1, (collideBullet b fs).2) := by
        simp only [collideBullet, if_neg c]
      rw [e1, e2]
      exact ⟨ih.1, DropHit.keep _ ih.2⟩
  | @drop e es fs he h ih =>
    have c : ¬ (e.hit = false ∧ intersects e b) := by
      rw [he]; simp
    have e1 : collideBullet b (e :: es)
        = (e :: (collideBullet b es).1, (collideBullet b es).2) := by
      simp only [collideBullet, if_neg c]
    rw [e1]
    exact ⟨ih.1, DropHit.drop _ he ih.2⟩

/-- Enemies that are hit do not influence the collision pass. -/
theorem collideLoop_dropHit (bs : List (Bullet K)) (st1 st2 : CollisionState K)
    (h : DropHit st1.enemies st2.enemies) (hs : st1.score = st2.score)
    (hg : st1.gainEffects = st2.gainEffects) (hb : st1.newBullets = st2.newBullets) :
    (collideLoop bs st1).score = (collideLoop bs st2).score ∧
    (collideLoop bs st1).gainEffects = (collideLoop bs st2).gainEffects ∧
    (collideLoop bs st1).newBullets = (collideLoop bs st2).newBullets ∧
    DropHit (collideLoop bs st1).enemies (collideLoop bs st2).enemies := by
  induction bs generalizing st1 st2 with
  | nil => exact ⟨hs, hg, hb, h⟩
  | cons b bs ih =>
    simp only [collideLoop, List.foldl_cons]
    obtain ⟨h1, h2⟩ := collideBullet_dropHit h b
    apply ih
    · simp only [collideStep, ← h1]
      cases (collideBullet b st1.enemies).2 <;> exact h2
    · simp only [collideStep, ← h1]
      cases (collideBullet b st1.enemies).2 <;> simp [hs]
    · simp only [collideStep, ← h1]
      cases (collideBullet b st1.enemies).2 <;> simp [hg]
    · simp only [collideStep, ← h1]
      cases (collideBullet b st1.enemies).2 <;> simp [hb]

theorem dropHit_filter (es : List (Enemy K)) :
    DropHit es (es.filter (fun e => !e.hit)) := by
  induction es with
  | nil => exact DropHit.nil
  | cons e es ih =>
    cases he : e.hit
    · rw [List.filter_cons_of_pos (by simp [he])]
      exact DropHit.keep _ ih
    · rw [List.filter_cons_of_neg (by simp [he])]
      exact DropHit.drop _ he ih

/-- An enemy that is hit keeps its place and its state through a stretch. -/
theorem marked_hit_unchanged {es es1 : List (Enemy K)} (h : List.Forall₂ Marked es es1)
    (j : Nat) (e : Enemy K) (hj : es[j]? = some e) (he : e.hit = true) :
    es1[j]? = some e := by
  induction h generalizing j with
  | nil => simp at hj
  | @cons a a1 l l1 hm _ ih =>
    cases j with
    | zero =>
      simp only [List.getElem?_cons_zero, Option.some.injEq] at hj ⊢
      subst hj
      rcases hm with h1 | ⟨h1, _⟩
      · exact h1
      · rw [he] at h1; cases h1
    | succ j =>
      simp only [List.getElem?_cons_succ] at hj ⊢
      exact ih j hj

/-- The number of enemies newly marked is at most the number of enemies that
were not hit. -/
theorem newHitCount_le (es es1 : List (Enemy K)) :
    newHitCount es es1 ≤ (es.filter (fun e => !e.hit)).length := by
  induction es generalizing es1 with
  | nil => simp [newHitCount]
  | cons e es ih =>
    cases es1 with
    | nil => simp [newHitCount]
    | cons e1 es1 =>
      have h := ih es1
      cases he : e.hit
      · rw [List.filter_cons_of_pos (by simp [he])]
        simp only [newHitCount, List.length_cons]
        split_ifs <;> omega
      · rw [List.filter_cons_of_neg (by simp [he])]
        simp only [newHitCount, he]
        simpa using h

/-- The hit flag is not changed by `Enemy.Update`. -/
theorem enemy_update_hit (e : Enemy K) (rng : Rand K) : (e.Update rng).1.hit = e.hit := by
  have hb : ∀ (a : Enemy K) (r : Rand K), (Enemy.behave a r).1.hit = a.hit := by
    intro a r
    unfold Enemy.behave
    split
    · rfl
    · dsimp only
      split_ifs <;> rfl
    · split_ifs <;> rfl
  unfold Enemy.Update
  dsimp only
  split_ifs with h1 h2 h3
  · rfl
  · simp only [hb]
  · rfl
  · simp only [hb]

/-- The collision pass of a game, summarised. -/
theorem collision_stretch (g : Game K) :
    List.Forall₂ Marked g.enemies (collision g).enemies ∧
    (collision g).score = g.score + newHitScore g.enemies (collision g).enemies ∧
    (∃ suffix : List (GainEffect K),
      (collision g).gainEffects = g.gainEffects ++ suffix ∧
      suffix.length = newHitCount g.enemies (collision g).enemies ∧
      ∀ ge ∈ suffix, ∃ e ∈ g.enemies, e.hit = false ∧ ge = gainEffectOf e) ∧
    (collision g).bullets.length + newHitCount g.enemies (collision g).enemies
      = g.bullets.length := by
  have h := collideLoop_stretch g.bullets
    { enemies := g.enemies, gainEffects := g.gainEffects, score := g.score, newBullets := [] }
  obtain ⟨h1, h2, h3, h4⟩ := h
  refine ⟨h1, h2, h3, ?_⟩
  simp only [List.length_nil, Nat.zero_add] at h4
  exact h4

/-- C4: for a bullet `b` and an enemy list consisting of one enemy `e` that is
not hit, the collision pass marks `e` hit and removes `b` if and only if
`(e.x-b.x)^2 + (e.y-b.y)^2 + (e.z-b.z)^2 < (e.r+b.r)^2`; otherwise, and in
particular when the two sides are equal, the enemy and the bullet are kept. -/
theorem collision_boundary_strict (g : Game K) (b : Bullet K) (e : Enemy K)
    (hb : g.bullets = [b]) (he : g.enemies = [e]) (hh : e.hit = false) :
    (((collision g).enemies = [{ e with hit := true }] ∧ (collision g).bullets = []) ↔
      (e.x - b.x) ^ 2 + (e.y - b.y) ^ 2 + (e.z - b.z) ^ 2 < (e.r + b.r) ^ 2) ∧
    (¬ ((e.x - b.x) ^ 2 + (e.y - b.y) ^ 2 + (e.z - b.z) ^ 2 < (e.r + b.r) ^ 2) →
      (collision g).enemies = [e] ∧ (collision g).bullets = [b]) ∧
    ((e.x - b.x) ^ 2 + (e.y - b.y) ^ 2 + (e.z - b.z) ^ 2 = (e.r + b.r) ^ 2 →
      (collision g).enemies = [e] ∧ (collision g).bullets = [b]) := by
  have hno : ¬ ((e.x - b.x) ^ 2 + (e.y - b.y) ^ 2 + (e.z - b.z) ^ 2 < (e.r + b.r) ^ 2) →
      (collision g).enemies = [e] ∧ (collision g).bullets = [b] := by
    intro c
    have c1 : ¬ (e.hit = false ∧ intersects e b) := fun h => c h.2
    simp only [collision, collideLoop, hb, he, List.foldl_cons, List.foldl_nil, collideStep,
      collideBullet, if_neg c1, List.nil_append, and_self]
  refine ⟨⟨?_, ?_⟩, hno, ?_⟩
  · intro h
    by_contra c
    have h2 := (hno c).2
    rw [h.2] at h2
    cases h2
  · intro c
    have c1 : e.hit = false ∧ intersects e b := ⟨hh, c⟩
    simp only [collision, collideLoop, hb, he, List.foldl_cons, List.foldl_nil, collideStep,
      collideBullet, if_pos c1, and_self]
  · intro c
    exact hno (by rw [c]; exact lt_irrefl _)

/-- Witness of C4 on the sample game with one enemy. -/
theorem collision_boundary_strict_witness :
    (((collision sampleDuel).enemies
        = [{ ticks := 10, kind := EnemyKind.Dizzy, hit := true, x := 20, y := -910, z := 200
             vx := 0, vy := 0, vx0 := 4, r := 35 }] ∧ (collision sampleDuel).bullets = []) ↔
      ((20 : ℚ) - 0) ^ 2 + (-910 - -900) ^ 2 + (200 - 197) ^ 2 < (35 + 10) ^ 2) :=
  (collision_boundary_strict sampleDuel
    { ticks := 49, x := 0, y := -900, z := 197, vx := 0, vy := -10, vz := 3, r := 10 }
    { ticks := 10, kind := EnemyKind.Dizzy, hit := false, x := 20, y := -910, z := 200
      vx := 0, vy := 0, vx0 := 4, r := 35 } rfl rfl rfl).1

/-! ## First match wins; scoring -/

/-- The body of the outer loop for one bullet: either no enemy that is not hit
intersects the bullet, nothing is marked and the bullet is kept; or the enemy
list splits at the first enemy that is not hit and intersects the bullet, that
enemy alone is marked, and the bullet is dropped. -/
theorem collideStep_spec (st : CollisionState K) (b : Bullet K) :
    ((∀ x ∈ st.enemies, ¬ (x.hit = false ∧ intersects x b)) ∧
      (collideStep st b).enemies = st.enemies ∧
      (collideStep st b).newBullets = st.newBullets ++ [b] ∧
      (collideStep st b).score = st.score ∧
      (collideStep st b).gainEffects = st.gainEffects) ∨
    ∃ (pre post : List (Enemy K)) (e : Enemy K),
      st.enemies = pre ++ e :: post ∧ e.hit = false ∧ intersects e b ∧
      (∀ x ∈ pre, ¬ (x.hit = false ∧ intersects x b)) ∧
      (collideStep st b).enemies = pre ++ { e with hit := true } :: post ∧
      (collideStep st b).newBullets = st.newBullets ∧
      (collideStep st b).score = st.score + kindScore e.kind ∧
      (collideStep st b).gainEffects = st.gainEffects ++ [gainEffectOf e] := by
  rcases collideBullet_spec b st.enemies with ⟨h1, h2, h3⟩ | ⟨pre, post, e, h1, h2, h3, h4, h5, h6⟩
  · refine Or.inl ⟨h3, ?_, ?_, ?_, ?_⟩ <;> simp only [collideStep, h1, h2]
  · refine Or.inr ⟨pre, post, e, h1, h4, h5, h6, ?_, ?_, ?_, ?_⟩ <;>
      simp only [collideStep, h2, h3]

/-- C5: for every bullet processed in the collision pass, the enemy it marks is
the lowest-index enemy of the list that is not hit at that moment and satisfies
the intersection test (`pre` holds the enemies of lower index, none of which
qualifies); the bullet marks at most one enemy and is dropped if and only if it
marked one; so the number of bullets removed by the pass equals the number of
enemies newly marked hit. -/
theorem first_match_wins (g : Game K) :
    (∀ (st : CollisionState K) (b : Bullet K),
      ((∀ x ∈ st.enemies, ¬ (x.hit = false ∧ intersects x b)) ∧
        (collideStep st b).enemies = st.enemies ∧
        (collideStep st b).newBullets = st.newBullets ++ [b]) ∨
      ∃ (pre post : List (Enemy K)) (e : Enemy K),
        st.enemies = pre ++ e :: post ∧ st.enemies[pre.length]? = some e ∧
        e.hit = false ∧ intersects e b ∧
        (∀ x ∈ pre, ¬ (x.hit = false ∧ intersects x b)) ∧
        (collideStep st b).enemies = pre ++ { e with hit := true } :: post ∧
        newHitCount st.enemies (collideStep st b).enemies = 1 ∧
        (collideStep st b).newBullets = st.newBullets) ∧
    g.bullets.length - (collision g).bullets.length
      = newHitCount g.enemies (collision g).enemies ∧
    (collision g).bullets.length ≤ g.bullets.length := by
  refine ⟨?_, ?_, ?_⟩
  · intro st b
    rcases collideStep_spec st b with ⟨h1, h2, h3, _, _⟩ | ⟨pre, post, e, h1, h2, h3, h4, h5, h6, _, _⟩
    · exact Or.inl ⟨h1, h2, h3⟩
    · refine Or.inr ⟨pre, post, e, h1, ?_, h2, h3, h4, h5, ?_, h6⟩
      · rw [h1, List.getElem?_append_right (le_refl _), Nat.sub_self]
        exact List.getElem?_cons_zero
      · rw [h5, h1]
        exact (mark_middle pre post e h2).2.2
  · have h := (collision_stretch g).2.2.2
    omega
  · have h := (collision_stretch g).2.2.2
    omega

/-- C6: each enemy newly marked hit increases the score by `1` (Normal), `3`
(Dizzy) or `5` (Shy) and appends exactly one gain effect whose score is that
delta and whose position is `toScreenPosition` of the enemy; a bullet that
marks no enemy changes neither; the pass adds the sum of the deltas of the
enemies newly marked; and so does a whole tick that starts in the Playing
mode. -/
theorem score_by_kind (env : Env K) (inp : Input) (g : Game K) :
    (kindScore EnemyKind.Normal = 1 ∧ kindScore EnemyKind.Dizzy = 3 ∧
      kindScore EnemyKind.Shy = 5) ∧
    (∀ (st : CollisionState K) (b : Bullet K),
      ((collideBullet b st.enemies).2 = none ∧ (collideStep st b).score = st.score ∧
        (collideStep st b).gainEffects = st.gainEffects) ∨
      ∃ (e : Enemy K) (ge : GainEffect K),
        (collideBullet b st.enemies).2 = some e ∧ e ∈ st.enemies ∧ e.hit = false ∧
        (collideStep st b).score = st.score + kindScore e.kind ∧
        (collideStep st b).gainEffects = st.gainEffects ++ [ge] ∧
        ge.score = kindScore e.kind ∧ (ge.x, ge.y) = toScreenPosition e.x e.y e.z ∧
        ge.ticks = 0) ∧
    ((collision g).score = g.score + newHitScore g.enemies (collision g).enemies ∧
      ∃ suffix : List (GainEffect K),
        (collision g).gainEffects = g.gainEffects ++ suffix ∧
        suffix.length = newHitCount g.enemies (collision g).enemies ∧
        ∀ ge ∈ suffix, ∃ e ∈ g.enemies, e.hit = false ∧ ge.score = kindScore e.kind ∧
          (ge.x, ge.y) = toScreenPosition e.x e.y e.z) ∧
    (g.mode = GameMode.Playing →
      (Game.Update env inp g).score
        = g.score + newHitScore (collisionEntry env inp g).enemies
            (Game.Update env inp g).enemies) := by
  refine ⟨⟨rfl, rfl, rfl⟩, ?_, ?_, ?_⟩
  · intro st b
    rcases collideBullet_spec b st.enemies with ⟨h1, h2, _⟩ | ⟨pre, post, e, h1, h2, h3, h4, _, _⟩
    · refine Or.inl ⟨h1, ?_, ?_⟩ <;> simp only [collideStep, h1, h2]
    · refine Or.inr ⟨e, gainEffectOf e, h2, by rw [h1]; simp, h4, ?_, ?_, rfl, rfl, rfl⟩ <;>
        simp only [collideStep, h2, h3]
  · obtain ⟨_, h2, ⟨suf, h3, h4, h5⟩, _⟩ := collision_stretch g
    refine ⟨h2, suf, h3, h4, ?_⟩
    intro ge hge
    obtain ⟨e, he, hh, rfl⟩ := h5 ge hge
    exact ⟨e, he, hh, rfl, rfl⟩
  · intro hm
    have hl : (logTouches inp { g with ticksFromModeStart := g.ticksFromModeStart + 1 }).mode
        = GameMode.Playing := by
      rw [(logTouches_frame _ _).2.1]; exact hm
    have he : (Game.Update env inp g).enemies = (collision (collisionEntry env inp g)).enemies := by
      simp only [Game.Update, hl, playingTick, (finishRound_frame _).2.2.1, collisionEntry]
    rw [he, update_playing_score env inp g hm]
    have h := (collision_stretch (collisionEntry env inp g)).2.1
    have hs : (collisionEntry env inp g).score = g.score := by
      simp only [collisionEntry, beforeCollision_score, (logTouches_frame _ _).1]
    rw [hs] at h
    exact h

/-- Witness of C6: a Playing tick of the sample game. -/
theorem score_by_kind_witness :
    (Game.Update sampleEnv idleInput sampleGame).score
      = sampleGame.score + newHitScore (collisionEntry sampleEnv idleInput sampleGame).enemies
          (Game.Update sampleEnv idleInput sampleGame).enemies :=
  (score_by_kind sampleEnv idleInput sampleGame).2.2.2 rfl

/-- The collision pass evaluated on the sample game: the bullet intersects both
enemies and is nearer to the second; the first (Dizzy, score 3) is marked, the
second is not, and the bullet is dropped. -/
theorem collision_sampleGame_eval :
    ((collision sampleGame).enemies.map (fun e => e.hit), (collision sampleGame).score,
      (collision sampleGame).bullets.length) = ([true, false], 7, 0) := by
  simp [collision, collideLoop, collideStep, collideBullet, sampleGame, intersects, kindScore]
  norm_num

/-- Witness of C5: on the sample game the bullet intersects both enemies, the
second being the nearer one; the pass marks the first and drops the bullet. -/
theorem first_match_wins_witness :
    sampleGame.bullets.length - (collision sampleGame).bullets.length
      = newHitCount sampleGame.enemies (collision sampleGame).enemies :=
  (first_match_wins sampleGame).2.1

/-! ## Bullets of a game -/

/-- Every bullet that enters the collision pass of a Playing tick is an updated
bullet of the state before the tick or the updated bullet fired in this tick. -/
theorem beforeCollision_bullets_mem (env : Env K) (inp : Input) (g : Game K) (c : Bullet K)
    (hc : c ∈ (beforeCollision env inp g).bullets) :
    ∃ b : Bullet K, c = b.Update ∧
      (b ∈ g.bullets ∨
        b = newBulletByTouchPosition env (getHoldPosition inp : K × K).1
          (getHoldPosition inp : K × K).2) := by
  simp only [beforeCollision, updateGainEffects, updateEnemies, updateSplashEffects,
    updateBullets, (enemyEnter_frame _).2.1] at hc
  rcases updateBulletsLoop_mem env _ _ c hc with h | ⟨b, hb, rfl⟩
  · cases h
  · refine ⟨b, rfl, ?_⟩
    rcases (release_frame env inp (aimStart inp (stepTimer g))).2.2.2 with h | h
    · rw [h, (aimStart_frame _ _).2.1, (stepTimer_frame _).2.1] at hb
      exact Or.inl hb
    · rw [h, (aimStart_frame _ _).2.1, (stepTimer_frame _).2.1] at hb
      rcases List.mem_append.mp hb with h1 | h1
      · exact Or.inl h1
      · exact Or.inr (List.mem_singleton.mp h1)

/-- Every bullet after a tick is a bullet of the state before the tick, such a
bullet updated, or the updated bullet fired in this tick. -/
theorem update_bullets_mem (env : Env K) (inp : Input) (g : Game K) (c : Bullet K)
    (hc : c ∈ (Game.Update env inp g).bullets) :
    c ∈ g.bullets ∨ ∃ b : Bullet K, c = b.Update ∧
      (b ∈ g.bullets ∨
        b = newBulletByTouchPosition env (getHoldPosition inp : K × K).1
          (getHoldPosition inp : K × K).2) := by
  obtain ⟨-, hmode, hbul, -⟩ :=
    logTouches_frame inp { g with ticksFromModeStart := g.ticksFromModeStart + 1 }
  revert hc
  cases hm : g.mode with
  | Title =>
    have h1 : (logTouches inp { g with ticksFromModeStart := g.ticksFromModeStart + 1 }).mode
        = GameMode.Title := by rw [hmode]; exact hm
    simp only [Game.Update, h1]
    split_ifs
    · simp only [Game.setNextMode, hbul]; exact Or.inl
    · rw [hbul]; exact Or.inl
  | Playing =>
    have h1 : (logTouches inp { g with ticksFromModeStart := g.ticksFromModeStart + 1 }).mode
        = GameMode.Playing := by rw [hmode]; exact hm
    simp only [Game.Update, h1, playingTick, (finishRound_frame _).2.1]
    intro hc
    rcases collideLoop_newBullets_mem _ _ c hc with h | h
    · cases h
    · obtain ⟨b, hb1, hb2⟩ := beforeCollision_bullets_mem env inp _ c h
      rw [hbul] at hb2
      exact Or.inr ⟨b, hb1, hb2⟩
  | GameOver =>
    have h1 : (logTouches inp { g with ticksFromModeStart := g.ticksFromModeStart + 1 }).mode
        = GameMode.GameOver := by rw [hmode]; exact hm
    have hp : ∀ G : Game K, (pollRanking inp G).bullets = G.bullets := by
      intro G; unfold pollRanking; split <;> rfl
    simp only [Game.Update, h1, gameOverTick]
    split_ifs
    · simp only [Game.setNextMode, hp, hbul]; exact Or.inl
    · intro hc; cases hc
    · rw [hbul]; exact Or.inl
  | Ranking =>
    have h1 : (logTouches inp { g with ticksFromModeStart := g.ticksFromModeStart + 1 }).mode
        = GameMode.Ranking := by rw [hmode]; exact hm
    simp only [Game.Update, h1, rankingTick]
    split_ifs
    · intro hc; cases hc
    · rw [hbul]; exact Or.inl

/-- C8: for every bullet with `vz > 0`, `Bullet.Update` strictly increases `z`
and leaves `vz` unchanged, so `z` is strictly increasing over any number of
successive updates; every bullet created by `newBulletByTouchPosition` has
`vz = 3`; a round starts without bullets and a tick keeps `vz = 3` on every
bullet of the game, so no live bullet ever moves backward in depth. -/
theorem bullet_depth_increasing (b : Bullet K) (hvz : 0 < b.vz) :
    (b.z < b.Update.z ∧ b.Update.vz = b.vz) ∧
    (∀ m n : Nat, m < n → (Bullet.Update^[m] b).z < (Bullet.Update^[n] b).z) ∧
    (∀ (env : Env K) (touchX touchY : K),
      (newBulletByTouchPosition env touchX touchY).vz = 3) ∧
    (∀ (env : Env K) (now : Int) (g : Game K), (Game.initRound env now g).bullets = []) ∧
    (∀ (env : Env K) (inp : Input) (g : Game K), (∀ c ∈ g.bullets, c.vz = 3) →
      ∀ c ∈ (Game.Update env inp g).bullets, c.vz = 3 ∧ c.z < c.Update.z) := by
  refine ⟨⟨?_, rfl⟩, ?_, fun _ _ _ => rfl, fun _ _ _ => rfl, ?_⟩
  · simp only [Bullet.Update]
    linarith
  · intro m n hmn
    rw [(bullet_iterate_depth b m).2, (bullet_iterate_depth b n).2]
    have h : (m : K) < n := by exact_mod_cast hmn
    nlinarith
  · intro env inp g hg c hc
    have h3 : c.vz = 3 := by
      rcases update_bullets_mem env inp g c hc with h | ⟨b1, rfl, h | h⟩
      · exact hg c h
      · exact hg b1 h
      · rw [h]; rfl
    refine ⟨h3, ?_⟩
    simp only [Bullet.Update, h3]
    linarith

/-- Witness of C8 on the bullet of the sample game. -/
theorem bullet_depth_increasing_witness :
    (0 : ℚ) < sampleBullet.vz ∧ sampleBullet.z < sampleBullet.Update.z :=
  ⟨by norm_num [sampleBullet],
    (bullet_depth_increasing sampleBullet (by norm_num [sampleBullet])).1.1⟩

/-! ## The shot fired from a hold position -/

/-- Over the real numbers the velocity of the bullet fired for the touch point
`(touchX, touchY)` is one third of the displacement from the touch point to the
anchor `(320, 360)`. -/
theorem newBullet_real_velocity (fishImageHeight : Int) (newRand : Int → Rand ℝ)
    (leafFuel : Nat) (touchX touchY : ℝ) :
    (newBulletByTouchPosition (realEnv fishImageHeight newRand leafFuel) touchX touchY).vx
      = (320 - touchX) / 3 ∧
    (newBulletByTouchPosition (realEnv fishImageHeight newRand leafFuel) touchX touchY).vy
      = (360 - touchY) / 3 := by
  have hf : toScreenPosition (fishPosXInCamera : ℝ) fishPosYInCamera fishPosZInCamera
      = (320, 360) := fish_screen_position
  have hd : Real.sqrt ((320 - touchX) ^ 2 + (360 - touchY) ^ 2)
      = Complex.abs ⟨320 - touchX, 360 - touchY⟩ := by
    rw [Complex.abs_apply, Complex.normSq_mk]
    congr 1
    ring
  simp only [newBulletByTouchPosition, realEnv, hf, screenHeight, hd]
  by_cases hz : (⟨320 - touchX, 360 - touchY⟩ : ℂ) = 0
  · have h1 : 320 - touchX = 0 := by simpa using congrArg Complex.re hz
    have h2 : 360 - touchY = 0 := by simpa using congrArg Complex.im hz
    rw [hz, h1, h2]
    simp
  · have ha : Complex.abs ⟨320 - touchX, 360 - touchY⟩ ≠ 0 := by
      simpa using hz
    rw [Complex.cos_arg hz, Complex.sin_arg]
    constructor
    · field_simp
      ring
    · field_simp
      ring

/-- C9: for the drag position `(320, 480)` (the anchor's screen x and the screen
bottom) the bullet has `vx = 0` and `|vy| = 40`, and `40` is the maximum of
`|vy|` over all positions that `getHoldPosition` returns (it is attained at
`(320, 480)`, which `getHoldPosition` returns for the pointer `(320, 480)`). -/
theorem straight_down_shot (fishImageHeight : Int) (newRand : Int → Rand ℝ) (leafFuel : Nat) :
    (newBulletByTouchPosition (realEnv fishImageHeight newRand leafFuel) 320 480).vx = 0 ∧
    |(newBulletByTouchPosition (realEnv fishImageHeight newRand leafFuel) 320 480).vy| = 40 ∧
    (∀ inp : Input, inp.X = 320 → inp.Y = 480 → (getHoldPosition inp : ℝ × ℝ) = (320, 480)) ∧
    (∀ inp : Input,
      |(newBulletByTouchPosition (realEnv fishImageHeight newRand leafFuel)
          (getHoldPosition inp : ℝ × ℝ).1 (getHoldPosition inp : ℝ × ℝ).2).vy| ≤ 40) := by
  refine ⟨?_, ?_, ?_, ?_⟩
  · rw [(newBullet_real_velocity fishImageHeight newRand leafFuel 320 480).1]
    norm_num
  · rw [(newBullet_real_velocity fishImageHeight newRand leafFuel 320 480).2]
    norm_num [abs_of_neg]
  · intro inp hx hy
    rw [getHoldPosition, clampHoldPosition_eq, hx, hy]
    norm_num
  · intro inp
    rw [(newBullet_real_velocity fishImageHeight newRand leafFuel _ _).2]
    obtain ⟨_, _, h3, h4⟩ := clampHoldPosition_range (inp.X : ℝ) (inp.Y : ℝ)
    rw [getHoldPosition, abs_le]
    constructor <;> linarith

/-- Witness of C9: the pointer at `(320, 480)`. -/
theorem straight_down_shot_witness :
    (getHoldPosition
      { justTouched := false, justReleased := true, beingTouched := false, X := 320, Y := 480
        rankingRecv := none, now := 0 } : ℝ × ℝ) = (320, 480) :=
  (straight_down_shot 50 (fun _ => { intAt := fun _ => 0, floatAt := fun _ => 0
                                     normAt := fun _ => (0, 1), pos := 0 }) 64).2.2.1
    _ rfl rfl

/-! ## Bullet integration -/

/-- C19: `Bullet.Update` yields `ticks + 1`, `vy + 0.5`, `x + vx`, `y` plus the
already updated vertical velocity, `z + vz`, and leaves `vx`, `vz` and `r`
unchanged. -/
theorem bullet_update_fields (b : Bullet K) :
    b.Update.ticks = b.ticks + 1 ∧
    b.Update.vy = b.vy + 1 / 2 ∧
    b.Update.x = b.x + b.vx ∧
    b.Update.y = b.y + b.Update.vy ∧
    b.Update.y = b.y + (b.vy + 1 / 2) ∧
    b.Update.z = b.z + b.vz ∧
    b.Update.vx = b.vx ∧ b.Update.vz = b.vz ∧ b.Update.r = b.r :=
  ⟨rfl, rfl, rfl, rfl, rfl, rfl, rfl, rfl, rfl⟩

/-! ## Hit enemies only fall -/

/-- `Enemy.Update` on an enemy that is hit and has been updated before. -/
theorem enemy_update_of_hit (e : Enemy K) (rng : Rand K) (hh : e.hit = true)
    (ht : 1 ≤ e.ticks) :
    e.Update rng
      = ({ e with ticks := e.ticks + 1, vy := e.vy + gravity, y := e.y + (e.vy + gravity) },
          rng) := by
  have h0 : e.ticks ≠ 0 := by omega
  simp only [Enemy.Update, if_neg h0, hh, if_true]

/-- C17: neither `Enemy.Update` nor the collision pass changes a hit flag from
true to false; and for a hit enemy with `ticks ≥ 1`, whatever its kind,
`Enemy.Update` changes only `ticks` (+1), `vy` (`vy + gravity`) and `y` (`y`
plus the new `vy`), leaves `x`, `z`, `vx`, `vx0`, `kind` and `r` unchanged and
returns the generator as it was (no random value is drawn). -/
theorem hit_enemy_only_falls (g : Game K) :
    (∀ (e : Enemy K) (rng : Rand K), e.hit = true → (e.Update rng).1.hit = true) ∧
    (∀ (j : Nat) (e : Enemy K), g.enemies[j]? = some e → e.hit = true →
      ∃ e1 : Enemy K, (collision g).enemies[j]? = some e1 ∧ e1.hit = true) ∧
    (∀ (e : Enemy K) (rng : Rand K), e.hit = true → 1 ≤ e.ticks →
      (e.Update rng).1.ticks = e.ticks + 1 ∧
      (e.Update rng).1.vy = e.vy + gravity ∧
      (e.Update rng).1.y = e.y + (e.Update rng).1.vy ∧
      (e.Update rng).1.x = e.x ∧ (e.Update rng).1.z = e.z ∧
      (e.Update rng).1.vx = e.vx ∧ (e.Update rng).1.vx0 = e.vx0 ∧
      (e.Update rng).1.kind = e.kind ∧ (e.Update rng).1.r = e.r ∧
      (e.Update rng).1.hit = true ∧
      (e.Update rng).2 = rng) := by
  refine ⟨?_, ?_, ?_⟩
  · intro e rng hh
    rw [enemy_update_hit, hh]
  · intro j e hj hh
    exact ⟨e, marked_hit_unchanged (collision_stretch g).1 j e hj hh, hh⟩
  · intro e rng hh ht
    rw [enemy_update_of_hit e rng hh ht]
    exact ⟨rfl, rfl, rfl, rfl, rfl, rfl, rfl, rfl, rfl, hh, rfl⟩

/-- Witness of C17: the enemy of the sample game that is already hit stays hit
through one update. -/
theorem hit_enemy_only_falls_witness :
    (Enemy.Update
      ({ ticks := 10, kind := EnemyKind.Dizzy, hit := true, x := 20, y := -910, z := 200
         vx := 0, vy := 0, vx0 := 4, r := 35 } : Enemy ℚ) zeroRand).1.hit = true :=
  (hit_enemy_only_falls sampleHitGame).1 _ zeroRand rfl

/-! ## Mode, counters and aim through the tick phases -/

theorem logTouches_frame2 (inp : Input) (g : Game K) :
    (logTouches inp g).timeInTicks = g.timeInTicks ∧ (logTouches inp g).hold = g.hold ∧
    (logTouches inp g).fish = g.fish ∧ (logTouches inp g).splashEffects = g.splashEffects ∧
    (logTouches inp g).random = g.random ∧
    (logTouches inp g).fixedRandomSeed = g.fixedRandomSeed := by
  obtain ⟨buf, h⟩ := logTouches_eq inp g
  rw [h]
  simp

theorem stepTimer_frame2 (g : Game K) :
    (stepTimer g).mode = g.mode ∧ (stepTimer g).ticksFromModeStart = g.ticksFromModeStart ∧
    (stepTimer g).hold = g.hold ∧ (stepTimer g).ranking = g.ranking ∧
    (stepTimer g).rankingChan = g.rankingChan ∧
    (stepTimer g).timeInTicks
      = (if g.ticksFromModeStart > 3 * 60 then g.timeInTicks + 1 else g.timeInTicks) := by
  unfold stepTimer
  split_ifs <;> simp

theorem aimStart_frame2 (inp : Input) (g : Game K) :
    (aimStart inp g).mode = g.mode ∧
    (aimStart inp g).ticksFromModeStart = g.ticksFromModeStart ∧
    (aimStart inp g).timeInTicks = g.timeInTicks ∧ (aimStart inp g).ranking = g.ranking ∧
    (aimStart inp g).rankingChan = g.rankingChan := by
  simp only [aimStart]
  split_ifs <;> simp

theorem release_frame2 (env : Env K) (inp : Input) (g : Game K) :
    (release env inp g).mode = g.mode ∧
    (release env inp g).ticksFromModeStart = g.ticksFromModeStart ∧
    (release env inp g).timeInTicks = g.timeInTicks ∧
    (release env inp g).ranking = g.ranking ∧
    (release env inp g).rankingChan = g.rankingChan := by
  simp only [release]
  split_ifs <;> simp

theorem enterOne_frame2 (kind : EnemyKind) (p v : K) (g : Game K) :
    (enterOne kind p v g).mode = g.mode ∧
    (enterOne kind p v g).ticksFromModeStart = g.ticksFromModeStart ∧
    (enterOne kind p v g).timeInTicks = g.timeInTicks ∧
    (enterOne kind p v g).hold = g.hold ∧
    (enterOne kind p v g).ranking = g.ranking ∧
    (enterOne kind p v g).rankingChan = g.rankingChan := by
  simp only [enterOne]
  split_ifs <;> simp

theorem enemyEnter_frame2 (g : Game K) :
    (enemyEnter g).mode = g.mode ∧
    (enemyEnter g).ticksFromModeStart = g.ticksFromModeStart ∧
    (enemyEnter g).timeInTicks = g.timeInTicks ∧
    (enemyEnter g).hold = g.hold ∧
    (enemyEnter g).ranking = g.ranking ∧
    (enemyEnter g).rankingChan = g.rankingChan := by
  unfold enemyEnter
  split_ifs
  · simp [enterOne_frame2]
  · simp

/-- The phases before the collision pass change neither the mode nor its tick
counter nor the ranking; the round timer is the one `stepTimer` computes. -/
theorem beforeCollision_frame (env : Env K) (inp : Input) (g : Game K) :
    (beforeCollision env inp g).mode = g.mode ∧
    (beforeCollision env inp g).ticksFromModeStart = g.ticksFromModeStart ∧
    (beforeCollision env inp g).timeInTicks
      = (if g.ticksFromModeStart > 3 * 60 then g.timeInTicks + 1 else g.timeInTicks) ∧
    (beforeCollision env inp g).ranking = g.ranking ∧
    (beforeCollision env inp g).rankingChan = g.rankingChan := by
  simp only [beforeCollision, updateGainEffects, updateEnemies, updateSplashEffects,
    updateBullets, enemyEnter_frame2, release_frame2, aimStart_frame2, stepTimer_frame2,
    and_self]

/-- The game-over check: it fires exactly when the round timer has reached
`finishTimeInTicks` and changes nothing otherwise. -/
theorem finishRound_cases (c : Game K) :
    (finishRound c).timeInTicks = c.timeInTicks ∧ (finishRound c).ranking = c.ranking ∧
    (c.timeInTicks ≥ finishTimeInTicks →
      (finishRound c).mode = GameMode.GameOver ∧ (finishRound c).ticksFromModeStart = 0 ∧
      (finishRound c).rankingChan = true) ∧
    (¬ c.timeInTicks ≥ finishTimeInTicks → finishRound c = c) := by
  unfold finishRound
  by_cases hf : c.timeInTicks ≥ finishTimeInTicks
  · simp only [if_pos hf, Game.setNextMode]
    exact ⟨trivial, trivial, fun _ => ⟨trivial, trivial, trivial⟩, fun hn => absurd hf hn⟩
  · simp only [if_neg hf]
    exact ⟨trivial, trivial, fun hn => absurd hn hf, fun _ => trivial⟩

/-- The mode, the mode tick counter and the round timer after the
`case GameModePlaying` of a tick. -/
theorem playingTick_timer (env : Env K) (inp : Input) (g : Game K) :
    (playingTick env inp g).timeInTicks
      = (if g.ticksFromModeStart > 3 * 60 then g.timeInTicks + 1 else g.timeInTicks) ∧
    ((playingTick env inp g).timeInTicks ≥ finishTimeInTicks →
      (playingTick env inp g).mode = GameMode.GameOver ∧
      (playingTick env inp g).ticksFromModeStart = 0 ∧
      (playingTick env inp g).rankingChan = true) ∧
    (¬ (playingTick env inp g).timeInTicks ≥ finishTimeInTicks →
      (playingTick env inp g).mode = g.mode ∧
      (playingTick env inp g).ticksFromModeStart = g.ticksFromModeStart ∧
      (playingTick env inp g).rankingChan = g.rankingChan) ∧
    (playingTick env inp g).ranking = g.ranking := by
  obtain ⟨h1, h2, h3, h4, h5⟩ := beforeCollision_frame env inp g
  have ht : (collision (beforeCollision env inp g)).timeInTicks
      = (if g.ticksFromModeStart > 3 * 60 then g.timeInTicks + 1 else g.timeInTicks) := h3
  have hm : (collision (beforeCollision env inp g)).mode = g.mode := h1
  have hk : (collision (beforeCollision env inp g)).ticksFromModeStart
      = g.ticksFromModeStart := h2
  have hr : (collision (beforeCollision env inp g)).ranking = g.ranking := h4
  have hc : (collision (beforeCollision env inp g)).rankingChan = g.rankingChan := h5
  simp only [playingTick]
  generalize collision (beforeCollision env inp g) = c at ht hm hk hr hc ⊢
  obtain ⟨f1, f2, f3, f4⟩ := finishRound_cases c
  refine ⟨f1.trans ht, ?_, ?_, f2.trans hr⟩
  · intro hn
    rw [f1] at hn
    exact f3 hn
  · intro hn
    rw [f1] at hn
    rw [f4 hn]
    exact ⟨hm, hk, hc⟩

/-! ## The round timer -/

/-- The state handed to the mode switch of `Game.Update`. -/
theorem update_eq (env : Env K) (inp : Input) (g : Game K) :
    ∃ G : Game K,
      G = logTouches inp { g with ticksFromModeStart := g.ticksFromModeStart + 1 } ∧
      G.mode = g.mode ∧ G.ticksFromModeStart = g.ticksFromModeStart + 1 ∧
      G.timeInTicks = g.timeInTicks ∧ G.ranking = g.ranking ∧
      G.rankingChan = g.rankingChan ∧ G.score = g.score ∧ G.hold = g.hold ∧
      G.bullets = g.bullets ∧
      Game.Update env inp g =
        (match g.mode with
         | GameMode.Title =>
           if inp.justTouched = true then Game.setNextMode G GameMode.Playing else G
         | GameMode.Playing => playingTick env inp G
         | GameMode.GameOver => gameOverTick env inp G
         | GameMode.Ranking => rankingTick env inp G) := by
  obtain ⟨h1, h2, h3, _, _, h6, h7, h8⟩ :=
    logTouches_frame inp { g with ticksFromModeStart := g.ticksFromModeStart + 1 }
  obtain ⟨k1, k2, _⟩ :=
    logTouches_frame2 inp { g with ticksFromModeStart := g.ticksFromModeStart + 1 }
  refine ⟨_, rfl, h2, h6, k1, h7, h8, h1, k2, h3, ?_⟩
  simp only [Game.Update, h2]

/-- One tick that starts in the Playing mode: the round timer, and whether the
mode changes to GameOver. -/
theorem update_playing_timer (env : Env K) (inp : Input) (g : Game K)
    (hm : g.mode = GameMode.Playing) :
    (Game.Update env inp g).timeInTicks
      = (if g.ticksFromModeStart + 1 > 3 * 60 then g.timeInTicks + 1 else g.timeInTicks) ∧
    ((Game.Update env inp g).timeInTicks ≥ finishTimeInTicks →
      (Game.Update env inp g).mode = GameMode.GameOver ∧
      (Game.Update env inp g).ticksFromModeStart = 0) ∧
    (¬ (Game.Update env inp g).timeInTicks ≥ finishTimeInTicks →
      (Game.Update env inp g).mode = GameMode.Playing ∧
      (Game.Update env inp g).ticksFromModeStart = g.ticksFromModeStart + 1) := by
  obtain ⟨G, _, g1, g2, g3, _, _, _, _, _, hU⟩ := update_eq env inp g
  rw [hm] at hU
  simp only at hU
  rw [hU]
  obtain ⟨p1, p2, p3, _⟩ := playingTick_timer env inp G
  rw [g2, g3] at p1
  refine ⟨p1, fun h => ⟨(p2 h).1, (p2 h).2.1⟩, fun h => ?_⟩
  obtain ⟨q1, q2, _⟩ := p3 h
  exact ⟨q1.trans (g1.trans hm), q2.trans g2⟩

/-- One tick from the Playing mode `a` ticks after its start, `a < 3779`, stays
in the Playing mode; the tick from `a = 3779` changes to GameOver. -/
theorem playingAt_step (env : Env K) (inp : Input) (g : Game K) (a : Nat)
    (h : PlayingAt g a) :
    (a + 1 < 3780 → PlayingAt (Game.Update env inp g) (a + 1)) ∧
    (a + 1 = 3780 → (Game.Update env inp g).mode = GameMode.GameOver ∧
      (Game.Update env inp g).timeInTicks = 3600 ∧
      (Game.Update env inp g).ticksFromModeStart = 0) := by
  obtain ⟨hm, hk, ht⟩ := h
  obtain ⟨u1, u2, u3⟩ := update_playing_timer env inp g hm
  rw [hk, ht] at u1
  have hT : (Game.Update env inp g).timeInTicks = a + 1 - 180 := by
    rw [u1]
    split_ifs <;> omega
  constructor
  · intro ha
    have hn : ¬ (Game.Update env inp g).timeInTicks ≥ finishTimeInTicks := by
      rw [hT, finishTimeInTicks]; omega
    obtain ⟨q1, q2⟩ := u3 hn
    exact ⟨q1, by rw [q2, hk], hT⟩
  · intro ha
    have hn : (Game.Update env inp g).timeInTicks ≥ finishTimeInTicks := by
      rw [hT, finishTimeInTicks]; omega
    obtain ⟨q1, q2⟩ := u2 hn
    exact ⟨q1, by rw [hT]; omega, q2⟩

/-- The Playing mode after a sequence of ticks that ends before the 3780th. -/
theorem playingAt_run (env : Env K) (inps : List Input) (g : Game K) (a : Nat)
    (h : PlayingAt g a) (hl : a + inps.length < 3780) :
    PlayingAt (Game.run env inps g) (a + inps.length) := by
  induction inps generalizing g a with
  | nil => exact h
  | cons inp inps ih =>
    simp only [List.length_cons] at hl
    have h1 := (playingAt_step env inp g a h).1 (by omega)
    have h2 := ih (Game.Update env inp g) (a + 1) h1 (by omega)
    simp only [List.length_cons, Game.run]
    rw [show a + (inps.length + 1) = a + 1 + inps.length by omega]
    exact h2

/-- A sequence of ticks is a shorter sequence followed by one tick. -/
theorem run_append_one (env : Env K) (inps : List Input) (inp : Input) (g : Game K) :
    Game.run env (inps ++ [inp]) g = Game.Update env inp (Game.run env inps g) := by
  induction inps generalizing g with
  | nil => rfl
  | cons i inps ih => exact ih (Game.Update env i g)

/-- The tick of a fresh round in the Title mode: a press starts the Playing
mode, anything else keeps waiting. -/
theorem titleFresh_step (env : Env K) (inp : Input) (g : Game K) (h : TitleFresh g) :
    (inp.justTouched = true → RoundStart (Game.Update env inp g)) ∧
    (inp.justTouched = false → TitleFresh (Game.Update env inp g)) := by
  obtain ⟨hm, ht, hh, hb, hs⟩ := h
  obtain ⟨G, _, g1, g2, g3, _, _, g6, g7, g8, hU⟩ := update_eq env inp g
  rw [hm] at hU
  simp only at hU
  rw [hU]
  constructor
  · intro hj
    rw [if_pos hj]
    refine ⟨⟨rfl, rfl, ?_⟩, ?_, ?_, ?_⟩
    · show G.timeInTicks = 0 - 180
      rw [g3, ht]
    · show G.hold = false
      rw [g7, hh]
    · show G.bullets = []
      rw [g8, hb]
    · show G.score = 0
      rw [g6, hs]
  · intro hj
    have hn : ¬ inp.justTouched = true := by rw [hj]; simp
    rw [if_neg hn]
    exact ⟨g1.trans hm, g3.trans ht, g7.trans hh, g8.trans hb, g6.trans hs⟩

/-- A round is fresh after `initialize`. -/
theorem initRound_titleFresh (env : Env K) (now : Int) (g : Game K) :
    TitleFresh (Game.initRound env now g) :=
  ⟨rfl, rfl, rfl, rfl, rfl⟩

/-- The three outcomes of the `case GameModeGameOver`. -/
theorem gameOverTick_cases (env : Env K) (inp : Input) (G : Game K) :
    (¬ (G.ticksFromModeStart > 60 ∧ inp.justTouched = true) ∧ gameOverTick env inp G = G) ∨
    ((G.ticksFromModeStart > 60 ∧ inp.justTouched = true) ∧
      (pollRanking inp G).ranking.length > 0 ∧
      gameOverTick env inp G = Game.setNextMode (pollRanking inp G) GameMode.Ranking) ∨
    ((G.ticksFromModeStart > 60 ∧ inp.justTouched = true) ∧
      ¬ (pollRanking inp G).ranking.length > 0 ∧
      gameOverTick env inp G = Game.initRound env inp.now (pollRanking inp G)) := by
  by_cases c1 : G.ticksFromModeStart > 60 ∧ inp.justTouched = true
  · by_cases c2 : (pollRanking inp G).ranking.length > 0
    · refine Or.inr (Or.inl ⟨c1, c2, ?_⟩)
      simp only [gameOverTick, if_pos c1, if_pos c2]
    · refine Or.inr (Or.inr ⟨c1, c2, ?_⟩)
      simp only [gameOverTick, if_pos c1, if_neg c2]
  · refine Or.inl ⟨c1, ?_⟩
    simp only [gameOverTick, if_neg c1]

/-- The two outcomes of the `case GameModeRanking`. -/
theorem rankingTick_cases (env : Env K) (inp : Input) (G : Game K) :
    ((G.ranking.length = 0 ∨ (G.ticksFromModeStart > 60 ∧ inp.justTouched = true)) ∧
      rankingTick env inp G = Game.initRound env inp.now G) ∨
    (¬ (G.ranking.length = 0 ∨ (G.ticksFromModeStart > 60 ∧ inp.justTouched = true)) ∧
      rankingTick env inp G = G) := by
  by_cases c1 : G.ranking.length = 0 ∨ (G.ticksFromModeStart > 60 ∧ inp.justTouched = true)
  · refine Or.inl ⟨c1, ?_⟩
    simp only [rankingTick, if_pos c1]
  · refine Or.inr ⟨c1, ?_⟩
    simp only [rankingTick, if_neg c1]

/-- The receive on the ranking channel changes nothing but the ranking list. -/
theorem pollRanking_eq (inp : Input) (G : Game K) :
    ∃ r, pollRanking inp G = { G with ranking := r } ∧
      r = (match (if G.rankingChan then inp.rankingRecv else none) with
           | some ranking => ranking
           | none => G.ranking) := by
  unfold pollRanking
  cases (if G.rankingChan then inp.rankingRecv else none) with
  | none => exact ⟨G.ranking, rfl, rfl⟩
  | some r => exact ⟨r, rfl, rfl⟩

/-- A tick that starts in the GameOver or Ranking mode never ends in the
Playing mode. -/
theorem update_not_playing (env : Env K) (inp : Input) (g : Game K)
    (h : g.mode = GameMode.GameOver ∨ g.mode = GameMode.Ranking) :
    (Game.Update env inp g).mode ≠ GameMode.Playing := by
  obtain ⟨G, _, g1, _, _, _, _, _, _, _, hU⟩ := update_eq env inp g
  rcases h with hm | hm
  · rw [hm] at hU g1
    simp only at hU
    rw [hU]
    rcases gameOverTick_cases env inp G with ⟨_, h⟩ | ⟨_, _, h⟩ | ⟨_, _, h⟩
    · rw [h, g1]; simp
    · rw [h]; simp [Game.setNextMode]
    · rw [h, initRound_mode]; simp
  · rw [hm] at hU g1
    simp only at hU
    rw [hU]
    rcases rankingTick_cases env inp G with ⟨_, h⟩ | ⟨_, h⟩
    · rw [h, initRound_mode]; simp
    · rw [h, g1]; simp

/-- The round timer and the mode along the ticks of the Playing mode. -/
theorem playing_timer_facts (env : Env K) (g : Game K) (h0 : PlayingAt g 0) :
    (∀ inps : List Input, inps.length ≤ 180 →
      (Game.run env inps g).timeInTicks = 0 ∧
      (Game.run env inps g).mode = GameMode.Playing) ∧
    (∀ inps : List Input, inps.length < 3780 →
      (Game.run env inps g).timeInTicks = inps.length - 180 ∧
      (Game.run env inps g).ticksFromModeStart = inps.length ∧
      (Game.run env inps g).mode = GameMode.Playing) ∧
    (∀ (inps : List Input) (inp : Input), 180 ≤ inps.length → inps.length < 3780 →
      (Game.run env (inps ++ [inp]) g).timeInTicks
        = (Game.run env inps g).timeInTicks + 1) ∧
    (∀ inps : List Input, inps.length = 3780 →
      (Game.run env inps g).mode = GameMode.GameOver ∧
      (Game.run env inps g).timeInTicks = 3600 ∧
      (Game.run env inps g).ticksFromModeStart = 0) ∧
    (∀ (inp : Input) (h : Game K), h.mode = GameMode.GameOver ∨ h.mode = GameMode.Ranking →
      (Game.Update env inp h).mode ≠ GameMode.Playing) := by
  have hrun : ∀ inps : List Input, inps.length < 3780 →
      PlayingAt (Game.run env inps g) inps.length := by
    intro inps hl
    have h := playingAt_run env inps g 0 h0 (by omega)
    rwa [Nat.zero_add] at h
  have hlast : ∀ (inps : List Input) (inp : Input), inps.length < 3780 →
      (Game.run env (inps ++ [inp]) g).timeInTicks = inps.length + 1 - 180 ∧
      (inps.length + 1 = 3780 →
        (Game.run env (inps ++ [inp]) g).mode = GameMode.GameOver ∧
        (Game.run env (inps ++ [inp]) g).ticksFromModeStart = 0) := by
    intro inps inp hl
    rw [run_append_one]
    obtain ⟨s1, s2⟩ := playingAt_step env inp _ _ (hrun inps hl)
    by_cases hc : inps.length + 1 < 3780
    · exact ⟨(s1 hc).2.2, fun h => by omega⟩
    · have he : inps.length + 1 = 3780 := by omega
      obtain ⟨q1, q2, q3⟩ := s2 he
      exact ⟨by rw [q2]; omega, fun _ => ⟨q1, q3⟩⟩
  refine ⟨?_, ?_, ?_, ?_, fun inp h hh => update_not_playing env inp h hh⟩
  · intro inps hl
    obtain ⟨p1, _, p3⟩ := hrun inps (by omega)
    exact ⟨by rw [p3]; omega, p1⟩
  · intro inps hl
    obtain ⟨p1, p2, p3⟩ := hrun inps hl
    exact ⟨p3, p2, p1⟩
  · intro inps inp h1 h2
    rw [(hlast inps inp h2).1, (hrun inps h2).2.2]
    omega
  · intro inps hl
    rcases List.eq_nil_or_concat inps with h | ⟨L, b, h⟩
    · rw [h] at hl; simp at hl
    · rw [List.concat_eq_append] at h
      subst h
      have hL : L.length = 3779 := by
        simp only [List.length_append, List.length_singleton] at hl
        omega
      obtain ⟨q1, q2⟩ := hlast L b (by omega)
      obtain ⟨q3, q4⟩ := q2 (by omega)
      exact ⟨q3, by rw [q1, hL], q4⟩

/-- C11: from the state just after the change from Title to Playing, for every
input sequence (and every generator), the round timer stays `0` during the
first 180 Playing ticks, then grows by exactly `1` per tick; the mode is still
Playing after every tick before the 3780th and becomes GameOver on the 3780th,
when the round timer reaches `3600`; and a tick from the GameOver or Ranking
mode never ends in the Playing mode, so the change happens once per round. -/
theorem round_timer (env : Env K) (g : Game K) (hm : g.mode = GameMode.Playing)
    (hk : g.ticksFromModeStart = 0) (ht : g.timeInTicks = 0) :
    (∀ inps : List Input, inps.length ≤ 180 →
      (Game.run env inps g).timeInTicks = 0 ∧
      (Game.run env inps g).mode = GameMode.Playing) ∧
    (∀ inps : List Input, inps.length < 3780 →
      (Game.run env inps g).timeInTicks = inps.length - 180 ∧
      (Game.run env inps g).ticksFromModeStart = inps.length ∧
      (Game.run env inps g).mode = GameMode.Playing) ∧
    (∀ (inps : List Input) (inp : Input), 180 ≤ inps.length → inps.length < 3780 →
      (Game.run env (inps ++ [inp]) g).timeInTicks
        = (Game.run env inps g).timeInTicks + 1) ∧
    (∀ inps : List Input, inps.length = 3780 →
      (Game.run env inps g).mode = GameMode.GameOver ∧
      (Game.run env inps g).timeInTicks = 3600 ∧
      (Game.run env inps g).ticksFromModeStart = 0) ∧
    (∀ (inp : Input) (h : Game K), h.mode = GameMode.GameOver ∨ h.mode = GameMode.Ranking →
      (Game.Update env inp h).mode ≠ GameMode.Playing) :=
  playing_timer_facts env g ⟨hm, hk, by rw [ht]⟩

/-- Witness of C11: 3780 idle ticks from the start of the Playing mode. -/
theorem round_timer_witness :
    (Game.run sampleEnv (List.replicate 3780 idleInput) sampleStart).mode = GameMode.GameOver ∧
    (Game.run sampleEnv (List.replicate 3780 idleInput) sampleStart).timeInTicks = 3600 ∧
    (Game.run sampleEnv (List.replicate 3780 idleInput) sampleStart).ticksFromModeStart = 0 :=
  (round_timer sampleEnv sampleStart rfl rfl rfl).2.2.2.1 (List.replicate 3780 idleInput)
    (List.length_replicate _ _)

/-! ## Mode tick counter -/

/-- C14: after every `Update` the mode tick counter is `0` if the tick changed
the mode (every re-initialization changes the mode, to Title, and resets the
counter) and its previous value plus `1` otherwise. -/
theorem mode_tick_counter (env : Env K) (inp : Input) (g : Game K) :
    (Game.Update env inp g).ticksFromModeStart
      = (if (Game.Update env inp g).mode = g.mode then g.ticksFromModeStart + 1 else 0) ∧
    (∀ (now : Int) (h : Game K), (Game.initRound env now h).ticksFromModeStart = 0 ∧
      (Game.initRound env now h).mode = GameMode.Title) ∧
    (g.mode = GameMode.GameOver ∨ g.mode = GameMode.Ranking →
      (Game.Update env inp g).mode = GameMode.Title →
      (Game.Update env inp g).ticksFromModeStart = 0) ∧
    (∀ (h : Game K) (mode : GameMode), (Game.setNextMode h mode).ticksFromModeStart = 0) := by
  obtain ⟨G, _, g1, g2, _, _, _, _, _, _, hU⟩ := update_eq env inp g
  have main : (Game.Update env inp g).ticksFromModeStart
      = (if (Game.Update env inp g).mode = g.mode then g.ticksFromModeStart + 1 else 0) := by
    cases hm : g.mode with
    | Title =>
      rw [hm] at hU g1
      simp only at hU
      rw [hU]
      by_cases hj : inp.justTouched = true
      · rw [if_pos hj]
        simp [Game.setNextMode]
      · rw [if_neg hj, if_pos g1, g2]
    | Playing =>
      obtain ⟨_, u2, u3⟩ := update_playing_timer env inp g hm
      by_cases hf : (Game.Update env inp g).timeInTicks ≥ finishTimeInTicks
      · obtain ⟨q1, q2⟩ := u2 hf
        rw [q1, q2]
        simp
      · obtain ⟨q1, q2⟩ := u3 hf
        rw [q1, q2]
        simp
    | GameOver =>
      rw [hm] at hU g1
      simp only at hU
      rw [hU]
      rcases gameOverTick_cases env inp G with ⟨_, h⟩ | ⟨_, _, h⟩ | ⟨_, _, h⟩
      · rw [h, if_pos g1, g2]
      · rw [h]; simp [Game.setNextMode]
      · rw [h]; simp [Game.initRound, Game.setNextMode]
    | Ranking =>
      rw [hm] at hU g1
      simp only at hU
      rw [hU]
      rcases rankingTick_cases env inp G with ⟨_, h⟩ | ⟨_, h⟩
      · rw [h]; simp [Game.initRound, Game.setNextMode]
      · rw [h, if_pos g1, g2]
  refine ⟨main, fun _ _ => ⟨rfl, rfl⟩, ?_, fun _ _ => rfl⟩
  intro hm ht
  rw [main, ht]
  rcases hm with hm | hm <;> rw [hm] <;> simp

/-- Witness of C14: a press in the GameOver mode with no ranking restarts the
round and resets the counter. -/
theorem mode_tick_counter_witness :
    (Game.Update sampleEnv pressInput sampleOver).ticksFromModeStart
      = (if (Game.Update sampleEnv pressInput sampleOver).mode = sampleOver.mode
         then sampleOver.ticksFromModeStart + 1 else 0) :=
  (mode_tick_counter sampleEnv pressInput sampleOver).1

/-! ## Leaving the GameOver mode -/

/-- The ranking list after the receive is the available list. -/
theorem pollRanking_ranking (inp : Input) (G : Game K) :
    (pollRanking inp G).ranking = availableRanking inp G := by
  unfold pollRanking availableRanking
  cases (if G.rankingChan then inp.rankingRecv else none) <;> rfl

/-- Outside the Ranking mode the stored ranking list is empty in every state
reached from `initialize`. -/
theorem rankingClear_update (env : Env K) (inp : Input) (g : Game K) (h : RankingClear g) :
    RankingClear (Game.Update env inp g) := by
  obtain ⟨G, _, g1, _, _, g4, _, _, _, _, hU⟩ := update_eq env inp g
  intro hne
  cases hm : g.mode with
  | Title =>
    have hr : g.ranking = [] := h (by rw [hm]; simp)
    rw [hm] at hU
    simp only at hU
    rw [hU]
    split_ifs
    · show G.ranking = []
      rw [g4, hr]
    · rw [g4, hr]
  | Playing =>
    have hr : g.ranking = [] := h (by rw [hm]; simp)
    rw [hm] at hU
    simp only at hU
    rw [hU, (playingTick_timer env inp G).2.2.2, g4, hr]
  | GameOver =>
    have hr : g.ranking = [] := h (by rw [hm]; simp)
    rw [hm] at hU
    simp only at hU
    rw [hU] at hne ⊢
    rcases gameOverTick_cases env inp G with ⟨_, e⟩ | ⟨_, _, e⟩ | ⟨_, _, e⟩
    · rw [e, g4, hr]
    · rw [e] at hne
      exact absurd rfl hne
    · rw [e]; rfl
  | Ranking =>
    rw [hm] at hU g1
    simp only at hU
    rw [hU] at hne ⊢
    rcases rankingTick_cases env inp G with ⟨_, e⟩ | ⟨_, e⟩
    · rw [e]; rfl
    · rw [e] at hne
      exact absurd g1 hne

/-- The ranking invariant holds in every state reached from `initialize`. -/
theorem rankingClear_run (env : Env K) (now : Int) (g0 : Game K) (inps : List Input) :
    RankingClear (Game.run env inps (Game.initRound env now g0)) := by
  have h0 : RankingClear (Game.initRound env now g0) := fun _ => rfl
  generalize Game.initRound env now g0 = g at h0
  induction inps generalizing g with
  | nil => exact h0
  | cons inp inps ih => exact ih (Game.Update env inp g) (rankingClear_update env inp g h0)

/-- C13: a tick that starts in the GameOver mode changes the mode only if the
mode tick counter after its increment exceeds 60 and a press just started; in
that case the mode becomes Ranking if the available ranking list (the one the
non-blocking receive delivers, else the stored one) is non-empty, and otherwise
the round is re-initialized and the mode becomes Title.  With nothing stored
(as in every state reached from `initialize`), a pending fetch (nothing
delivered), a failed fetch (channel closed, the receive yields the empty list)
or an empty list takes the restart branch. -/
theorem gameOver_transition (env : Env K) (inp : Input) (g : Game K)
    (hm : g.mode = GameMode.GameOver) :
    ((Game.Update env inp g).mode ≠ GameMode.GameOver →
      g.ticksFromModeStart + 1 > 60 ∧ inp.justTouched = true) ∧
    (g.ticksFromModeStart + 1 > 60 → inp.justTouched = true →
      (availableRanking inp g ≠ [] →
        (Game.Update env inp g).mode = GameMode.Ranking ∧
        (Game.Update env inp g).ranking = availableRanking inp g) ∧
      (availableRanking inp g = [] →
        (Game.Update env inp g).mode = GameMode.Title ∧
        ∃ h : Game K, Game.Update env inp g = Game.initRound env inp.now h)) ∧
    (g.ranking = [] →
      (g.rankingChan = false ∨ inp.rankingRecv = none ∨ inp.rankingRecv = some []) →
      availableRanking inp g = []) ∧
    (∀ (now : Int) (g0 : Game K) (inps : List Input),
      (Game.run env inps (Game.initRound env now g0)).mode = GameMode.GameOver →
      (Game.run env inps (Game.initRound env now g0)).ranking = []) := by
  obtain ⟨G, hG, g1, g2, _, g4, g5, _, _, _, hU⟩ := update_eq env inp g
  rw [hm] at hU g1
  simp only at hU
  have hav : availableRanking inp G = availableRanking inp g := by
    simp only [availableRanking, g4, g5]
  refine ⟨?_, ?_, ?_, ?_⟩
  · intro hne
    rw [hU] at hne
    rcases gameOverTick_cases env inp G with ⟨_, e⟩ | ⟨c, _, _⟩ | ⟨c, _, _⟩
    · rw [e] at hne
      exact absurd g1 hne
    · rw [g2] at c; exact c
    · rw [g2] at c; exact c
  · intro hk hj
    have hc : G.ticksFromModeStart > 60 ∧ inp.justTouched = true := by
      rw [g2]; exact ⟨hk, hj⟩
    rw [hU]
    rcases gameOverTick_cases env inp G with ⟨c, _⟩ | ⟨_, c2, e⟩ | ⟨_, c2, e⟩
    · exact absurd hc c
    · rw [pollRanking_ranking, hav] at c2
      refine ⟨fun _ => ?_, fun h0 => ?_⟩
      · rw [e]
        exact ⟨rfl, by
          show (pollRanking inp G).ranking = _
          rw [pollRanking_ranking, hav]⟩
      · rw [h0] at c2
        simp at c2
    · rw [pollRanking_ranking, hav] at c2
      refine ⟨fun hne => ?_, fun _ => ?_⟩
      · exact absurd (List.length_pos.mpr hne) c2
      · rw [e]
        exact ⟨rfl, _, rfl⟩
  · intro hr hcase
    unfold availableRanking
    rcases hcase with h | h | h
    · simp [h, hr]
    · cases hch : g.rankingChan <;> simp [h, hr]
    · cases hch : g.rankingChan <;> simp [h, hr]
  · intro now g0 inps hmode
    exact rankingClear_run env now g0 inps (by rw [hmode]; simp)

/-- Witness of C13: a press in the GameOver mode, 101 ticks in, with the fetch
still pending, restarts the round. -/
theorem gameOver_transition_witness :
    (Game.Update sampleEnv pressInput sampleOver).mode = GameMode.Title :=
  (((gameOver_transition sampleEnv pressInput sampleOver rfl).2.1 (by decide) rfl).2
    ((gameOver_transition sampleEnv pressInput sampleOver rfl).2.2.1 rfl
      (Or.inr (Or.inl rfl)))).1

/-! ## A round without a press -/

/-- A Playing tick on which no press starts, with the fish not aiming and no
bullet in flight: nothing is fired, no bullet exists after the tick and the
score is unchanged. -/
theorem playingTick_idle (env : Env K) (inp : Input) (G : Game K)
    (hj : inp.justTouched = false) (hh : G.hold = false) (hb : G.bullets = []) :
    (playingTick env inp G).hold = false ∧ (playingTick env inp G).bullets = [] ∧
    (playingTick env inp G).score = G.score := by
  have e1 : aimStart inp (stepTimer G) = stepTimer G := by
    simp [aimStart, hj]
  have e2 : release env inp (stepTimer G) = stepTimer G := by
    simp [release, (stepTimer_frame2 G).2.2.1, hh]
  have hB : (beforeCollision env inp G).bullets = [] := by
    simp only [beforeCollision, updateGainEffects, updateEnemies, updateSplashEffects,
      updateBullets, e1, e2, (enemyEnter_frame _).2.1, (stepTimer_frame _).2.1, hb,
      updateBulletsLoop]
  have hH : (beforeCollision env inp G).hold = false := by
    simp only [beforeCollision, updateGainEffects, updateEnemies, updateSplashEffects,
      updateBullets, e1, e2, (enemyEnter_frame2 _).2.2.2.1, (stepTimer_frame2 _).2.2.1, hh]
  have hC : (collision (beforeCollision env inp G)).bullets = [] ∧
      (collision (beforeCollision env inp G)).score = G.score ∧
      (collision (beforeCollision env inp G)).hold = false := by
    refine ⟨?_, ?_, hH⟩
    · simp only [collision, hB, collideLoop, List.foldl_nil]
    · simp only [collision, hB, collideLoop, List.foldl_nil, beforeCollision_score]
  obtain ⟨c1, c2, c3⟩ := hC
  simp only [playingTick]
  generalize collision (beforeCollision env inp G) = c at c1 c2 c3
  unfold finishRound
  split_ifs
  · exact ⟨c3, c1, c2⟩
  · exact ⟨c3, c1, c2⟩

/-- A tick of the Playing mode on which no press starts keeps the game quiet. -/
theorem quiet_step (env : Env K) (inp : Input) (g : Game K)
    (hm : g.mode = GameMode.Playing) (hj : inp.justTouched = false) (hq : Quiet g) :
    Quiet (Game.Update env inp g) := by
  obtain ⟨hh, hb, hs⟩ := hq
  obtain ⟨G, _, _, _, _, _, _, g6, g7, g8, hU⟩ := update_eq env inp g
  rw [hm] at hU
  simp only at hU
  rw [hU]
  obtain ⟨p1, p2, p3⟩ := playingTick_idle env inp G hj (g7.trans hh) (g8.trans hb)
  exact ⟨p1, p2, by rw [p3, g6, hs]⟩

/-- The game stays quiet along the Playing ticks of a round on which no press
starts. -/
theorem quiet_run (env : Env K) (inps : List Input) (g : Game K) (a : Nat)
    (h : PlayingAt g a) (hq : Quiet g) (hl : a + inps.length ≤ 3780)
    (hno : ∀ inp ∈ inps, inp.justTouched = false) :
    Quiet (Game.run env inps g) := by
  induction inps generalizing g a with
  | nil => exact hq
  | cons inp inps ih =>
    simp only [List.length_cons] at hl
    have hj := hno inp (List.mem_cons_self _ _)
    have hq1 := quiet_step env inp g h.1 hj hq
    have hno1 : ∀ i ∈ inps, i.justTouched = false :=
      fun i hi => hno i (List.mem_cons_of_mem _ hi)
    by_cases hc : a + 1 < 3780
    · exact ih (Game.Update env inp g) (a + 1) ((playingAt_step env inp g a h).1 hc) hq1
        (by omega) hno1
    · have hnil : inps = [] := List.eq_nil_of_length_eq_zero (by omega)
      rw [hnil]
      exact hq1

/-- C12: if no press starts during the Playing phase of a round, then (for every
generator and every other input) no bullet is ever created (no bullet exists
after any of the ticks), the score is still `0` on the tick on which the mode
becomes GameOver, and the round does reach GameOver, on its 3780th Playing
tick.  The state right after the press that leaves the Title mode of a freshly
initialized round is such a start. -/
theorem idle_round_scores_zero (env : Env K) (g : Game K) (hs : RoundStart g) :
    (∀ inps : List Input, inps.length ≤ 3780 → (∀ inp ∈ inps, inp.justTouched = false) →
      (Game.run env inps g).bullets = [] ∧ (Game.run env inps g).score = 0 ∧
      (Game.run env inps g).hold = false) ∧
    (∀ inps : List Input, inps.length = 3780 → (∀ inp ∈ inps, inp.justTouched = false) →
      (Game.run env inps g).mode = GameMode.GameOver ∧ (Game.run env inps g).score = 0) ∧
    (∀ inps : List Input, inps.length < 3780 →
      (Game.run env inps g).mode = GameMode.Playing) ∧
    (∀ (now : Int) (g0 : Game K) (inp : Input), inp.justTouched = true →
      RoundStart (Game.Update env inp (Game.initRound env now g0))) := by
  obtain ⟨hp, hq⟩ := hs
  have hq0 : Quiet g := hq
  have hquiet : ∀ inps : List Input, inps.length ≤ 3780 →
      (∀ inp ∈ inps, inp.justTouched = false) → Quiet (Game.run env inps g) :=
    fun inps hl hno => quiet_run env inps g 0 hp hq0 (by omega) hno
  obtain ⟨_, r2, _, r4, _⟩ := playing_timer_facts env g hp
  refine ⟨?_, ?_, ?_, ?_⟩
  · intro inps hl hno
    obtain ⟨q1, q2, q3⟩ := hquiet inps hl hno
    exact ⟨q2, q3, q1⟩
  · intro inps hl hno
    exact ⟨(r4 inps hl).1, (hquiet inps (by omega) hno).2.2⟩
  · intro inps hl
    exact (r2 inps hl).2.2
  · intro now g0 inp hj
    exact (titleFresh_step env inp _ (initRound_titleFresh env now g0)).1 hj

/-- Witness of C12: 3780 idle ticks from the start of the Playing mode. -/
theorem idle_round_scores_zero_witness :
    (Game.run sampleEnv (List.replicate 3780 idleInput) sampleStart).mode = GameMode.GameOver ∧
    (Game.run sampleEnv (List.replicate 3780 idleInput) sampleStart).score = 0 :=
  (idle_round_scores_zero sampleEnv sampleStart ⟨⟨rfl, rfl, rfl⟩, rfl, rfl, rfl⟩).2.1
    (List.replicate 3780 idleInput) (List.length_replicate _ _)
    (fun inp h => by rw [List.eq_of_mem_replicate h]; rfl)

/-! ## The seed of a round -/

/-- The leaf layout of one lane advances the generator without changing its
streams. -/
theorem layoutLane_stream (baseY : K) (fuel : Nat) (x : K) (rng : Rand K)
    (acc : List (Leaf K)) :
    (layoutLane baseY fuel x rng acc).2.intAt = rng.intAt ∧
    (layoutLane baseY fuel x rng acc).2.floatAt = rng.floatAt ∧
    (layoutLane baseY fuel x rng acc).2.normAt = rng.normAt := by
  induction fuel generalizing x rng acc with
  | zero => exact ⟨rfl, rfl, rfl⟩
  | succ fuel ih =>
    simp only [layoutLane]
    split_ifs
    · exact ih _ _ _
    · exact ih _ _ _
    · exact ⟨rfl, rfl, rfl⟩

/-- The leaf layout advances the generator without changing its streams. -/
theorem layoutLeaves_stream (env : Env K) (rng : Rand K) :
    (layoutLeaves env rng).2.intAt = rng.intAt := by
  simp only [layoutLeaves, (layoutLane_stream _ _ _ _ _).1]

/-- The generator of a round is the one created from `roundSeed`, advanced by
the leaf layout. -/
theorem initRound_random (env : Env K) (now : Int) (g : Game K) :
    (Game.initRound env now g).random
      = (layoutLeaves env (env.newRand (roundSeed now g))).2 := rfl

/-- C15 as stated fails: with the fixed seed `0` and the wall clock at `5`,
`initialize` creates the generator from `5`, which differs from the generator
created from the fixed seed. -/
theorem seed_zero_uses_clock :
    zeroSeedGame.fixedRandomSeed = 0 ∧
    (Game.initRound seedEnv 5 zeroSeedGame).random
      = (layoutLeaves seedEnv (seedEnv.newRand 5)).2 ∧
    (Game.initRound seedEnv 5 zeroSeedGame).random
      ≠ (layoutLeaves seedEnv (seedEnv.newRand zeroSeedGame.fixedRandomSeed)).2 := by
  refine ⟨rfl, rfl, ?_⟩
  intro h
  have h1 := congrArg (fun r => r.intAt 0) h
  simp only [initRound_random, layoutLeaves_stream] at h1
  revert h1
  decide

/-- C15 (amended): for every fixed seed `s` other than `0`, `initialize` creates
the round generator from `s`, whatever the wall clock; with the fixed seed `0`
(which stands for no configured seed) it creates it from the wall clock. -/
theorem fixed_seed_honored (env : Env K) (g : Game K) (s : Int)
    (hs : g.fixedRandomSeed = s) (h0 : s ≠ 0) :
    (∀ now : Int, roundSeed now g = s) ∧
    (∀ now : Int,
      (Game.initRound env now g).random = (layoutLeaves env (env.newRand s)).2) ∧
    (∀ (h : Game K) (now : Int), h.fixedRandomSeed = 0 →
      (Game.initRound env now h).random = (layoutLeaves env (env.newRand now)).2) := by
  have hr : ∀ now : Int, roundSeed now g = s := by
    intro now
    unfold roundSeed
    rw [hs, if_pos h0]
  refine ⟨hr, ?_, ?_⟩
  · intro now
    rw [initRound_random, hr]
  · intro h now hz
    rw [initRound_random]
    unfold roundSeed
    rw [hz]
    simp

/-- Witness of C15 (amended): the sample game has the fixed seed `7`. -/
theorem fixed_seed_honored_witness :
    sampleGame.fixedRandomSeed = 7 ∧
    (Game.initRound seedEnv 5 sampleGame).random
      = (layoutLeaves seedEnv (seedEnv.newRand 7)).2 :=
  ⟨rfl, (fixed_seed_honored seedEnv sampleGame 7 rfl (by decide)).2.1 5⟩

/-! ## The enemy prune step -/

/-- The off-screen test `x > -50 || x < screenWidth+50` of the enemy prune step
holds for every `x`. -/
theorem prune_test_always_true (x : K) : x > -50 ∨ x < screenWidth + 50 := by
  by_cases h : x > -50
  · exact Or.inl h
  · refine Or.inr ?_
    have h1 : x ≤ -50 := not_lt.mp h
    have h2 : (-50 : K) < screenWidth + 50 := by
      simp only [screenWidth]; norm_num
    exact lt_of_le_of_lt h1 h2

/-- C16 fails on the code: after a Playing tick of `offscreenGame` the enemy is
retained although its projected screen x is `820.5`, beyond
`screenWidth + 50 = 690`. -/
theorem offscreen_enemy_retained :
    (Game.Update sampleEnv idleInput offscreenGame).enemies = [offscreenEnemyAfter] ∧
    (toScreenPosition offscreenEnemyAfter.x offscreenEnemyAfter.y offscreenEnemyAfter.z).1
      = 1641 / 2 ∧
    (toScreenPosition offscreenEnemyAfter.x offscreenEnemyAfter.y offscreenEnemyAfter.z).1
      ≥ screenWidth + 50 := by
  refine ⟨?_, ?_, ?_⟩
  · simp [Game.Update, logTouches, idleInput, playingTick, finishRound, collision, collideLoop,
      beforeCollision, updateGainEffects, updateSplashEffects, updateBullets, updateBulletsLoop,
      enemyEnter, release, aimStart, stepTimer, finishTimeInTicks, Game.setNextMode,
      updateEnemies, updateEnemiesLoop, offscreenGame, sampleGame, Enemy.Update, Enemy.behave,
      toScreenPosition, screenWidth, cameraF, offscreenEnemyAfter]
    norm_num
  · simp only [toScreenPosition, offscreenEnemyAfter, screenWidth, cameraF]
    norm_num
  · simp only [toScreenPosition, offscreenEnemyAfter, screenWidth, cameraF]
    norm_num

/-! ## The sight -/

/-- The fields of a new bullet that do not depend on the touch point. -/
theorem newBullet_fields (env : Env K) (touchX touchY : K) :
    (newBulletByTouchPosition env touchX touchY).x = 0 ∧
    (newBulletByTouchPosition env touchX touchY).y = 0 ∧
    (newBulletByTouchPosition env touchX touchY).z = 50 ∧
    (newBulletByTouchPosition env touchX touchY).vz = 3 :=
  ⟨rfl, rfl, rfl, rfl⟩

/-- Over the real numbers the vertical velocity of the bullet fired from a hold
position lies in `[-40, 0]`. -/
theorem hold_bullet_vy_range (fishImageHeight : Int) (newRand : Int → Rand ℝ)
    (leafFuel : Nat) (inp : Input) :
    -40 ≤ (newBulletByTouchPosition (realEnv fishImageHeight newRand leafFuel)
        (getHoldPosition inp : ℝ × ℝ).1 (getHoldPosition inp : ℝ × ℝ).2).vy ∧
    (newBulletByTouchPosition (realEnv fishImageHeight newRand leafFuel)
        (getHoldPosition inp : ℝ × ℝ).1 (getHoldPosition inp : ℝ × ℝ).2).vy ≤ 0 := by
  rw [(newBullet_real_velocity fishImageHeight newRand leafFuel _ _).2]
  obtain ⟨_, _, h3, h4⟩ := clampHoldPosition_range (inp.X : ℝ) (inp.Y : ℝ)
  rw [getHoldPosition]
  constructor <;> linarith

/-- The sight point over the real numbers, in terms of the velocity `(vx, vy)`
of the bullet fired from the hold position. -/
theorem sightPoint_real (fishImageHeight : Int) (newRand : Int → Rand ℝ)
    (leafFuel : Nat) (inp : Input) (vx vy : ℝ)
    (hvx : (newBulletByTouchPosition (realEnv fishImageHeight newRand leafFuel)
        (getHoldPosition inp : ℝ × ℝ).1 (getHoldPosition inp : ℝ × ℝ).2).vx = vx)
    (hvy : (newBulletByTouchPosition (realEnv fishImageHeight newRand leafFuel)
        (getHoldPosition inp : ℝ × ℝ).1 (getHoldPosition inp : ℝ × ℝ).2).vy = vy) :
    sightPoint (realEnv fishImageHeight newRand leafFuel) inp
      = (if vy * 50 + 625 > 0 then (vx * (-4 * vy), 0, 50 + 3 * (-4 * vy))
         else (vx * 50, vy * 50 + 625, 200)) := by
  have hle : vy ≤ 0 := by
    rw [← hvy]; exact (hold_bullet_vy_range fishImageHeight newRand leafFuel inp).2
  have h1 : sightPoint (realEnv fishImageHeight newRand leafFuel) inp
      = (if 0 + vy * ((200 - 50) / 3) + 1 / 2 / 2 * ((200 - 50) / 3) * ((200 - 50) / 3) > 0 then
          (0 + vx * ((-vy + Real.sqrt (vy ^ 2 - 4 * (1 / 2) / 2 * 0)) / (1 / 2)), 0,
            50 + 3 * ((-vy + Real.sqrt (vy ^ 2 - 4 * (1 / 2) / 2 * 0)) / (1 / 2)))
         else (0 + vx * ((200 - 50) / 3),
            0 + vy * ((200 - 50) / 3) + 1 / 2 / 2 * ((200 - 50) / 3) * ((200 - 50) / 3), 200)) := by
    simp only [sightPoint, hvx, hvy, (newBullet_fields _ _ _).1, (newBullet_fields _ _ _).2.1,
      (newBullet_fields _ _ _).2.2.1, (newBullet_fields _ _ _).2.2.2, enemyZ, gravity]
    rfl
  have hs : Real.sqrt (vy ^ 2 - 4 * (1 / 2) / 2 * 0) = -vy := by
    rw [show vy ^ 2 - 4 * (1 / 2) / 2 * 0 = vy ^ 2 by ring, Real.sqrt_sq_eq_abs,
      abs_of_nonpos hle]
  rw [h1, hs]
  have hc : (0 + vy * ((200 - 50) / 3) + 1 / 2 / 2 * ((200 - 50) / 3) * ((200 - 50) / 3) > 0)
      ↔ (vy * 50 + 625 > 0) := by
    constructor <;> intro h <;> linarith
  by_cases c : vy * 50 + 625 > 0
  · rw [if_pos (hc.mpr c), if_pos c]
    refine Prod.ext ?_ (Prod.ext rfl ?_)
    · show 0 + vx * ((-vy + -vy) / (1 / 2)) = vx * (-4 * vy)
      ring
    · show 50 + 3 * ((-vy + -vy) / (1 / 2)) = 50 + 3 * (-4 * vy)
      ring
  · rw [if_neg (fun h => c (hc.mp h)), if_neg c]
    refine Prod.ext ?_ (Prod.ext ?_ rfl)
    · show 0 + vx * ((200 - 50) / 3) = vx * 50
      ring
    · show 0 + vy * ((200 - 50) / 3) + 1 / 2 / 2 * ((200 - 50) / 3) * ((200 - 50) / 3)
        = vy * 50 + 625
      ring

/-- C20: for every hold position, with `b` the bullet `newBulletByTouchPosition`
creates for it and `t0 = (200 - 50)/3 = 50`: if `b.vy*t0 + (g/2)*t0^2 ≤ 0` the
sight point is `(b.vx*t0, b.vy*t0 + (g/2)*t0^2, 200)`; otherwise it is
`(b.vx*t, 0, 50 + 3t)` with `t = (-b.vy + sqrt(b.vy^2 - 2*g*b.y))/g`, whose
discriminant is non-negative, which satisfies `b.y + b.vy*t + (g/2)*t^2 = 0`,
is non-negative, is the greatest root, and is less than `t0`. -/
theorem sight_point_branches (fishImageHeight : Int) (newRand : Int → Rand ℝ)
    (leafFuel : Nat) (inp : Input) (b : Bullet ℝ) (t : ℝ)
    (hb : b = newBulletByTouchPosition (realEnv fishImageHeight newRand leafFuel)
      (getHoldPosition inp : ℝ × ℝ).1 (getHoldPosition inp : ℝ × ℝ).2)
    (ht : t = (-b.vy + Real.sqrt (b.vy ^ 2 - 2 * gravity * b.y)) / gravity) :
    (enemyZ - b.z) / b.vz = 50 ∧
    (b.vy * 50 + gravity / 2 * 50 ^ 2 ≤ 0 →
      sightPoint (realEnv fishImageHeight newRand leafFuel) inp
        = (b.vx * 50, b.vy * 50 + gravity / 2 * 50 ^ 2, 200)) ∧
    (¬ (b.vy * 50 + gravity / 2 * 50 ^ 2 ≤ 0) →
      sightPoint (realEnv fishImageHeight newRand leafFuel) inp = (b.vx * t, 0, 50 + 3 * t) ∧
      0 ≤ b.vy ^ 2 - 2 * gravity * b.y ∧
      b.y + b.vy * t + gravity / 2 * t ^ 2 = 0 ∧
      0 ≤ t ∧ t < 50 ∧
      ∀ t1 : ℝ, b.y + b.vy * t1 + gravity / 2 * t1 ^ 2 = 0 → t1 ≤ t) := by
  have hy : b.y = 0 := by rw [hb]; rfl
  have hz : b.z = 50 := by rw [hb]; rfl
  have hvz : b.vz = 3 := by rw [hb]; rfl
  have hle : b.vy ≤ 0 := by
    rw [hb]; exact (hold_bullet_vy_range fishImageHeight newRand leafFuel inp).2
  have hsp := sightPoint_real fishImageHeight newRand leafFuel inp b.vx b.vy
    (by rw [hb]) (by rw [hb])
  have hg : (gravity : ℝ) = 1 / 2 := rfl
  have hsq : Real.sqrt (b.vy ^ 2 - 2 * gravity * b.y) = -b.vy := by
    rw [hy, show b.vy ^ 2 - 2 * gravity * 0 = b.vy ^ 2 by ring, Real.sqrt_sq_eq_abs,
      abs_of_nonpos hle]
  have htv : t = -4 * b.vy := by
    rw [ht, hsq, hg]; ring
  have hyt : b.vy * 50 + gravity / 2 * 50 ^ 2 = b.vy * 50 + 625 := by
    rw [hg]; ring
  refine ⟨?_, ?_, ?_⟩
  · rw [hz, hvz]
    simp only [enemyZ]
    norm_num
  · intro h
    rw [hyt] at h ⊢
    rw [hsp, if_neg (not_lt.mpr h)]
  · intro h
    rw [hyt] at h
    have hpos : b.vy * 50 + 625 > 0 := not_le.mp h
    refine ⟨?_, ?_, ?_, ?_, ?_, ?_⟩
    · rw [hsp, if_pos hpos, htv]
    · rw [hy]
      have := sq_nonneg b.vy
      linarith
    · rw [hy, htv, hg]; ring
    · rw [htv]; linarith
    · rw [htv]; linarith
    · intro t1 h1
      rw [hy, hg] at h1
      rw [htv]
      have hfac : t1 * (t1 + 4 * b.vy) = 0 := by linarith
      rcases mul_eq_zero.mp hfac with h0 | h0
      · rw [h0]; linarith
      · linarith

/-- Witness of C20 at the drag to `(320, 400)`. -/
theorem sight_point_branches_witness :
    (enemyZ - (newBulletByTouchPosition (realEnv 50 (fun _ => zeroRandReal) 64)
      (getHoldPosition dragInput : ℝ × ℝ).1 (getHoldPosition dragInput : ℝ × ℝ).2).z)
      / (newBulletByTouchPosition (realEnv 50 (fun _ => zeroRandReal) 64)
      (getHoldPosition dragInput : ℝ × ℝ).1 (getHoldPosition dragInput : ℝ × ℝ).2).vz = 50 :=
  (sight_point_branches 50 (fun _ => zeroRandReal) 64 dragInput _ _ rfl rfl).1

/-! ## Depths and divisors -/

/-- The splash effects of a burst are at the depth given to the burst. -/
theorem splashBurst_z (env : Env K) (x y z ax ay : K) (n : Nat) (rng : Rand K) :
    ∀ s ∈ (splashBurst env x y z ax ay n rng).1, s.z = z := by
  induction n generalizing rng with
  | zero => intro s hs; cases hs
  | succ n ih =>
    intro s hs
    simp only [splashBurst] at hs
    rcases List.mem_cons.mp hs with h | h
    · rw [h]
    · exact ih _ s h

/-- The depth of an enemy is not changed by `Enemy.Update`. -/
theorem enemy_update_z (e : Enemy K) (rng : Rand K) : (e.Update rng).1.z = e.z := by
  have hb : ∀ (a : Enemy K) (r : Rand K), (Enemy.behave a r).1.z = a.z := by
    intro a r
    unfold Enemy.behave
    split
    · rfl
    · dsimp only
      split_ifs <;> rfl
    · split_ifs <;> rfl
  unfold Enemy.Update
  dsimp only
  split_ifs with h1 h2 h3
  · rfl
  · simp only [hb]
  · rfl
  · simp only [hb]

/-- The loop of the block `// Bullets` keeps the depth bounds. -/
theorem updateBulletsLoop_depth (env : Env K) (bs : List (Bullet K))
    (acc : List (Bullet K) × List (SplashEffect K) × Rand K)
    (hbs : ∀ b ∈ bs, b.vz = 3 ∧ 50 ≤ b.z)
    (h1 : ∀ b ∈ acc.1, b.vz = 3 ∧ 50 ≤ b.z) (h2 : ∀ s ∈ acc.2.1, 50 ≤ s.z) :
    (∀ b ∈ (updateBulletsLoop env bs acc).1, b.vz = 3 ∧ 50 ≤ b.z) ∧
    (∀ s ∈ (updateBulletsLoop env bs acc).2.1, 50 ≤ s.z) := by
  induction bs generalizing acc with
  | nil => exact ⟨h1, h2⟩
  | cons b bs ih =>
    obtain ⟨nb, sp, rng⟩ := acc
    obtain ⟨b3, b50⟩ := hbs b (List.mem_cons_self _ _)
    have hrest : ∀ c ∈ bs, c.vz = 3 ∧ 50 ≤ c.z :=
      fun c hc => hbs c (List.mem_cons_of_mem _ hc)
    have hvz : b.Update.vz = 3 := b3
    have hzu : b.Update.z = b.z + b.vz := rfl
    have hz : 50 ≤ b.Update.z := by
      rw [hzu, b3]; linarith
    by_cases c : b.Update.y > 0
    · have e : updateBulletsLoop env (b :: bs) (nb, sp, rng)
          = updateBulletsLoop env bs
              (nb, sp ++ (splashBurst env b.Update.x 0 b.Update.z 10 10 5 rng).1,
                (splashBurst env b.Update.x 0 b.Update.z 10 10 5 rng).2) := by
        simp only [updateBulletsLoop, if_pos c]
      rw [e]
      refine ih (nb, sp ++ (splashBurst env b.Update.x 0 b.Update.z 10 10 5 rng).1,
        (splashBurst env b.Update.x 0 b.Update.z 10 10 5 rng).2) hrest h1 ?_
      intro s hs
      rcases List.mem_append.mp hs with h | h
      · exact h2 s h
      · rw [splashBurst_z env _ _ _ _ _ _ _ s h]
        exact hz
    · have e : updateBulletsLoop env (b :: bs) (nb, sp, rng)
          = updateBulletsLoop env bs (nb ++ [b.Update], sp, rng) := by
        simp only [updateBulletsLoop, if_neg c]
      rw [e]
      refine ih (nb ++ [b.Update], sp, rng) hrest ?_ h2
      intro d hd
      rcases List.mem_append.mp hd with h | h
      · exact h1 d h
      · rw [List.mem_singleton.mp h]
        exact ⟨hvz, hz⟩

/-- The loop of the block `// Enemies` keeps the depth bounds. -/
theorem updateEnemiesLoop_depth (env : Env K) (es : List (Enemy K))
    (acc : List (Enemy K) × List (SplashEffect K) × Rand K)
    (hes : ∀ e ∈ es, e.z = 200)
    (h1 : ∀ e ∈ acc.1, e.z = 200) (h2 : ∀ s ∈ acc.2.1, 50 ≤ s.z) :
    (∀ e ∈ (updateEnemiesLoop env es acc).1, e.z = 200) ∧
    (∀ s ∈ (updateEnemiesLoop env es acc).2.1, 50 ≤ s.z) := by
  induction es generalizing acc with
  | nil => exact ⟨h1, h2⟩
  | cons e es ih =>
    obtain ⟨ne, sp, rng⟩ := acc
    have hz : (e.Update rng).1.z = 200 := by
      rw [enemy_update_z]; exact hes e (List.mem_cons_self _ _)
    have hrest : ∀ c ∈ es, c.z = 200 := fun c hc => hes c (List.mem_cons_of_mem _ hc)
    have hkeep : ∀ c ∈ ne ++ [(e.Update rng).1], c.z = 200 := by
      intro c hc
      rcases List.mem_append.mp hc with h | h
      · exact h1 c h
      · rw [List.mem_singleton.mp h]; exact hz
    have hsplash : ∀ s ∈ sp ++
        (splashBurst env (e.Update rng).1.x 0 (e.Update rng).1.z 15 15 5 (e.Update rng).2).1,
        50 ≤ s.z := by
      intro s hs
      rcases List.mem_append.mp hs with h | h
      · exact h2 s h
      · rw [splashBurst_z env _ _ _ _ _ _ _ s h, hz]
        norm_num
    simp only [updateEnemiesLoop]
    split_ifs
    · exact ih _ hrest h1 hsplash
    · exact ih _ hrest hkeep h2
    · exact ih _ hrest h1 h2

/-- Marking keeps the depth of the enemies. -/
theorem marked_depth {es es1 : List (Enemy K)} (h : List.Forall₂ Marked es es1)
    (hz : ∀ e ∈ es, e.z = 200) : ∀ e ∈ es1, e.z = 200 := by
  induction h with
  | nil => intro e he; cases he
  | @cons a a1 l l1 hm _ ih =>
    intro e he
    rcases List.mem_cons.mp he with h1 | h1
    · have ha := hz a (List.mem_cons_self _ _)
      rcases hm with h2 | ⟨_, h2⟩
      · rw [h1, h2]; exact ha
      · rw [h1, h2]; exact ha
    · exact ih (fun c hc => hz c (List.mem_cons_of_mem _ hc)) e h1

theorem depthOk_stepTimer (g : Game K) (h : DepthOk g) : DepthOk (stepTimer g) := by
  unfold stepTimer
  split_ifs
  · exact h
  · exact h

theorem depthOk_aimStart (inp : Input) (g : Game K) (h : DepthOk g) :
    DepthOk (aimStart inp g) := by
  simp only [aimStart]
  split_ifs
  · exact h
  · exact h
  · exact h

theorem depthOk_release (env : Env K) (inp : Input) (g : Game K) (h : DepthOk g) :
    DepthOk (release env inp g) := by
  obtain ⟨h1, h2, h3, h4⟩ := h
  simp only [release]
  split_ifs
  · refine ⟨h1, ?_, h3, ?_⟩
    · intro b hb
      rcases List.mem_append.mp hb with hb1 | hb1
      · exact h2 b hb1
      · rw [List.mem_singleton.mp hb1]
        refine ⟨rfl, ?_⟩
        show (50 : K) ≤ fishPosZInCamera
        simp only [fishPosZInCamera, cameraF]
        exact le_refl _
    · intro s hs
      rcases List.mem_append.mp hs with hs1 | hs1
      · exact h4 s hs1
      · rw [splashBurst_z env _ _ _ _ _ _ _ s hs1, h1]
  · exact ⟨h1, h2, h3, h4⟩

theorem depthOk_enterOne (kind : EnemyKind) (p v : K) (g : Game K) (h : DepthOk g) :
    DepthOk (enterOne kind p v g) := by
  obtain ⟨h1, h2, h3, h4⟩ := h
  by_cases c : g.random.Float64.1 < p
  · have e : ∃ x : Enemy K, x.z = 200 ∧ ∃ r : Rand K,
        enterOne kind p v g = { g with random := r, enemies := g.enemies ++ [x] } := by
      simp only [enterOne, if_pos c]
      exact ⟨_, rfl, _, rfl⟩
    obtain ⟨x, hx, r, hr⟩ := e
    rw [hr]
    refine ⟨h1, h2, ?_, h4⟩
    intro a ha
    rcases List.mem_append.mp ha with ha1 | ha1
    · exact h3 a ha1
    · rw [List.mem_singleton.mp ha1]
      exact hx
  · have e : enterOne kind p v g = { g with random := g.random.Float64.2 } := by
      simp only [enterOne, if_neg c]
    rw [e]
    exact ⟨h1, h2, h3, h4⟩

theorem depthOk_enemyEnter (g : Game K) (h : DepthOk g) : DepthOk (enemyEnter g) := by
  unfold enemyEnter
  split_ifs
  · exact depthOk_enterOne _ _ _ _ (depthOk_enterOne _ _ _ _ (depthOk_enterOne _ _ _ _ h))
  · exact h

theorem depthOk_updateBullets (env : Env K) (g : Game K) (h : DepthOk g) :
    DepthOk (updateBullets env g) := by
  obtain ⟨h1, h2, h3, h4⟩ := h
  obtain ⟨k1, k2⟩ := updateBulletsLoop_depth env g.bullets ([], g.splashEffects, g.random) h2
    (fun b hb => by cases hb) h4
  exact ⟨h1, k1, h3, k2⟩

theorem depthOk_updateSplashEffects (g : Game K) (h : DepthOk g) :
    DepthOk (updateSplashEffects g) := by
  obtain ⟨h1, h2, h3, h4⟩ := h
  refine ⟨h1, h2, h3, ?_⟩
  intro s hs
  simp only [updateSplashEffects, List.mem_filter, List.mem_map] at hs
  obtain ⟨⟨s0, hs0, rfl⟩, _⟩ := hs
  exact h4 s0 hs0

theorem depthOk_updateEnemies (env : Env K) (g : Game K) (h : DepthOk g) :
    DepthOk (updateEnemies env g) := by
  obtain ⟨h1, h2, h3, h4⟩ := h
  obtain ⟨k1, k2⟩ := updateEnemiesLoop_depth env g.enemies ([], g.splashEffects, g.random) h3
    (fun b hb => by cases hb) h4
  exact ⟨h1, h2, k1, k2⟩

theorem depthOk_collision (g : Game K) (h : DepthOk g) : DepthOk (collision g) := by
  obtain ⟨h1, h2, h3, h4⟩ := h
  refine ⟨h1, ?_, marked_depth (collision_stretch g).1 h3, h4⟩
  intro b hb
  rcases collideLoop_newBullets_mem _ _ b hb with hb1 | hb1
  · cases hb1
  · exact h2 b hb1

theorem depthOk_finishRound (g : Game K) (h : DepthOk g) : DepthOk (finishRound g) := by
  unfold finishRound
  split_ifs
  · exact h
  · exact h

/-- The `case GameModePlaying` keeps the depth bounds. -/
theorem depthOk_playingTick (env : Env K) (inp : Input) (g : Game K) (h : DepthOk g) :
    DepthOk (playingTick env inp g) := by
  have h4 := depthOk_enemyEnter _
    (depthOk_release env inp _ (depthOk_aimStart inp _ (depthOk_stepTimer g h)))
  have h5 : DepthOk { enemyEnter (release env inp (aimStart inp (stepTimer g))) with
      fish := (enemyEnter (release env inp (aimStart inp (stepTimer g)))).fish.Update } := h4
  have h8 := depthOk_updateEnemies env _
    (depthOk_updateSplashEffects _ (depthOk_updateBullets env _ h5))
  have h9 : DepthOk (beforeCollision env inp g) := h8
  exact depthOk_finishRound _ (depthOk_collision _ h9)

/-- A freshly initialized round satisfies the depth bounds. -/
theorem depthOk_initRound (env : Env K) (now : Int) (g : Game K) :
    DepthOk (Game.initRound env now g) := by
  unfold DepthOk
  refine ⟨rfl, ?_, ?_, ?_⟩
  · intro b hb; cases hb
  · intro b hb; cases hb
  · intro b hb; cases hb

/-- One tick keeps the depth bounds. -/
theorem depthOk_update (env : Env K) (inp : Input) (g : Game K) (h : DepthOk g) :
    DepthOk (Game.Update env inp g) := by
  obtain ⟨buf, hl⟩ := logTouches_eq inp { g with ticksFromModeStart := g.ticksFromModeStart + 1 }
  have hG : DepthOk (logTouches inp { g with ticksFromModeStart := g.ticksFromModeStart + 1 }) := by
    rw [hl]; exact h
  obtain ⟨G, e, _, _, _, _, _, _, _, _, hU⟩ := update_eq env inp g
  rw [← e] at hG
  rw [hU]
  have hinit : ∀ (now : Int) (X : Game K), DepthOk (Game.initRound env now X) :=
    fun now X => depthOk_initRound env now X
  cases g.mode with
  | Title =>
    simp only
    split_ifs
    · exact hG
    · exact hG
  | Playing => exact depthOk_playingTick env inp G hG
  | GameOver =>
    simp only
    rcases gameOverTick_cases env inp G with ⟨_, e1⟩ | ⟨_, _, e1⟩ | ⟨_, _, e1⟩
    · rw [e1]; exact hG
    · rw [e1]
      obtain ⟨r, hr, _⟩ := pollRanking_eq inp G
      rw [hr]
      exact hG
    · rw [e1]; exact hinit _ _
  | Ranking =>
    simp only
    rcases rankingTick_cases env inp G with ⟨_, e1⟩ | ⟨_, e1⟩
    · rw [e1]; exact hinit _ _
    · rw [e1]; exact hG

/-- The depth bounds hold in every state reached from `initialize`. -/
theorem depthOk_run (env : Env K) (now : Int) (g0 : Game K) (inps : List Input) :
    DepthOk (Game.run env inps (Game.initRound env now g0)) := by
  have h0 : DepthOk (Game.initRound env now g0) := depthOk_initRound env now g0
  generalize Game.initRound env now g0 = g at h0
  induction inps generalizing g with
  | nil => exact h0
  | cons inp inps ih => exact ih (Game.Update env inp g) (depthOk_update env inp g h0)

/-- The depth of the sight point over the real numbers is at least `50`. -/
theorem sightPoint_depth (fishImageHeight : Int) (newRand : Int → Rand ℝ)
    (leafFuel : Nat) (inp : Input) :
    50 ≤ (sightPoint (realEnv fishImageHeight newRand leafFuel) inp).2.2 := by
  have hle := (hold_bullet_vy_range fishImageHeight newRand leafFuel inp).2
  rw [sightPoint_real fishImageHeight newRand leafFuel inp _ _ rfl rfl]
  split_ifs
  · show (50 : ℝ) ≤ 50 + 3 * (-4 * _)
    linarith
  · show (50 : ℝ) ≤ 200
    norm_num

/-- C18: in every state reached from `initialize` every depth to which
`toScreenPosition` is applied (fish, bullets, enemies, splash effects) is at
least `50`, hence non-zero, and so is the depth of the sight point for every
hold position; the other divisors of the simulation and the sight are the
non-zero constants `cameraF = 50`, `screenHeight` minus the anchor's screen y
`= 120`, the bullet's `vz = 3` and `gravity = 0.5`, whatever the drag. -/
theorem divisors_nonzero (fishImageHeight : Int) (newRand : Int → Rand ℝ) (leafFuel : Nat) :
    (∀ (env : Env ℝ) (now : Int) (g0 : Game ℝ) (inps : List Input),
      DepthOk (Game.run env inps (Game.initRound env now g0))) ∧
    (∀ g : Game ℝ, DepthOk g →
      g.fish.z ≠ 0 ∧ (∀ b ∈ g.bullets, b.z ≠ 0 ∧ b.vz ≠ 0) ∧ (∀ e ∈ g.enemies, e.z ≠ 0) ∧
      (∀ s ∈ g.splashEffects, s.z ≠ 0)) ∧
    (∀ inp : Input,
      50 ≤ (sightPoint (realEnv fishImageHeight newRand leafFuel) inp).2.2 ∧
      (sightPoint (realEnv fishImageHeight newRand leafFuel) inp).2.2 ≠ 0) ∧
    ((fishPosZInCamera : ℝ) = 50 ∧ (enemyZ : ℝ) = 200 ∧ (cameraF : ℝ) ≠ 0) ∧
    ((screenHeight : ℝ)
        - (toScreenPosition (fishPosXInCamera : ℝ) fishPosYInCamera fishPosZInCamera).2 = 120 ∧
      (gravity : ℝ) = 1 / 2 ∧ (gravity : ℝ) ≠ 0) ∧
    (∀ inp : Input,
      (newBulletByTouchPosition (realEnv fishImageHeight newRand leafFuel)
        (getHoldPosition inp : ℝ × ℝ).1 (getHoldPosition inp : ℝ × ℝ).2).vz = 3 ∧
      (newBulletByTouchPosition (realEnv fishImageHeight newRand leafFuel)
        (getHoldPosition inp : ℝ × ℝ).1 (getHoldPosition inp : ℝ × ℝ).2).vz ≠ 0) := by
  refine ⟨fun env now g0 inps => depthOk_run env now g0 inps, ?_, ?_, ?_, ?_, ?_⟩
  · intro g hg
    obtain ⟨h1, h2, h3, h4⟩ := hg
    refine ⟨?_, ?_, ?_, ?_⟩
    · rw [h1]; norm_num
    · intro b hb
      obtain ⟨k1, k2⟩ := h2 b hb
      refine ⟨?_, ?_⟩
      · intro h0
        rw [h0] at k2
        norm_num at k2
      · rw [k1]; norm_num
    · intro e he
      rw [h3 e he]; norm_num
    · intro s hs
      have k := h4 s hs
      intro h0
      rw [h0] at k
      norm_num at k
  · intro inp
    have h := sightPoint_depth fishImageHeight newRand leafFuel inp
    refine ⟨h, ?_⟩
    intro h0
    rw [h0] at h
    norm_num at h
  · refine ⟨rfl, rfl, ?_⟩
    simp only [cameraF]
    norm_num
  · refine ⟨?_, rfl, ?_⟩
    · rw [fish_screen_position]
      simp only [screenHeight]
      norm_num
    · simp only [gravity]
      norm_num
  · intro inp
    refine ⟨rfl, ?_⟩
    rw [(newBullet_fields _ _ _).2.2.2]
    norm_num

/-! ## Launch velocity -/

/-- C24: for every touch point `(tx, ty)` the bullet has `vx = (320 - tx)/3` and
`vy = (360 - ty)/3` (one third of the displacement from the touch point to the
anchor), also for the zero-length drag, where `vx = vy = 0`; hence for every
position that `getHoldPosition` returns `vy` lies in `[-40, 0]` and `vx` in
`[-320/3, 320/3]`. -/
theorem launch_velocity (fishImageHeight : Int) (newRand : Int → Rand ℝ) (leafFuel : Nat) :
    (∀ tx ty : ℝ,
      (newBulletByTouchPosition (realEnv fishImageHeight newRand leafFuel) tx ty).vx
        = (320 - tx) / 3 ∧
      (newBulletByTouchPosition (realEnv fishImageHeight newRand leafFuel) tx ty).vy
        = (360 - ty) / 3) ∧
    ((newBulletByTouchPosition (realEnv fishImageHeight newRand leafFuel) 320 360).vx = 0 ∧
      (newBulletByTouchPosition (realEnv fishImageHeight newRand leafFuel) 320 360).vy = 0) ∧
    (∀ inp : Input,
      (-40 ≤ (newBulletByTouchPosition (realEnv fishImageHeight newRand leafFuel)
          (getHoldPosition inp : ℝ × ℝ).1 (getHoldPosition inp : ℝ × ℝ).2).vy ∧
        (newBulletByTouchPosition (realEnv fishImageHeight newRand leafFuel)
          (getHoldPosition inp : ℝ × ℝ).1 (getHoldPosition inp : ℝ × ℝ).2).vy ≤ 0) ∧
      (-(320 / 3) ≤ (newBulletByTouchPosition (realEnv fishImageHeight newRand leafFuel)
          (getHoldPosition inp : ℝ × ℝ).1 (getHoldPosition inp : ℝ × ℝ).2).vx ∧
        (newBulletByTouchPosition (realEnv fishImageHeight newRand leafFuel)
          (getHoldPosition inp : ℝ × ℝ).1 (getHoldPosition inp : ℝ × ℝ).2).vx ≤ 320 / 3)) := by
  refine ⟨fun tx ty => newBullet_real_velocity fishImageHeight newRand leafFuel tx ty, ?_, ?_⟩
  · obtain ⟨h1, h2⟩ := newBullet_real_velocity fishImageHeight newRand leafFuel 320 360
    rw [h1, h2]
    constructor <;> norm_num
  · intro inp
    refine ⟨hold_bullet_vy_range fishImageHeight newRand leafFuel inp, ?_⟩
    rw [(newBullet_real_velocity fishImageHeight newRand leafFuel _ _).1]
    obtain ⟨h1, h2, _, _⟩ := clampHoldPosition_range (inp.X : ℝ) (inp.Y : ℝ)
    rw [getHoldPosition]
    constructor <;> linarith

/-! ## Simulated and analytic trajectory -/

/-- Velocity and position of a bullet after `n` updates. -/
theorem bullet_iterate_motion (b : Bullet K) (n : Nat) :
    (Bullet.Update^[n] b).vx = b.vx ∧
    (Bullet.Update^[n] b).vy = b.vy + n * gravity ∧
    (Bullet.Update^[n] b).x = b.x + n * b.vx ∧
    (Bullet.Update^[n] b).y = b.y + n * b.vy + n * (n + 1) / 4 := by
  induction n with
  | zero => simp
  | succ n ih =>
    rw [Function.iterate_succ_apply']
    obtain ⟨h1, h2, h3, h4⟩ := ih
    refine ⟨?_, ?_, ?_, ?_⟩
    · simpa [Bullet.Update] using h1
    · simp only [Bullet.Update, h2]
      push_cast
      ring
    · simp only [Bullet.Update, h1, h3]
      push_cast
      ring
    · simp only [Bullet.Update, h2, h4, gravity]
      push_cast
      ring

/-- C25: for a bullet `b` created by `newBulletByTouchPosition`, after `n` calls
of `Bullet.Update` its position is `x = n*vx`, `y = n*vy + n(n+1)/4`,
`z = 50 + 3n`; it is at the enemy depth `200` exactly for `n = 50`; the sight's
analytic trajectory is `vy*t + t^2/4`, and the simulated `y` exceeds it at
`t = n` by exactly `n/4`. -/
theorem simulated_trajectory (env : Env K) (touchX touchY : K) (n : Nat) :
    (Bullet.Update^[n] (newBulletByTouchPosition env touchX touchY)).x
      = n * (newBulletByTouchPosition env touchX touchY).vx ∧
    (Bullet.Update^[n] (newBulletByTouchPosition env touchX touchY)).y
      = n * (newBulletByTouchPosition env touchX touchY).vy + n * (n + 1) / 4 ∧
    (Bullet.Update^[n] (newBulletByTouchPosition env touchX touchY)).z = 50 + 3 * n ∧
    ((Bullet.Update^[n] (newBulletByTouchPosition env touchX touchY)).z = enemyZ ↔ n = 50) ∧
    (∀ t : K, analyticY (newBulletByTouchPosition env touchX touchY) t
      = (newBulletByTouchPosition env touchX touchY).vy * t + t ^ 2 / 4) ∧
    (Bullet.Update^[n] (newBulletByTouchPosition env touchX touchY)).y
      - analyticY (newBulletByTouchPosition env touchX touchY) n = n / 4 := by
  obtain ⟨hx, hy, hz, hvz⟩ := newBullet_fields env touchX touchY
  obtain ⟨_, _, m3, m4⟩ := bullet_iterate_motion (newBulletByTouchPosition env touchX touchY) n
  obtain ⟨_, d2⟩ := bullet_iterate_depth (newBulletByTouchPosition env touchX touchY) n
  have hz50 : (Bullet.Update^[n] (newBulletByTouchPosition env touchX touchY)).z
      = 50 + 3 * n := by
    rw [d2, hz, hvz]; ring
  have han : ∀ t : K, analyticY (newBulletByTouchPosition env touchX touchY) t
      = (newBulletByTouchPosition env touchX touchY).vy * t + t ^ 2 / 4 := by
    intro t
    simp only [analyticY, hy, gravity]
    ring
  refine ⟨?_, ?_, hz50, ?_, han, ?_⟩
  · rw [m3, hx]; ring
  · rw [m4, hy]; ring
  · rw [hz50]
    simp only [enemyZ]
    constructor
    · intro h
      have h1 : (n : K) = 50 := by linarith
      exact_mod_cast h1
    · intro h
      rw [h]
      norm_num
  · rw [m4, hy, han]
    ring

/-! ## Dizzy enemies -/

/-- One call of `Enemy.Update` on a Dizzy enemy that is not hit. -/
theorem dizzy_update_step (e : Enemy K) (rng : Rand K)
    (hk : e.kind = EnemyKind.Dizzy) (hh : e.hit = false) :
    (e.Update rng).1.kind = EnemyKind.Dizzy ∧ (e.Update rng).1.hit = false ∧
    (e.Update rng).1.ticks = e.ticks + 1 ∧
    (e.Update rng).1.vx0 = (if e.ticks = 0 then e.vx else e.vx0) ∧
    (e.Update rng).2.intAt = rng.intAt ∧
    ((e.ticks + 1) % 60 ≠ 0 → (e.Update rng).1.vx = e.vx ∧ (e.Update rng).2 = rng) ∧
    ((e.ticks + 1) % 60 = 0 →
      (e.Update rng).2.pos = rng.pos + 1 ∧
      (e.Update rng).1.vx0 = e.vx0 ∧
      (rng.intAt rng.pos % 2 = 0 →
        (e.Update rng).1.vx = (if e.vx = 0 then e.vx0 else 0)) ∧
      (rng.intAt rng.pos % 2 ≠ 0 → (e.Update rng).1.vx = e.vx)) := by
  by_cases c0 : e.ticks = 0
  · have c1 : ¬ ((e.ticks + 1) % 60 = 0) := by rw [c0]; decide
    simp [Enemy.Update, Enemy.behave, c0, hk, hh]
  · by_cases c1 : (e.ticks + 1) % 60 = 0
    · by_cases c2 : rng.intAt rng.pos % 2 = 0
      · by_cases c3 : e.vx = 0
        · simp [Enemy.Update, Enemy.behave, c0, c1, c2, c3, hk, hh, Rand.Int]
        · simp [Enemy.Update, Enemy.behave, c0, c1, c2, c3, hk, hh, Rand.Int]
      · simp [Enemy.Update, Enemy.behave, c0, c1, c2, hk, hh, Rand.Int]
    · simp [Enemy.Update, Enemy.behave, c0, c1, hk, hh]

/-- After its first update the velocity of a Dizzy enemy that is not hit is `0`
or its home velocity, which is the velocity it was created with. -/
theorem dizzy_updateN_state (e : Enemy K) (rng : Rand K)
    (hk : e.kind = EnemyKind.Dizzy) (ht : e.ticks = 0) (hh : e.hit = false) (n : Nat) :
    (Enemy.updateN n e rng).1.kind = EnemyKind.Dizzy ∧
    (Enemy.updateN n e rng).1.hit = false ∧
    (Enemy.updateN n e rng).1.ticks = n ∧
    (1 ≤ n → (Enemy.updateN n e rng).1.vx0 = e.vx) ∧
    ((Enemy.updateN n e rng).1.vx = 0 ∨ (Enemy.updateN n e rng).1.vx = e.vx) := by
  induction n with
  | zero => exact ⟨hk, hh, ht, fun h => absurd h (by decide), Or.inr rfl⟩
  | succ n ih =>
    obtain ⟨h1, h2, h3, h4, h5⟩ := ih
    obtain ⟨g1, g2, g3, g4, _, g6, g7⟩ :=
      dizzy_update_step (Enemy.updateN n e rng).1 (Enemy.updateN n e rng).2 h1 h2
    have hv0 : (Enemy.updateN (n + 1) e rng).1.vx0 = e.vx := by
      show (Enemy.Update _ _).1.vx0 = _
      rw [g4, h3]
      by_cases hn : n = 0
      · subst hn
        simp only [if_true]
        rfl
      · rw [if_neg hn]
        exact h4 (by omega)
    refine ⟨g1, g2, g3.trans (by rw [h3]), fun _ => hv0, ?_⟩
    show (Enemy.Update _ _).1.vx = 0 ∨ (Enemy.Update _ _).1.vx = e.vx
    by_cases c1 : ((Enemy.updateN n e rng).1.ticks + 1) % 60 = 0
    · obtain ⟨_, q2, q3, q4⟩ := g7 c1
      have hn : 1 ≤ n := by
        rw [h3] at c1
        omega
      by_cases c2 : (Enemy.updateN n e rng).2.intAt (Enemy.updateN n e rng).2.pos % 2 = 0
      · rw [q3 c2]
        split_ifs
        · exact Or.inr (h4 hn)
        · exact Or.inl rfl
      · rw [q4 c2]
        exact h5
    · rw [(g6 c1).1]
      exact h5

/-- One update keeps two Dizzy enemies alike. -/
theorem dizzyAlike_step (p q : Enemy K × Rand K) (h : DizzyAlike p q) :
    DizzyAlike (p.1.Update p.2) (q.1.Update q.2) := by
  obtain ⟨k1, k2, h1, h2, ht, hv, hv0, hp, hi⟩ := h
  obtain ⟨a1, a2, a3, a4, a5, a6, a7⟩ := dizzy_update_step p.1 p.2 k1 h1
  obtain ⟨b1, b2, b3, b4, b5, b6, b7⟩ := dizzy_update_step q.1 q.2 k2 h2
  refine ⟨a1, b1, a2, b2, by rw [a3, b3, ht], ?_, by rw [a4, b4, ht, hv, hv0], ?_,
    by rw [a5, b5, hi]⟩
  · by_cases c1 : (p.1.ticks + 1) % 60 = 0
    · have c1q : (q.1.ticks + 1) % 60 = 0 := by rw [← ht]; exact c1
      obtain ⟨_, _, x3, x4⟩ := a7 c1
      obtain ⟨_, _, y3, y4⟩ := b7 c1q
      by_cases c2 : p.2.intAt p.2.pos % 2 = 0
      · have c2q : q.2.intAt q.2.pos % 2 = 0 := by rw [← hi, ← hp]; exact c2
        rw [x3 c2, y3 c2q, hv, hv0]
      · have c2q : ¬ q.2.intAt q.2.pos % 2 = 0 := by rw [← hi, ← hp]; exact c2
        rw [x4 c2, y4 c2q, hv]
    · have c1q : ¬ (q.1.ticks + 1) % 60 = 0 := by rw [← ht]; exact c1
      rw [(a6 c1).1, (b6 c1q).1, hv]
  · by_cases c1 : (p.1.ticks + 1) % 60 = 0
    · have c1q : (q.1.ticks + 1) % 60 = 0 := by rw [← ht]; exact c1
      rw [(a7 c1).1, (b7 c1q).1, hp]
    · have c1q : ¬ (q.1.ticks + 1) % 60 = 0 := by rw [← ht]; exact c1
      rw [(a6 c1).2, (b6 c1q).2, hp]

/-- Any number of updates keeps two Dizzy enemies alike. -/
theorem dizzyAlike_updateN (e1 e2 : Enemy K) (r1 r2 : Rand K)
    (h : DizzyAlike (e1, r1) (e2, r2)) (n : Nat) :
    DizzyAlike (Enemy.updateN n e1 r1) (Enemy.updateN n e2 r2) := by
  induction n with
  | zero => exact h
  | succ n ih => exact dizzyAlike_step _ _ ih

/-- C21: for a Dizzy enemy that is not hit, `Enemy.Update` changes `vx` only
when the incremented tick count is a multiple of 60 and the integer drawn from
the round generator is even, and then `vx` becomes `vx0` if it was `0` and `0`
otherwise; on other ticks no random value is drawn (the generator is returned as
it was) and `vx` is unchanged.  Hence after every update of an enemy created
with `ticks = 0`, `vx` is `0` or `vx0`; and two enemies that agree in tick
count, velocity and home velocity, with generators at the same position of the
same stream of integers, have the same velocity after any number of updates. -/
theorem dizzy_toggle (e : Enemy K) (rng : Rand K)
    (hk : e.kind = EnemyKind.Dizzy) (hh : e.hit = false) :
    ((e.ticks + 1) % 60 ≠ 0 → (e.Update rng).1.vx = e.vx ∧ (e.Update rng).2 = rng) ∧
    ((e.ticks + 1) % 60 = 0 → rng.intAt rng.pos % 2 = 0 →
      (e.Update rng).1.vx = (if e.vx = 0 then e.vx0 else 0) ∧
      (e.Update rng).1.vx0 = e.vx0) ∧
    ((e.ticks + 1) % 60 = 0 → rng.intAt rng.pos % 2 ≠ 0 → (e.Update rng).1.vx = e.vx) ∧
    ((e.Update rng).1.vx ≠ e.vx →
      (e.ticks + 1) % 60 = 0 ∧ (rng.Int).1 % 2 = 0) ∧
    (e.ticks = 0 → ∀ n : Nat, 1 ≤ n →
      (Enemy.updateN n e rng).1.vx0 = e.vx ∧
      ((Enemy.updateN n e rng).1.vx = 0 ∨
        (Enemy.updateN n e rng).1.vx = (Enemy.updateN n e rng).1.vx0)) ∧
    (∀ (e2 : Enemy K) (r2 : Rand K), DizzyAlike (e, rng) (e2, r2) →
      ∀ n : Nat, (Enemy.updateN n e rng).1.vx = (Enemy.updateN n e2 r2).1.vx) ∧
    (e.ticks = 0 ∨ e.vx = 0 ∨ e.vx = e.vx0 →
      (e.Update rng).1.vx = 0 ∨ (e.Update rng).1.vx = (e.Update rng).1.vx0) := by
  obtain ⟨_, _, _, s4, _, s6, s7⟩ := dizzy_update_step e rng hk hh
  refine ⟨s6, ?_, ?_, ?_, ?_, ?_, ?_⟩
  · intro c1 c2
    obtain ⟨_, q2, q3, _⟩ := s7 c1
    exact ⟨q3 c2, q2⟩
  · intro c1 c2
    exact (s7 c1).2.2.2 c2
  · intro hne
    by_cases c1 : (e.ticks + 1) % 60 = 0
    · refine ⟨c1, ?_⟩
      by_contra c2
      exact hne ((s7 c1).2.2.2 c2)
    · exact absurd (s6 c1).1 hne
  · intro ht n hn
    obtain ⟨_, _, _, h4, h5⟩ := dizzy_updateN_state e rng hk ht hh n
    refine ⟨h4 hn, ?_⟩
    rw [h4 hn]
    exact h5
  · intro e2 r2 h n
    exact (dizzyAlike_updateN e e2 rng r2 h n).2.2.2.2.2.1
  · intro hinv
    by_cases c1 : (e.ticks + 1) % 60 = 0
    · have hne : e.ticks ≠ 0 := by
        intro h0
        rw [h0] at c1
        exact absurd c1 (by decide)
      obtain ⟨_, q2, q3, q4⟩ := s7 c1
      have hold : e.vx = 0 ∨ e.vx = e.vx0 := by
        rcases hinv with h | h
        · exact absurd h hne
        · exact h
      rw [q2]
      by_cases c2 : rng.intAt rng.pos % 2 = 0
      · rw [q3 c2]
        split_ifs
        · exact Or.inr rfl
        · exact Or.inl rfl
      · rw [q4 c2]
        exact hold
    · rw [(s6 c1).1, s4]
      by_cases h0 : e.ticks = 0
      · rw [if_pos h0]
        exact Or.inr rfl
      · rw [if_neg h0]
        rcases hinv with h | h
        · exact absurd h h0
        · exact h

/-- Witness of C21: the sample Dizzy enemy after 60 updates. -/
theorem dizzy_toggle_witness :
    (Enemy.updateN 60 sampleDizzy zeroRand).1.vx0 = -4 ∧
    ((Enemy.updateN 60 sampleDizzy zeroRand).1.vx = 0 ∨
      (Enemy.updateN 60 sampleDizzy zeroRand).1.vx
        = (Enemy.updateN 60 sampleDizzy zeroRand).1.vx0) :=
  (dizzy_toggle sampleDizzy zeroRand rfl rfl).2.2.2.2.1 rfl 60 (by decide)

/-! ## The spawner -/

/-- The projection undoes the inverse projection at every non-zero depth. -/
theorem toScreenPosition_toCameraPosition (xs ys z : K) (hz : z ≠ 0) :
    toScreenPosition (toCameraPosition xs ys z).1 (toCameraPosition xs ys z).2 z = (xs, ys) := by
  simp only [toCameraPosition, toScreenPosition, cameraF, cameraHeight, screenWidth,
    screenHeight, Prod.mk.injEq]
  constructor
  · field_simp
    ring
  · field_simp
    ring

/-- One iteration of the spawn loop adds nothing or one enemy of its kind, as
the specification describes it. -/
theorem enterOne_spawn (kind : EnemyKind) (p v : K) (g : Game K)
    (hv : v = laneSpeed kind) :
    (enterOne kind p v g).ticksFromModeStart = g.ticksFromModeStart ∧
    ((enterOne kind p v g).enemies = g.enemies ∨
      ∃ x : Enemy K, (enterOne kind p v g).enemies = g.enemies ++ [x] ∧
        x.kind = kind ∧ Spawned x) := by
  refine ⟨(enterOne_frame2 kind p v g).2.1, ?_⟩
  have h200 : (enemyZ : K) ≠ 0 := by
    simp only [enemyZ]; norm_num
  have hlane : ∀ k : EnemyKind,
      ((match k with
        | EnemyKind.Normal => ((normalEnemyYInScreen : K), (normalEnemyR : K))
        | EnemyKind.Dizzy => (dizzyEnemyYInScreen, dizzyEnemyR)
        | EnemyKind.Shy => (shyEnemyYInScreen, shyEnemyR)) : K × K)
        = (laneScreenY k, laneRadius k) := by
    intro k
    cases k <;>
      simp only [laneScreenY, laneRadius, normalEnemyYInScreen, dizzyEnemyYInScreen,
        shyEnemyYInScreen, normalEnemyR, dizzyEnemyR, shyEnemyR, screenHeight,
        Prod.mk.injEq] <;>
      constructor <;> norm_num
  by_cases c : g.random.Float64.1 < p
  · refine Or.inr ?_
    by_cases c2 : g.random.Float64.2.Int.1 % 2 = 0
    · have hpos : ¬ ((-50 : K) > 0) := by norm_num
      refine ⟨{ ticks := 0, kind := kind, hit := false
                x := (toCameraPosition (-50) (laneScreenY kind) enemyZ).1
                y := (toCameraPosition (-50) (laneScreenY kind) enemyZ).2
                z := enemyZ, vx := v, vy := 0, vx0 := 0, r := laneRadius kind }, ?_, rfl, ?_⟩
      · simp only [enterOne, if_pos c, if_pos c2, if_neg hpos, hlane]
      · refine ⟨rfl, rfl, rfl, rfl, ?_, Or.inl ⟨?_, hv⟩⟩
        · show (toScreenPosition _ _ enemyZ).2 = _
          rw [toScreenPosition_toCameraPosition _ _ _ h200]
        · show (toScreenPosition _ _ enemyZ).1 = _
          rw [toScreenPosition_toCameraPosition _ _ _ h200]
    · have hpos : (screenWidth : K) + 50 > 0 := by
        simp only [screenWidth]; norm_num
      have h690 : (screenWidth : K) + 50 = 690 := by
        simp only [screenWidth]; norm_num
      refine ⟨{ ticks := 0, kind := kind, hit := false
                x := (toCameraPosition (screenWidth + 50) (laneScreenY kind) enemyZ).1
                y := (toCameraPosition (screenWidth + 50) (laneScreenY kind) enemyZ).2
                z := enemyZ, vx := v * -1, vy := 0, vx0 := 0, r := laneRadius kind }, ?_, rfl, ?_⟩
      · simp only [enterOne, if_pos c, if_neg c2, if_pos hpos, hlane]
      · refine ⟨rfl, rfl, rfl, rfl, ?_, Or.inr ⟨?_, ?_⟩⟩
        · show (toScreenPosition _ _ enemyZ).2 = _
          rw [toScreenPosition_toCameraPosition _ _ _ h200]
        · show (toScreenPosition _ _ enemyZ).1 = _
          rw [toScreenPosition_toCameraPosition _ _ _ h200, h690]
        · show v * -1 = -laneSpeed kind
          rw [hv]; ring
  · refine Or.inl ?_
    simp only [enterOne, if_neg c]

/-- One iteration of the spawn loop, with the enemies added as a list. -/
theorem enterOne_new (kind : EnemyKind) (p v : K) (g : Game K) (hv : v = laneSpeed kind) :
    ∃ new : List (Enemy K), (enterOne kind p v g).enemies = g.enemies ++ new ∧
      List.Sublist (new.map (fun x => x.kind)) [kind] ∧ ∀ x ∈ new, Spawned x := by
  rcases (enterOne_spawn kind p v g hv).2 with h | ⟨x, h, hk, hs⟩
  · refine ⟨[], by rw [h, List.append_nil], ?_, ?_⟩
    · exact List.nil_sublist _
    · intro x hx; cases hx
  · refine ⟨[x], h, ?_, ?_⟩
    · simp only [List.map_cons, List.map_nil, hk]
      exact List.Sublist.refl _
    · intro y hy
      rw [List.mem_singleton.mp hy]
      exact hs

/-- C22: the spawner adds enemies only when the mode tick counter is a multiple
of 60, and then at most one per kind, in the order Normal, Dizzy, Shy; every
enemy it adds has `hit = false`, `ticks = 0`, `z = 200`, the radius 40/35/30 and
the lane 190/120/50 of its kind, is projected to screen x `-50` or `690`, and
has the speed 2/4/4 of its kind, positive when it enters at `-50` and negative
when it enters at `690`.  In a Playing tick the spawner runs on the incremented
counter and the enemies of the state before the tick. -/
theorem spawner_spec (g : Game K) :
    (∃ new : List (Enemy K), (enemyEnter g).enemies = g.enemies ++ new ∧
      (g.ticksFromModeStart % 60 ≠ 0 → new = []) ∧
      List.Sublist (new.map (fun x => x.kind))
        [EnemyKind.Normal, EnemyKind.Dizzy, EnemyKind.Shy] ∧
      ∀ x ∈ new, Spawned x) ∧
    (∀ x : Enemy K, Spawned x →
      x.hit = false ∧ x.ticks = 0 ∧ x.z = 200 ∧
      (x.kind = EnemyKind.Normal → x.r = 40 ∧ (toScreenPosition x.x x.y x.z).2 = 190 ∧
        (x.vx = 2 ∨ x.vx = -2)) ∧
      (x.kind = EnemyKind.Dizzy → x.r = 35 ∧ (toScreenPosition x.x x.y x.z).2 = 120 ∧
        (x.vx = 4 ∨ x.vx = -4)) ∧
      (x.kind = EnemyKind.Shy → x.r = 30 ∧ (toScreenPosition x.x x.y x.z).2 = 50 ∧
        (x.vx = 4 ∨ x.vx = -4)) ∧
      (((toScreenPosition x.x x.y x.z).1 = -50 ∧ 0 < x.vx) ∨
        ((toScreenPosition x.x x.y x.z).1 = 690 ∧ x.vx < 0))) ∧
    (∀ (env : Env K) (inp : Input) (h : Game K),
      (release env inp (aimStart inp (stepTimer h))).ticksFromModeStart
        = h.ticksFromModeStart ∧
      (release env inp (aimStart inp (stepTimer h))).enemies = h.enemies) := by
  have hpos : ∀ k : EnemyKind, (0 : K) < laneSpeed k := by
    intro k
    cases k <;> simp only [laneSpeed] <;> norm_num
  refine ⟨?_, ?_, ?_⟩
  · by_cases c : g.ticksFromModeStart % 60 = 0
    · obtain ⟨n1, e1, s1, p1⟩ := enterOne_new EnemyKind.Normal (1 / 4) 2 g rfl
      obtain ⟨n2, e2, s2, p2⟩ := enterOne_new EnemyKind.Dizzy (1 / 5) 4
        (enterOne EnemyKind.Normal (1 / 4) 2 g) rfl
      obtain ⟨n3, e3, s3, p3⟩ := enterOne_new EnemyKind.Shy (1 / 10) 4
        (enterOne EnemyKind.Dizzy (1 / 5) 4 (enterOne EnemyKind.Normal (1 / 4) 2 g)) rfl
      refine ⟨n1 ++ n2 ++ n3, ?_, fun h => absurd c h, ?_, ?_⟩
      · simp only [enemyEnter, if_pos c]
        rw [e3, e2, e1, List.append_assoc, List.append_assoc, List.append_assoc]
      · rw [List.map_append, List.map_append]
        exact List.Sublist.append (List.Sublist.append s1 s2) s3
      · intro x hx
        rcases List.mem_append.mp hx with h | h
        · rcases List.mem_append.mp h with h1 | h1
          · exact p1 x h1
          · exact p2 x h1
        · exact p3 x h
    · refine ⟨[], ?_, fun _ => rfl, List.nil_sublist _, ?_⟩
      · simp only [enemyEnter, if_neg c, List.append_nil]
      · intro x hx; cases hx
  · intro x hs
    obtain ⟨h1, h2, h3, h4, h5, h6⟩ := hs
    have hside : ((toScreenPosition x.x x.y x.z).1 = -50 ∧ 0 < x.vx) ∨
        ((toScreenPosition x.x x.y x.z).1 = 690 ∧ x.vx < 0) := by
      rcases h6 with ⟨a, b⟩ | ⟨a, b⟩
      · exact Or.inl ⟨a, by rw [b]; exact hpos _⟩
      · exact Or.inr ⟨a, by rw [b]; exact neg_neg_of_pos (hpos _)⟩
    have hv : x.vx = laneSpeed x.kind ∨ x.vx = -laneSpeed x.kind := by
      rcases h6 with ⟨_, b⟩ | ⟨_, b⟩
      · exact Or.inl b
      · exact Or.inr b
    refine ⟨h1, h2, h3, ?_, ?_, ?_, hside⟩
    · intro hk
      rw [hk] at h4 h5 hv
      exact ⟨h4, h5, hv⟩
    · intro hk
      rw [hk] at h4 h5 hv
      exact ⟨h4, h5, hv⟩
    · intro hk
      rw [hk] at h4 h5 hv
      exact ⟨h4, h5, hv⟩
  · intro env inp h
    refine ⟨?_, ?_⟩
    · rw [(release_frame2 _ _ _).2.1, (aimStart_frame2 _ _).2.1, (stepTimer_frame2 _).2.1]
    · rw [(release_frame _ _ _).2.1, (aimStart_frame _ _).2.2.1, (stepTimer_frame _).2.2.1]

/-- Witness of C22: the spawner on a tick count that is a multiple of 60. -/
theorem spawner_spec_witness :
    ∃ new : List (Enemy ℚ), (enemyEnter spawnGame).enemies = spawnGame.enemies ++ new ∧
      (spawnGame.ticksFromModeStart % 60 ≠ 0 → new = []) ∧
      List.Sublist (new.map (fun x => x.kind))
        [EnemyKind.Normal, EnemyKind.Dizzy, EnemyKind.Shy] ∧
      ∀ x ∈ new, Spawned x :=
  (spawner_spec spawnGame).1

/-! ## Aim start -/

/-- The aiming flag after the `case GameModePlaying` is the one after the
release block. -/
theorem playingTick_hold (env : Env K) (inp : Input) (G : Game K) :
    (playingTick env inp G).hold = (release env inp (aimStart inp (stepTimer G))).hold := by
  have hf : ∀ c : Game K, (finishRound c).hold = c.hold := by
    intro c
    unfold finishRound
    split_ifs <;> rfl
  simp only [playingTick, hf, collision, beforeCollision, updateGainEffects, updateEnemies,
    updateSplashEffects, updateBullets, (enemyEnter_frame2 _).2.2.2.1]

/-- The aiming flag after the aim-start block. -/
theorem aimStart_hold (inp : Input) (X : Game K) :
    (X.timeInTicks > 0 → inp.justTouched = true →
      ((inp.X : K) - 320) ^ 2 + ((inp.Y : K) - 360) ^ 2 < 50 ^ 2 →
      (aimStart inp X).hold = true) ∧
    (¬ (X.timeInTicks > 0 ∧ inp.justTouched = true ∧
        ((inp.X : K) - 320) ^ 2 + ((inp.Y : K) - 360) ^ 2 < 50 ^ 2) →
      aimStart inp X = X) := by
  have hf : toScreenPosition (fishPosXInCamera : K) fishPosYInCamera fishPosZInCamera
      = (320, 360) := fish_screen_position
  constructor
  · intro h1 h2 h3
    have c1 : X.timeInTicks > 0 ∧ inp.justTouched = true := ⟨h1, h2⟩
    simp only [aimStart, if_pos c1, hf, touchableR, if_pos h3]
  · intro hn
    by_cases c1 : X.timeInTicks > 0 ∧ inp.justTouched = true
    · have c2 : ¬ (((inp.X : K) - 320) ^ 2 + ((inp.Y : K) - 360) ^ 2 < 50 ^ 2) :=
        fun h => hn ⟨c1.1, c1.2, h⟩
      simp only [aimStart, if_pos c1, hf, touchableR, if_neg c2]
    · simp only [aimStart, if_neg c1]

/-- The aiming flag after the release block. -/
theorem release_hold (env : Env K) (inp : Input) (X : Game K) :
    (release env inp X).hold = (if X.hold = true ∧ inp.justReleased = true then false
      else X.hold) := by
  simp only [release]
  split_ifs <;> rfl

/-- The aiming flag after a tick that starts in the Playing mode, in terms of
the round timer after its increment in this tick. -/
theorem update_hold_cases (env : Env K) (inp : Input) (g : Game K)
    (hm : g.mode = GameMode.Playing) :
    ((if g.ticksFromModeStart + 1 > 3 * 60 then g.timeInTicks + 1 else g.timeInTicks) > 0 →
      inp.justTouched = true →
      ((inp.X : K) - 320) ^ 2 + ((inp.Y : K) - 360) ^ 2 < 50 ^ 2 →
      (Game.Update env inp g).hold = (if inp.justReleased = true then false else true)) ∧
    (¬ ((if g.ticksFromModeStart + 1 > 3 * 60 then g.timeInTicks + 1 else g.timeInTicks) > 0 ∧
        inp.justTouched = true ∧
        ((inp.X : K) - 320) ^ 2 + ((inp.Y : K) - 360) ^ 2 < 50 ^ 2) →
      (Game.Update env inp g).hold
        = (if g.hold = true ∧ inp.justReleased = true then false else g.hold)) := by
  obtain ⟨G, _, _, g2, g3, _, _, _, g7, _, hU⟩ := update_eq env inp g
  rw [hm] at hU
  simp only at hU
  have ht : (stepTimer G).timeInTicks
      = (if g.ticksFromModeStart + 1 > 3 * 60 then g.timeInTicks + 1 else g.timeInTicks) := by
    rw [(stepTimer_frame2 G).2.2.2.2.2, g2, g3]
  have hh : (stepTimer G).hold = g.hold := by
    rw [(stepTimer_frame2 G).2.2.1, g7]
  obtain ⟨a1, a2⟩ := aimStart_hold inp (stepTimer G)
  rw [ht] at a1 a2
  rw [hU, playingTick_hold, release_hold]
  constructor
  · intro h1 h2 h3
    rw [a1 h1 h2 h3]
    simp
  · intro hn
    rw [a2 hn, hh]

/-- C23 as stated fails: on the first tick of the Playing mode (the round timer
is still `0`) a press that just started exactly at the anchor, not released in
the same tick, leaves the aiming flag false. -/
theorem press_during_lead_in :
    sampleStart.mode = GameMode.Playing ∧ pressInput.justTouched = true ∧
    pressInput.justReleased = false ∧
    ((pressInput.X : ℚ) - 320) ^ 2 + ((pressInput.Y : ℚ) - 360) ^ 2 < 50 ^ 2 ∧
    (Game.Update sampleEnv pressInput sampleStart).hold = false := by
  refine ⟨rfl, rfl, rfl, ?_, ?_⟩
  · norm_num [pressInput]
  · rw [(update_hold_cases sampleEnv pressInput sampleStart rfl).2
      (fun h => absurd h.1 (by decide))]
    rfl

/-- C23 (amended): on every Playing tick on which the round timer is positive
after its increment in this tick (the lead-in of 180 ticks is over) and a press
just started at a screen point whose squared distance to the anchor
`(320, 360)` is less than `50^2`, the aiming flag is true after the tick unless
the press is released in the same tick; while the round timer is `0` a press
does not set the flag; and a press that starts at distance `≥ 50` never sets
it. -/
theorem aim_begins_after_lead_in (env : Env K) (inp : Input) (g : Game K)
    (hm : g.mode = GameMode.Playing) (hj : inp.justTouched = true) :
    ((if g.ticksFromModeStart + 1 > 3 * 60 then g.timeInTicks + 1 else g.timeInTicks) > 0 →
      ((inp.X : K) - 320) ^ 2 + ((inp.Y : K) - 360) ^ 2 < 50 ^ 2 →
      (inp.justReleased = false → (Game.Update env inp g).hold = true) ∧
      (inp.justReleased = true → (Game.Update env inp g).hold = false)) ∧
    (¬ (((inp.X : K) - 320) ^ 2 + ((inp.Y : K) - 360) ^ 2 < 50 ^ 2) →
      (Game.Update env inp g).hold = true → g.hold = true) ∧
    ((if g.ticksFromModeStart + 1 > 3 * 60 then g.timeInTicks + 1 else g.timeInTicks) = 0 →
      (Game.Update env inp g).hold = true → g.hold = true) ∧
    (g.ticksFromModeStart + 1 > 180 →
      (if g.ticksFromModeStart + 1 > 3 * 60 then g.timeInTicks + 1 else g.timeInTicks) > 0) ∧
    (Game.Update env inp g).timeInTicks
      = (if g.ticksFromModeStart + 1 > 3 * 60 then g.timeInTicks + 1 else g.timeInTicks) := by
  obtain ⟨u1, u2⟩ := update_hold_cases env inp g hm
  have keep : (Game.Update env inp g).hold
      = (if g.hold = true ∧ inp.justReleased = true then false else g.hold) →
      (Game.Update env inp g).hold = true → g.hold = true := by
    intro h1 h2
    rw [h1] at h2
    split_ifs at h2
    exact h2
  refine ⟨?_, ?_, ?_, ?_, (update_playing_timer env inp g hm).1⟩
  · intro h1 h2
    have h := u1 h1 hj h2
    constructor
    · intro hr
      rw [h, hr]
      rfl
    · intro hr
      rw [h, hr]
      rfl
  · intro hn
    exact keep (u2 (fun h => hn h.2.2))
  · intro h0
    exact keep (u2 (fun h => by rw [h0] at h; exact absurd h.1 (lt_irrefl 0)))
  · intro h
    rw [if_pos (by omega)]
    omega

/-- Witness of C23 (amended): after the lead-in a press at the anchor starts
aiming. -/
theorem aim_begins_after_lead_in_witness :
    aimGame.mode = GameMode.Playing ∧ pressInput.justTouched = true ∧
    (Game.Update sampleEnv pressInput aimGame).hold = true :=
  ⟨rfl, rfl,
    ((aim_begins_after_lead_in sampleEnv pressInput aimGame rfl rfl).1 (by decide)
      (by norm_num [pressInput])).1 rfl⟩

/-! ## Hit exclusivity across ticks -/


theorem unhitCount_append (es fs : List (Enemy K)) :
    unhitCount (es ++ fs) = unhitCount es + unhitCount fs := by
  simp only [unhitCount, List.filter_append, List.length_append]

/-- A list of enemies none of which is hit counts in full. -/
theorem unhitCount_of_unhit (es : List (Enemy K)) (h : ∀ e ∈ es, e.hit = false) :
    unhitCount es = es.length := by
  induction es with
  | nil => rfl
  | cons e es ih =>
    have he := h e (List.mem_cons_self _ _)
    have ht := ih (fun x hx => h x (List.mem_cons_of_mem _ hx))
    simp only [unhitCount] at ht ⊢
    rw [List.filter_cons_of_pos (by simp [he]), List.length_cons, List.length_cons, ht]

/-- Marking moves enemies from the enemies not hit to the enemies newly hit:
what a stretch of the collision pass newly marks is no longer unhit after it. -/
theorem marked_unhit_balance {es es1 : List (Enemy K)} (h : List.Forall₂ Marked es es1) :
    unhitCount es1 + newHitCount es es1 = unhitCount es := by
  induction h with
  | nil => rfl
  | @cons e e1 l l1 hm _ ih =>
    have hc : ∀ (a : Enemy K) (t : List (Enemy K)),
        unhitCount (a :: t) = (if a.hit = false then 1 else 0) + unhitCount t := by
      intro a t
      cases ha : a.hit
      · simp only [unhitCount]
        rw [List.filter_cons_of_pos (by simp [ha]), List.length_cons]
        simp; omega
      · simp only [unhitCount]
        rw [List.filter_cons_of_neg (by simp [ha])]
        simp
    rw [hc e1 l1, hc e l]
    simp only [newHitCount]
    rcases hm with h1 | ⟨h0, h1⟩
    · rw [h1]
      cases he : e.hit <;> simp <;> omega
    · rw [h1, h0]
      simp
      omega

/-- An enemy after a stretch of the collision pass stems from an enemy before it. -/
theorem marked_mem_right {es es1 : List (Enemy K)} (h : List.Forall₂ Marked es es1)
    {x : Enemy K} (hx : x ∈ es1) : ∃ y ∈ es, Marked y x := by
  induction h with
  | nil => cases hx
  | @cons a a1 l l1 hm _ ih =>
    rcases List.mem_cons.mp hx with rfl | hx1
    · exact ⟨a, List.mem_cons_self _ _, hm⟩
    · obtain ⟨y, hy, hmy⟩ := ih hx1
      exact ⟨y, List.mem_cons_of_mem _ hy, hmy⟩

/-- The loop of the block `// Enemies` keeps only updated enemies: every enemy
it returns was accumulated before or is `Enemy.Update` of an enemy of its input. -/
theorem updateEnemiesLoop_mem (env : Env K) (es : List (Enemy K))
    (acc : List (Enemy K) × List (SplashEffect K) × Rand K) (x : Enemy K)
    (hx : x ∈ (updateEnemiesLoop env es acc).1) :
    x ∈ acc.1 ∨ ∃ e ∈ es, ∃ r : Rand K, x = (e.Update r).1 := by
  induction es generalizing acc with
  | nil => exact Or.inl hx
  | cons e es ih =>
    obtain ⟨ne, sp, rng⟩ := acc
    simp only [updateEnemiesLoop] at hx
    have lift : (∃ c ∈ es, ∃ r : Rand K, x = (c.Update r).1) →
        ∃ c ∈ e :: es, ∃ r : Rand K, x = (c.Update r).1 := by
      rintro ⟨c, hc, r, hr⟩
      exact ⟨c, List.mem_cons_of_mem _ hc, r, hr⟩
    split_ifs at hx
    · rcases ih _ hx with h | h
      · exact Or.inl h
      · exact Or.inr (lift h)
    · rcases ih _ hx with h | h
      · rcases List.mem_append.mp h with h1 | h1
        · exact Or.inl h1
        · exact Or.inr ⟨e, List.mem_cons_self _ _, rng, List.mem_singleton.mp h1⟩
      · exact Or.inr (lift h)
    · rcases ih _ hx with h | h
      · exact Or.inl h
      · exact Or.inr (lift h)

/-- The loop of the block `// Enemies` creates no enemy that is not hit. -/
theorem updateEnemiesLoop_unhit (env : Env K) (es : List (Enemy K))
    (acc : List (Enemy K) × List (SplashEffect K) × Rand K) :
    unhitCount (updateEnemiesLoop env es acc).1 ≤ unhitCount acc.1 + unhitCount es := by
  induction es generalizing acc with
  | nil => simp [updateEnemiesLoop, unhitCount]
  | cons e es ih =>
    obtain ⟨ne, sp, rng⟩ := acc
    have hcons : unhitCount (e :: es) = unhitCount [e] + unhitCount es :=
      unhitCount_append [e] es
    have hupd : unhitCount [(e.Update rng).1] = unhitCount [e] := by
      simp only [unhitCount, List.filter, enemy_update_hit]
      cases e.hit <;> rfl
    simp only [updateEnemiesLoop]
    split_ifs
    · have h := ih (ne, sp ++
        (splashBurst env (e.Update rng).1.x 0 (e.Update rng).1.z 15 15 5 (e.Update rng).2).1,
        (splashBurst env (e.Update rng).1.x 0 (e.Update rng).1.z 15 15 5 (e.Update rng).2).2)
      simp only at h ⊢
      omega
    · have h := ih (ne ++ [(e.Update rng).1], sp, (e.Update rng).2)
      simp only [unhitCount_append, hupd] at h ⊢
      omega
    · have h := ih (ne, sp, (e.Update rng).2)
      simp only at h ⊢
      omega


/-- The block `// Enemy enter` appends enemies, each of them not hit. -/
theorem enemyEnter_new (g : Game K) :
    ∃ new : List (Enemy K), (enemyEnter g).enemies = g.enemies ++ new ∧
      ∀ x ∈ new, Spawned x := by
  by_cases c : g.ticksFromModeStart % 60 = 0
  · obtain ⟨n1, e1, _, p1⟩ := enterOne_new EnemyKind.Normal (1 / 4) 2 g rfl
    obtain ⟨n2, e2, _, p2⟩ := enterOne_new EnemyKind.Dizzy (1 / 5) 4
      (enterOne EnemyKind.Normal (1 / 4) 2 g) rfl
    obtain ⟨n3, e3, _, p3⟩ := enterOne_new EnemyKind.Shy (1 / 10) 4
      (enterOne EnemyKind.Dizzy (1 / 5) 4 (enterOne EnemyKind.Normal (1 / 4) 2 g)) rfl
    refine ⟨n1 ++ n2 ++ n3, ?_, ?_⟩
    · simp only [enemyEnter, if_pos c]
      rw [e3, e2, e1, List.append_assoc, List.append_assoc, List.append_assoc]
    · intro x hx
      rcases List.mem_append.mp hx with h | h
      · rcases List.mem_append.mp h with h1 | h1
        · exact p1 x h1
        · exact p2 x h1
      · exact p3 x h
  · refine ⟨[], ?_, ?_⟩
    · simp only [enemyEnter, if_neg c, List.append_nil]
    · intro x hx; cases hx

/-- The enemy list on entry to the block `// Enemy enter` is the one before the
tick, and the block appends `spawnedNow`, none of which is hit. -/
theorem spawnedNow_spec (env : Env K) (inp : Input) (g : Game K) :
    (enemyEnter (spawnEntry env inp g)).enemies = g.enemies ++ spawnedNow env inp g ∧
    ∀ x ∈ spawnedNow env inp g, Spawned x := by
  have he : (spawnEntry env inp g).enemies = g.enemies := by
    simp only [spawnEntry]
    rw [(release_frame _ _ _).2.1, (aimStart_frame _ _).2.2.1, (stepTimer_frame _).2.2.1,
      (logTouches_frame _ _).2.2.2.1]
  obtain ⟨new, h1, h2⟩ := enemyEnter_new (spawnEntry env inp g)
  have hs : spawnedNow env inp g = new := by
    simp only [spawnedNow]
    rw [h1, he, List.drop_left]
  rw [hs, h1, he]
  exact ⟨rfl, h2⟩

/-- The enemy list on entry to the collision pass is what the loop of the block
`// Enemies` returns on the enemies before the tick followed by the enemies the
tick creates. -/
theorem collisionEntry_enemies (env : Env K) (inp : Input) (g : Game K) :
    ∃ (sp : List (SplashEffect K)) (rng : Rand K),
      (collisionEntry env inp g).enemies
        = (updateEnemiesLoop env (g.enemies ++ spawnedNow env inp g) ([], sp, rng)).1 := by
  have h := (spawnedNow_spec env inp g).1
  simp only [spawnEntry] at h
  simp only [collisionEntry, beforeCollision, updateGainEffects, updateEnemies,
    updateSplashEffects, updateBullets, h]
  exact ⟨_, _, rfl⟩

/-- The enemy list after a tick that starts in the Playing mode is the one
after its collision pass. -/
theorem update_playing_enemies (env : Env K) (inp : Input) (g : Game K)
    (hm : g.mode = GameMode.Playing) :
    (Game.Update env inp g).enemies = (collision (collisionEntry env inp g)).enemies := by
  obtain ⟨G, hG, _, _, _, _, _, _, _, _, hU⟩ := update_eq env inp g
  rw [hm] at hU
  simp only at hU
  rw [hU, hG]
  simp only [playingTick, (finishRound_frame _).2.2.1, collisionEntry]

/-- The enemy list after a tick that does not start in the Playing mode is the
one before the tick, or empty. -/
theorem update_idle_enemies (env : Env K) (inp : Input) (g : Game K)
    (hm : g.mode ≠ GameMode.Playing) :
    (Game.Update env inp g).enemies = g.enemies ∨ (Game.Update env inp g).enemies = [] := by
  obtain ⟨G, hG, _, _, _, _, _, _, _, _, hU⟩ := update_eq env inp g
  have hGe : G.enemies = g.enemies := by
    rw [hG, (logTouches_frame _ _).2.2.2.1]
  cases hmode : g.mode with
  | Title =>
    rw [hmode] at hU
    simp only at hU
    rw [hU]
    split_ifs
    · exact Or.inl hGe
    · exact Or.inl hGe
  | Playing => exact absurd hmode hm
  | GameOver =>
    rw [hmode] at hU
    simp only at hU
    rw [hU]
    obtain ⟨r, hr, _⟩ := pollRanking_eq inp G
    rcases gameOverTick_cases env inp G with ⟨_, h⟩ | ⟨_, _, h⟩ | ⟨_, _, h⟩
    · rw [h]; exact Or.inl hGe
    · rw [h, hr]; exact Or.inl hGe
    · rw [h]; exact Or.inr rfl
  | Ranking =>
    rw [hmode] at hU
    simp only at hU
    rw [hU]
    rcases rankingTick_cases env inp G with ⟨_, h⟩ | ⟨_, h⟩
    · rw [h]; exact Or.inr rfl
    · rw [h]; exact Or.inl hGe

/-- One tick: the scoring events of the tick and the enemies not hit after it
are covered by the enemies not hit before it and the enemies it creates. -/
theorem tick_unhit_balance (env : Env K) (inp : Input) (g : Game K) :
    tickEvents env inp g + unhitCount (Game.Update env inp g).enemies
      ≤ unhitCount g.enemies + tickSpawned env inp g := by
  by_cases hm : g.mode = GameMode.Playing
  · simp only [tickEvents, tickSpawned, if_pos hm]
    rw [update_playing_enemies env inp g hm]
    have hb := marked_unhit_balance (collision_stretch (collisionEntry env inp g)).1
    obtain ⟨sp, rng, he⟩ := collisionEntry_enemies env inp g
    have hl := updateEnemiesLoop_unhit env (g.enemies ++ spawnedNow env inp g) ([], sp, rng)
    rw [← he, unhitCount_append,
      unhitCount_of_unhit (spawnedNow env inp g)
        (fun x hx => ((spawnedNow_spec env inp g).2 x hx).1)] at hl
    have h0 : unhitCount ([] : List (Enemy K)) = 0 := rfl
    simp only [h0] at hl
    omega
  · simp only [tickEvents, tickSpawned, if_neg hm]
    rcases update_idle_enemies env inp g hm with h | h
    · rw [h]; omega
    · rw [h]
      have h0 : unhitCount ([] : List (Enemy K)) = 0 := rfl
      omega

/-- Any sequence of ticks: the scoring events of the sequence and the enemies
not hit after it are covered by the enemies not hit before it and the enemies
created during it. -/
theorem run_unhit_balance (env : Env K) (inps : List Input) (g : Game K) :
    runEvents env inps g + unhitCount (Game.run env inps g).enemies
      ≤ unhitCount g.enemies + runSpawned env inps g := by
  induction inps generalizing g with
  | nil => simp [runEvents, runSpawned, Game.run]
  | cons inp inps ih =>
    have h1 := tick_unhit_balance env inp g
    have h2 := ih (Game.Update env inp g)
    simp only [runEvents, runSpawned, Game.run]
    omega

/-- Every enemy after a tick that starts in the Playing mode stems from an
enemy before the tick or from one the tick creates: it is that enemy moved by
`Enemy.Update` and possibly marked by the collision pass; when that enemy was
hit already, it is only moved. -/
theorem update_enemy_origin (env : Env K) (inp : Input) (g : Game K)
    (hm : g.mode = GameMode.Playing) (x : Enemy K)
    (hx : x ∈ (Game.Update env inp g).enemies) :
    ∃ (e : Enemy K) (r : Rand K), (e ∈ g.enemies ∨ e ∈ spawnedNow env inp g) ∧
      Marked (e.Update r).1 x ∧ (e.hit = true → x = (e.Update r).1 ∧ x.hit = true) := by
  rw [update_playing_enemies env inp g hm] at hx
  obtain ⟨y, hy, hmy⟩ := marked_mem_right (collision_stretch (collisionEntry env inp g)).1 hx
  obtain ⟨sp, rng, he⟩ := collisionEntry_enemies env inp g
  rw [he] at hy
  rcases updateEnemiesLoop_mem env _ _ y hy with h | ⟨e, hin, r, hr⟩
  · cases h
  · refine ⟨e, r, List.mem_append.mp hin, ?_, ?_⟩
    · rw [← hr]; exact hmy
    · intro hh
      have hyh : y.hit = true := by rw [hr, enemy_update_hit]; exact hh
      rcases hmy with h1 | ⟨h0, _⟩
      · rw [h1, ← hr]; exact ⟨rfl, hyh⟩
      · rw [hyh] at h0; cases h0

/-- C3: an enemy, once hit, is excluded from every later collision test, so
each enemy contributes to at most one scoring event over any sequence of ticks.
In the collision pass an enemy whose hit flag is set on entry is left unchanged
at its place and contributes nothing (the score, the gain effects and the
bullets kept are those of the pass run without the enemies already hit);
enemies are only ever marked, one gain effect is appended per enemy newly
marked; the enemy a bullet matches is not hit at that moment; and
`Enemy.Update` keeps the hit flag.  Across ticks: in a tick of the Playing mode
the score grows by the scores of the enemies the pass of that tick newly marks,
the enemies the tick creates are not hit, and every enemy after the tick is an
enemy from before the tick (or one just created) moved by `Enemy.Update` and
possibly marked, an enemy that was hit before the tick being only moved and
still hit; and over every sequence of ticks the number of scoring events plus
the number of enemies not hit at its end is at most the number of enemies not
hit at its start plus the number of enemies created during it. -/
theorem hit_exclusivity (g : Game K) :
    (∀ (j : Nat) (e : Enemy K), g.enemies[j]? = some e → e.hit = true →
      (collision g).enemies[j]? = some e) ∧
    ((collision { g with enemies := g.enemies.filter (fun e => !e.hit) }).score
        = (collision g).score ∧
      (collision { g with enemies := g.enemies.filter (fun e => !e.hit) }).gainEffects
        = (collision g).gainEffects ∧
      (collision { g with enemies := g.enemies.filter (fun e => !e.hit) }).bullets
        = (collision g).bullets) ∧
    (List.Forall₂ Marked g.enemies (collision g).enemies ∧
      (collision g).gainEffects.length
        = g.gainEffects.length + newHitCount g.enemies (collision g).enemies ∧
      newHitCount g.enemies (collision g).enemies
        ≤ (g.enemies.filter (fun e => !e.hit)).length) ∧
    (∀ (b : Bullet K) (es : List (Enemy K)) (e : Enemy K),
      (collideBullet b es).2 = some e → e.hit = false ∧ e ∈ es) ∧
    (∀ (e : Enemy K) (rng : Rand K), (e.Update rng).1.hit = e.hit) ∧
    (∀ (env : Env K) (inp : Input), g.mode = GameMode.Playing →
      (Game.Update env inp g).score
        = g.score + newHitScore (collisionEntry env inp g).enemies
            (Game.Update env inp g).enemies ∧
      (∀ x ∈ spawnedNow env inp g, x.hit = false) ∧
      ∀ x ∈ (Game.Update env inp g).enemies,
        ∃ (e : Enemy K) (r : Rand K), (e ∈ g.enemies ∨ e ∈ spawnedNow env inp g) ∧
          Marked (e.Update r).1 x ∧ (e.hit = true → x = (e.Update r).1 ∧ x.hit = true)) ∧
    (∀ (env : Env K) (inps : List Input),
      runEvents env inps g + unhitCount (Game.run env inps g).enemies
        ≤ unhitCount g.enemies + runSpawned env inps g) := by
  obtain ⟨hm, _, ⟨suf, hg, hl, _⟩, _⟩ := collision_stretch g
  refine ⟨?_, ?_, ⟨hm, ?_, newHitCount_le _ _⟩, ?_, enemy_update_hit, ?_, ?_⟩
  · intro j e hj he
    exact marked_hit_unchanged hm j e hj he
  · obtain ⟨h1, h2, h3, _⟩ := collideLoop_dropHit g.bullets
      { enemies := g.enemies, gainEffects := g.gainEffects, score := g.score, newBullets := [] }
      { enemies := g.enemies.filter (fun e => !e.hit), gainEffects := g.gainEffects,
        score := g.score, newBullets := [] }
      (dropHit_filter g.enemies) rfl rfl rfl
    exact ⟨h1.symm, h2.symm, h3.symm⟩
  · rw [hg, List.length_append, hl]
  · intro b es e he
    rcases collideBullet_spec b es with ⟨h1, _, _⟩ | ⟨pre, post, e1, h1, h2, _, h4, _, _⟩
    · rw [h1] at he; cases he
    · rw [h2] at he
      cases he
      exact ⟨h4, by rw [h1]; simp⟩
  · intro env inp hmode
    refine ⟨?_, fun x hx => ((spawnedNow_spec env inp g).2 x hx).1,
      fun x hx => update_enemy_origin env inp g hmode x hx⟩
    rw [update_playing_enemies env inp g hmode, update_playing_score env inp g hmode]
    have hc := collision_score (collisionEntry env inp g)
    have hs : (collisionEntry env inp g).score = g.score := by
      simp only [collisionEntry]
      rw [beforeCollision_score, (logTouches_frame _ _).1]
    rw [hs] at hc
    exact hc
  · intro env inps
    exact run_unhit_balance env inps g

/-- Witness of C3: the enemy of the sample game that is already hit keeps its
place and state through the collision pass, and over two ticks of that game the
scoring events and the enemies left unhit are covered by the one enemy that was
not hit and the enemies created. -/
theorem hit_exclusivity_witness :
    (collision sampleHitGame).enemies[0]?
      = some { ticks := 10, kind := EnemyKind.Dizzy, hit := true, x := 20, y := -910, z := 200
               vx := 0, vy := 0, vx0 := 4, r := 35 } ∧
    runEvents sampleEnv [idleInput, idleInput] sampleHitGame
        + unhitCount (Game.run sampleEnv [idleInput, idleInput] sampleHitGame).enemies
      ≤ unhitCount sampleHitGame.enemies
        + runSpawned sampleEnv [idleInput, idleInput] sampleHitGame :=
  ⟨(hit_exclusivity sampleHitGame).1 0 _ rfl rfl,
    (hit_exclusivity sampleHitGame).2.2.2.2.2.2 sampleEnv [idleInput, idleInput]⟩

end Archerfish
